import Mathlib

/-!
Verification development for the `validate` package of jjharr/genesis.

Shallow embedding of `src/xfer/validate` (tag-grammar parser, registry,
message resolution, recursive walker, error bag) and of `ToSnake` of
`src/framework/utils/strings`, and theorems about them.

Go strings are embedded as lists of Unicode code points (`Str`).  Every token
the parser searches for is ASCII, so cutting a string at the position of a
token gives the same pieces whether positions are counted in bytes or in code
points; an index is only ever compared with `0`, `-1` or `len - 1`, or used to
cut the string at a token.  A Go run-time panic (index out of range) is
embedded as `none`.
-/

namespace Genesis

/-- A Go string, as the list of its code points. -/
abbrev Str := List Char

/-! ## The functions of package `strings` the parser uses -/

/-- Search loop of `strings.Index`: `i` is the position of the first character of `s`. -/
def indexFrom (sep : Str) : Str → Nat → Int
  | [], i => if sep = [] then (i : Int) else -1
  | c :: cs, i => if sep.isPrefixOf (c :: cs) then (i : Int) else indexFrom sep cs (i + 1)

/-- Go `strings.Index(s, sep)`: position of the first occurrence of `sep` in `s`, or `-1`. -/
def Index (s sep : Str) : Int := indexFrom sep s 0

/-- Search loop of `strings.LastIndex`: `best` is the last occurrence seen so far. -/
def lastIndexFrom (sep : Str) : Str → Nat → Int → Int
  | [], i, best => if sep = [] then (i : Int) else best
  | c :: cs, i, best =>
    lastIndexFrom sep cs (i + 1) (if sep.isPrefixOf (c :: cs) then (i : Int) else best)

/-- Go `strings.LastIndex(s, sep)`: position of the last occurrence of `sep` in `s`, or `-1`. -/
def LastIndex (s sep : Str) : Int := lastIndexFrom sep s 0 (-1)

/-- Scanning loop of `strings.Split` for a non-empty separator: `skip` counts the
characters of a separator just recognised that are still to be passed over, `cur`
is the piece being collected. -/
def splitLoop (sep : Str) : Str → Nat → Str → List Str
  | [], _, cur => [cur]
  | _ :: cs, skip + 1, cur => splitLoop sep cs skip cur
  | c :: cs, 0, cur =>
    if sep.isPrefixOf (c :: cs) then cur :: splitLoop sep cs (sep.length - 1) []
    else splitLoop sep cs 0 (cur ++ [c])

/-- Go `strings.Split(s, sep)` for a non-empty `sep` (the only way the package calls it). -/
def Split (s sep : Str) : List Str := splitLoop sep s 0 []

/-- Go indexing `s[i]` with a run-time bounds check: `none` is the index-out-of-range panic. -/
def charAt (s : Str) (i : Int) : Option Char :=
  if i < 0 then none else s.get? i.toNat

/-! ## Tokens of the tag grammar (`validator.go`, the `const` block) -/

def tagName : Str := "valid".toList
def validatorSeparator : Str := "|".toList
def settingsToken : Str := "=".toList
def customMessageToken : Str := "->".toList
def paramOpenToken : Str := "(".toList
def paramCloseToken : Str := ")".toList
def paramSeparator : Str := ",".toList

/-- The raw string literal written as one backslash in `extractParams`. -/
def backslash1 : Str := [Char.ofNat 92]

/-- The raw string literal written as two backslashes in `extractParams`. -/
def backslash2 : Str := [Char.ofNat 92, Char.ofNat 92]

/-! ## Message sets (`types.go`) -/

/-- Go `MessageSet`. -/
structure MessageSet where
  Message : Str := []
  MessageFmt : Str := []
  NegatedMessage : Str := []
  NegatedMessageFmt : Str := []
  deriving DecidableEq, Repr

/-! ## Parameter extraction (`validator.go`) -/

/-- The `for _, v := range re` loop of `extractParams`; `param` and `params` are the
loop's two variables.  `none` is an index-out-of-range panic. -/
def extractParamsLoop : List Str → Str → List Str → Option (List Str)
  | [], _, params => some params
  | v :: re, param, params =>
    match charAt v ((v.length : Int) - 1) with
    | none => none
    | some last =>
      if [last] = backslash1 then
        match charAt v ((v.length : Int) - 2) with
        | none => none
        | some prev =>
          if [prev] ≠ backslash2 then extractParamsLoop re (param ++ v ++ paramSeparator) params
          else extractParamsLoop re [] (params ++ [param ++ v])
      else extractParamsLoop re [] (params ++ [param ++ v])

/-- Go `extractParams`. -/
def extractParams (rawParamStr : Str) : Option (List Str) :=
  if Index rawParamStr paramSeparator < 0 then some [rawParamStr]
  else extractParamsLoop (Split rawParamStr paramSeparator) [] []

/-- The message of the error `params` returns. -/
def paramsCloseError (key fieldName : Str) : Str :=
  "The parameter close token for ".toList ++ key ++ " on field ".toList ++ fieldName ++
    " is incorrect or missing".toList

/-- Go `params`: the key, the parameters and the error it returns; `none` when
`extractParams` panics. -/
def params (validationText fieldName : Str) : Option (Str × List Str × Option Str) :=
  let paramsOpenIndex := Index validationText paramOpenToken
  if paramsOpenIndex > 0 then
    let validationKey := validationText.take paramsOpenIndex.toNat
    let paramsCloseIndex := LastIndex validationText paramCloseToken
    if paramsCloseIndex ≠ (validationText.length : Int) - (paramCloseToken.length : Int) then
      some ([], [], some (paramsCloseError (validationText.take paramsOpenIndex.toNat) fieldName))
    else
      let paramStr := (validationText.take paramsCloseIndex.toNat).drop
        (paramsOpenIndex.toNat + paramOpenToken.length)
      match extractParams paramStr with
      | none => none
      | some ps => some (validationKey, ps, none)
  else some (validationText, [], none)

/-- The message of the error `extractMessage` returns. -/
def missingMessageError (fieldName : Str) : Str :=
  "Custom message indicated but not given for ".toList ++ fieldName

/-- Go `extractMessage`: the key, the message set (a nil pointer is `none`) and the error. -/
def extractMessage (key fieldName : Str) (negated : Bool) : Str × Option MessageSet × Option Str :=
  let customMessageIndex := Index key customMessageToken
  if customMessageIndex > 0 then
    let cm := key.drop (customMessageIndex.toNat + customMessageToken.length)
    let key1 := key.take customMessageIndex.toNat
    if cm.length = 0 then (key1, none, some (missingMessageError fieldName))
    else
      let isFmt : Bool := decide (Index cm "%s".toList > -1)
      let ms : MessageSet :=
        if !(negated && isFmt) then { Message := cm }
        else if !negated then { MessageFmt := cm }
        else if negated && !isFmt then { NegatedMessage := cm }
        else { NegatedMessageFmt := cm }
      (key1, some ms, none)
  else (key, none, none)

/-! ## Go values as the walker sees them through `reflect` -/

/-- The signed integer kinds of `reflect`. -/
inductive IntKind where
  | Int | Int8 | Int16 | Int32 | Int64
  deriving DecidableEq, Repr

/-- The unsigned integer kinds of `reflect`. -/
inductive UintKind where
  | Uint | Uint8 | Uint16 | Uint32 | Uint64 | Uintptr
  deriving DecidableEq, Repr

/-- The floating-point kinds of `reflect`. -/
inductive FloatKind where
  | Float32 | Float64
  deriving DecidableEq, Repr

/-- Go `reflect.Kind`. -/
inductive Kind where
  | Invalid | Bool | Int (k : IntKind) | Uint (k : UintKind) | Float (k : FloatKind)
  | Complex64 | Complex128 | Array | Chan | Func | Interface | Map | Ptr | Slice | String
  | Struct | UnsafePointer
  deriving DecidableEq, Repr

/-- What `reflect.StructField` tells the walker about a field: its name, its package
path (empty exactly for an exported field) and its struct tag, as the key/value pairs
`Tag.Get` reads. -/
structure StructField where
  Name : Str
  PkgPath : Str := []
  Tag : List (Str × Str) := []
  deriving DecidableEq, Repr

/-- A Go value together with what `reflect` reports of its type.  Scalars are of the
predeclared types.  A finite float is given by its rational value.  `iface none`
is the nil interface and `ptr none` a nil pointer; the value an interface holds is never
itself an `iface`.  `other k` stands for a non-nil value of a kind the walker does not
support (channel, function, complex number, unsafe pointer). -/
inductive Value where
  | bool (b : Bool)
  | int (k : IntKind) (i : Int)
  | uint (k : UintKind) (n : Nat)
  | float (k : FloatKind) (q : Rat)
  | string (s : Str)
  | ptr (elem : Option Value)
  | iface (elem : Option Value)
  | slice (elems : List Value)
  | array (elems : List Value)
  | map (keyKind : Kind) (entries : List (Value × Value))
  | struct (typeName : Str) (fields : List (StructField × Value))
  | other (k : Kind)
  deriving Repr

namespace Value

/-- Go `reflect.Value.Kind`. -/
def Kind : Value → Genesis.Kind
  | .bool _ => .Bool
  | .int k _ => .Int k
  | .uint k _ => .Uint k
  | .float k _ => .Float k
  | .string _ => .String
  | .ptr _ => .Ptr
  | .iface _ => .Interface
  | .slice _ => .Slice
  | .array _ => .Array
  | .map _ _ => .Map
  | .struct _ _ => .Struct
  | .other k => k

/-- Go `reflect.Value.Interface`: the value as an `interface{}`; a field of interface
type yields the value it holds. -/
def Interface : Value → Value
  | .iface (some x) => x
  | v => v

/-- Go comparison `val == nil` on an `interface{}`. -/
def isNilInterface : Value → Bool
  | .iface none => true
  | _ => false

end Value

/-- Go `Kind.String` (the name clashes with the constructor for strings). -/
def Kind.kindName : Kind → Str
  | .Invalid => "invalid".toList
  | .Bool => "bool".toList
  | .Int .Int => "int".toList
  | .Int .Int8 => "int8".toList
  | .Int .Int16 => "int16".toList
  | .Int .Int32 => "int32".toList
  | .Int .Int64 => "int64".toList
  | .Uint .Uint => "uint".toList
  | .Uint .Uint8 => "uint8".toList
  | .Uint .Uint16 => "uint16".toList
  | .Uint .Uint32 => "uint32".toList
  | .Uint .Uint64 => "uint64".toList
  | .Uint .Uintptr => "uintptr".toList
  | .Float .Float32 => "float32".toList
  | .Float .Float64 => "float64".toList
  | .Complex64 => "complex64".toList
  | .Complex128 => "complex128".toList
  | .Array => "array".toList
  | .Chan => "chan".toList
  | .Func => "func".toList
  | .Interface => "interface".toList
  | .Map => "map".toList
  | .Ptr => "ptr".toList
  | .Slice => "slice".toList
  | .String => "string".toList
  | .Struct => "struct".toList
  | .UnsafePointer => "unsafe.Pointer".toList

/-- Go `reflect.Type.Name` of the type of a value: the name of a predeclared or defined
type, empty for an unnamed composite type. -/
def Value.TypeName : Value → Str
  | .struct n _ => n
  | .ptr _ | .iface _ | .slice _ | .array _ | .map _ _ | .other _ => []
  | v => v.Kind.kindName

/-! ## What the package takes from the Go library and from files outside this development -/

/-- Go library functions used by the package whose results the embedding does not
compute: `fmt.Sprintf` with one operand, `strings.Title`, `strconv.ParseFloat`, and the
leaf predicates built on regular expressions of `patterns.go` or on `net`, `net/url`,
`unicode` and `encoding/json` (named by their Go function name).  The one fact recorded
about `Sprintf` is that the verb `%v` prints a string operand as it is. -/
structure Ext where
  Sprintf : Str → Value → Str
  Title : Str → Str
  ParseFloat : Str → Option Rat
  leafString : Str → Str → List Value → Bool
  leafOp : Str → Value → List Value → Bool
  Sprintf_v_string : ∀ s : Str, Sprintf "%v".toList (Value.string s) = s

/-! ## Validators and bound field validators (`types.go`) -/

/-- The functions `init` registers as a general operation `Op`.  Those the development
computes are named; `leaf` is a function it takes from the library record, by its Go name. -/
inductive GenericOp where
  | IsNonEmpty
  | Between
  | IsNull
  | leaf (goName : String)
  deriving DecidableEq, Repr

/-- The functions `init` registers as a string operation `OpString`. -/
inductive StringOp where
  | IsAlpha
  | StringMatches
  | leaf (goName : String)
  deriving DecidableEq, Repr

/-- Go `EmValidator`; a nil `Op` or `OpString` is `none`, and a function value is given
by the name of the function. -/
structure EmValidator where
  Key : Str := []
  Op : Option GenericOp := none
  OpString : Option StringOp := none
  CanValidateComplexTypes : Bool := false
  DefaultMessages : MessageSet := {}
  ValidatorCustomMessages : MessageSet := {}
  deriving DecidableEq, Repr

/-- Go `FieldValidator`. -/
structure FieldValidator where
  FieldName : Str := []
  FieldValue : Value := Value.iface none
  Validator : EmValidator := {}
  ValidatorParams : List Value := []
  IsNegated : Bool := false
  FieldCustomMessages : MessageSet := {}

/-- The opening brace. -/
def braceOpen : Char := Char.ofNat 123

/-- The closing brace. -/
def braceClose : Char := Char.ofNat 125

/-- The line feed, the one character `.` does not match in a Go regular expression. -/
def lineFeed : Char := Char.ofNat 10

/-- The rest of a match of `customMessageVarRegex` (an opening brace, as few characters
other than a line feed as possible, a closing brace) once the opening brace is read:
`acc` is the text matched so far. -/
def matchVarRest : Str → Str → Option Str
  | [], _ => none
  | c :: cs, acc =>
    if c = braceClose then some (acc ++ [c])
    else if c = lineFeed then none
    else matchVarRest cs (acc ++ [c])

/-- The match of `customMessageVarRegex` that starts at the first character of the text. -/
def matchVar : Str → Option Str
  | [] => none
  | c :: cs => if c = braceOpen then matchVarRest cs [c] else none

/-- Go `customMessageVarRegex.ReplaceAllStringFunc(msg, repl)`: every leftmost match is
replaced by `repl` of it and the search goes on behind the match; `skip` counts the
characters of the last match still to be passed over. -/
def replaceLoop (repl : Str → Str) : Str → Nat → Str
  | [], _ => []
  | _ :: cs, skip + 1 => replaceLoop repl cs skip
  | c :: cs, 0 =>
    match matchVar (c :: cs) with
    | some m => repl m ++ replaceLoop repl cs (m.length - 1)
    | none => c :: replaceLoop repl cs 0

/-- Go `ReplaceAllStringFunc` for `customMessageVarRegex`. -/
def ReplaceAllStringFunc (msg : Str) (repl : Str → Str) : Str := replaceLoop repl msg 0

/-- The `replacements` map of `fillMessagePlaceholders`. -/
def FieldValidator.replacements (ms : FieldValidator) (key : Str) : Option Value :=
  if key = "field".toList then some (Value.string ms.FieldName)
  else if key = "value".toList then some ms.FieldValue
  else none

/-- The function `fillMessagePlaceholders` applies to every match. -/
def FieldValidator.fillOne (E : Ext) (ms : FieldValidator) (val : Str) : Str :=
  let key := (val.take (val.length - 1)).drop 1
  let parts := Split key ":".toList
  let key1 := if parts.length > 1 then parts.getD 0 [] else key
  let formatString := if parts.length > 1 then parts.getD 1 [] else "%v".toList
  match ms.replacements key1 with
  | some replacement => E.Sprintf formatString replacement
  | none => "???".toList

/-- Go `FieldValidator.fillMessagePlaceholders`. -/
def FieldValidator.fillMessagePlaceholders (E : Ext) (ms : FieldValidator) (msg : Str) : Str :=
  if Index msg [braceOpen] < 0 then msg
  else ReplaceAllStringFunc msg (ms.fillOne E)

/-- Go `FieldValidator.CanValidateComplexTypes`. -/
def FieldValidator.CanValidateComplexTypes (ms : FieldValidator) : Bool :=
  ms.Validator.CanValidateComplexTypes

/-- Go `FieldValidator.Message`. -/
def FieldValidator.Message (E : Ext) (ms : FieldValidator) : Str :=
  if ms.FieldCustomMessages.Message.length > 0 then
    ms.fillMessagePlaceholders E ms.FieldCustomMessages.Message
  else if ms.FieldCustomMessages.MessageFmt.length > 0 then
    E.Sprintf ms.FieldCustomMessages.MessageFmt (Value.string ms.FieldName)
  else if ms.Validator.DefaultMessages.Message.length > 0 then
    ms.fillMessagePlaceholders E ms.Validator.DefaultMessages.Message
  else E.Sprintf ms.Validator.DefaultMessages.MessageFmt (Value.string ms.FieldName)

/-- Go `FieldValidator.NegatedMessage`. -/
def FieldValidator.NegatedMessage (E : Ext) (ms : FieldValidator) : Str :=
  if ms.FieldCustomMessages.NegatedMessage.length > 0 then
    ms.FieldCustomMessages.Message
  else if ms.FieldCustomMessages.NegatedMessageFmt.length > 0 then
    E.Sprintf ms.FieldCustomMessages.MessageFmt (Value.string ms.FieldName)
  else if ms.Validator.DefaultMessages.NegatedMessage.length > 0 then
    ms.Validator.DefaultMessages.Message
  else E.Sprintf ms.Validator.DefaultMessages.NegatedMessageFmt (Value.string ms.FieldName)

/-! ## The reading of a custom message as text and placeholders -/

/-- A piece of a custom message as the specification describes it: plain text, a
placeholder written as a name in braces, or a placeholder written as a name, a colon and
a format in braces. -/
inductive Token where
  | text (t : Str)
  | var (name : Str)
  | varFmt (name fmt : Str)
  deriving DecidableEq, Repr

/-- A character that may stand in a placeholder name or format: not a closing brace, not
a colon, not a line feed. -/
def plainChar (c : Char) : Bool :=
  c != braceClose && c != lineFeed && c != Char.ofNat 58

/-- Text holds no opening brace; the name and format of a placeholder are made of plain
characters. -/
def Token.WellFormed : Token → Bool
  | .text t => !t.contains braceOpen
  | .var name => name.all plainChar
  | .varFmt name fmt => name.all plainChar && fmt.all plainChar

/-- The message text a piece stands for. -/
def Token.render : Token → Str
  | .text t => t
  | .var name => [braceOpen] ++ name ++ [braceClose]
  | .varFmt name fmt => [braceOpen] ++ name ++ ":".toList ++ fmt ++ [braceClose]

/-- What the specification puts in the place of a piece: text stays, `field` gives the
display name, `value` the field value, any other name three question marks. -/
def Token.subst (E : Ext) (displayName : Str) (fieldValue : Value) : Token → Str
  | .text t => t
  | .var name =>
    if name = "field".toList then displayName
    else if name = "value".toList then E.Sprintf "%v".toList fieldValue
    else "???".toList
  | .varFmt name fmt =>
    if name = "field".toList then E.Sprintf fmt (Value.string displayName)
    else if name = "value".toList then E.Sprintf fmt fieldValue
    else "???".toList

/-- The formatting of the sample library: the operand takes the place of the first verb
`%s` or `%v` of the format. -/
def sampleFormat : Str → Str → Str
  | [], _ => []
  | [c], _ => [c]
  | c :: d :: rest, s =>
    if c = Char.ofNat 37 ∧ (d = Char.ofNat 115 ∨ d = Char.ofNat 118) then s ++ rest
    else c :: sampleFormat (d :: rest) s

/-- A library instance for evaluating examples: `Sprintf` formats a string operand with
`sampleFormat` (other operands are not printed), `Title` leaves a name as it is, and every
leaf predicate accepts. -/
def Ext.sample : Ext where
  Sprintf := fun format v => match v with
    | Value.string s => sampleFormat format s
    | _ => []
  Title := fun s => s
  ParseFloat := fun _ => none
  leafString := fun _ _ _ => true
  leafOp := fun _ _ _ => true
  Sprintf_v_string := fun s => by
    show sampleFormat [Char.ofNat 37, Char.ofNat 118] s = s
    simp [sampleFormat]

/-! ## `strconv.ParseInt(s, 0, 64)` -/

/-- The errors of the converters: the two errors of `strconv` and the error `toInt` and
`toFloat` build for a value they cannot convert. -/
inductive ConvError where
  | syntaxError (s : Str)
  | rangeError (s : Str)
  | cantConvert (kind : Str)
  deriving DecidableEq, Repr

/-- Go `strconv.lower`: the byte with the lower-case bit set. -/
def lower (c : Char) : Nat := c.toNat ||| 32

/-- The largest `uint64`. -/
def maxUint64 : Nat := 2 ^ 64 - 1

/-- The digit loop of `strconv.ParseUint` (called with base 0, so an underscore is passed
over and remembered): `n` is the number read so far.  The result is the number and
whether an underscore was seen. -/
def parseUintLoop (s0 : Str) (base : Nat) : Str → Nat → Bool → Except ConvError (Nat × Bool)
  | [], n, underscores => .ok (n, underscores)
  | c :: cs, n, underscores =>
    if c = Char.ofNat 95 then parseUintLoop s0 base cs n true
    else
      let d : Option Nat :=
        if 48 ≤ c.toNat ∧ c.toNat ≤ 57 then some (c.toNat - 48)
        else if 97 ≤ lower c ∧ lower c ≤ 122 then some (lower c - 97 + 10)
        else none
      match d with
      | none => .error (.syntaxError s0)
      | some d =>
        if d ≥ base then .error (.syntaxError s0)
        else if n ≥ maxUint64 / base + 1 then .error (.rangeError s0)
        else if n * base + d > maxUint64 then .error (.rangeError s0)
        else parseUintLoop s0 base cs (n * base + d) underscores

/-- The loop of `strconv.underscoreOK`; `i` is `0` after a digit or base prefix, `1` after
an underscore, `2` at the beginning of the number and `3` after anything else. -/
def underscoreOKLoop (hex : Bool) : Str → Nat → Bool
  | [], i => i != 1
  | c :: cs, i =>
    if (48 ≤ c.toNat ∧ c.toNat ≤ 57) ∨ (hex = true ∧ 97 ≤ lower c ∧ lower c ≤ 102) then
      underscoreOKLoop hex cs 0
    else if c = Char.ofNat 95 then
      if i != 0 then false else underscoreOKLoop hex cs 1
    else if i == 1 then false
    else underscoreOKLoop hex cs 3

/-- Go `strconv.underscoreOK`: underscores only stand between digits or after a base prefix. -/
def underscoreOK (s : Str) : Bool :=
  let s1 := match s with
    | c :: cs => if c = Char.ofNat 45 ∨ c = Char.ofNat 43 then cs else s
    | [] => s
  match s1 with
  | c0 :: c1 :: cs =>
    if c0 = Char.ofNat 48 ∧ (lower c1 = 98 ∨ lower c1 = 111 ∨ lower c1 = 120) then
      underscoreOKLoop (lower c1 == 120) cs 0
    else underscoreOKLoop false s1 2
  | _ => underscoreOKLoop false s1 2

/-- Go `strconv.ParseUint(s, 0, 64)`: the base is read off the prefix (`0b` 2, `0o` or a
leading `0` 8, `0x` 16, otherwise 10). -/
def ParseUint0 (s : Str) : Except ConvError Nat :=
  match s with
  | [] => .error (.syntaxError s)
  | c0 :: rest =>
    let baseAndDigits : Nat × Str :=
      if c0 = Char.ofNat 48 then
        match rest with
        | c1 :: c2 :: cs =>
          if lower c1 = 98 then (2, c2 :: cs)
          else if lower c1 = 111 then (8, c2 :: cs)
          else if lower c1 = 120 then (16, c2 :: cs)
          else (8, rest)
        | _ => (8, rest)
      else (10, s)
    match parseUintLoop s baseAndDigits.1 baseAndDigits.2 0 false with
    | .error e => .error e
    | .ok (n, underscores) =>
      if underscores && !underscoreOK s then .error (.syntaxError s) else .ok n

/-- Go `strconv.ParseInt(s, 0, 64)`. -/
def ParseInt0 (s : Str) : Except ConvError Int :=
  match s with
  | [] => .error (.syntaxError s)
  | c :: cs =>
    let neg : Bool := c = Char.ofNat 45
    let digits : Str := if c = Char.ofNat 43 ∨ c = Char.ofNat 45 then cs else s
    match ParseUint0 digits with
    | .error (.rangeError _) => .error (.rangeError s)
    | .error _ => .error (.syntaxError s)
    | .ok un =>
      if !neg && un ≥ 2 ^ 63 then .error (.rangeError s)
      else if neg && un > 2 ^ 63 then .error (.rangeError s)
      else .ok (if neg then -(un : Int) else (un : Int))

/-! ## Converters and predicates (`validators.go`) -/

/-- The integer a float is cut to: the fraction is dropped. -/
def truncate (q : Rat) : Int := if q ≥ 0 then ⌊q⌋ else ⌈q⌉

/-- Go conversion `int64(f)` of a finite float: the fraction is cut off.  For a value
outside the range of `int64` the result depends on the machine; it is `-2 ^ 63` on amd64,
which is taken here. -/
def int64OfFloat (q : Rat) : Int :=
  if -(2 : Int) ^ 63 ≤ truncate q ∧ truncate q < (2 : Int) ^ 63 then truncate q
  else -(2 : Int) ^ 63

/-- The number of low bits of a 64-bit number that a `float64` cannot keep: the least `e`
with `n / 2 ^ e < 2 ^ 53`. -/
def droppedBits (n : Nat) : Nat :=
  ((List.range 12).find? (fun e => decide (n / 2 ^ e < 2 ^ 53))).getD 12

/-- Go conversion `float64(u)` of a `uint64`: the nearest number with a significand of
53 bits, a tie going to the even significand (exact below `2 ^ 53`). -/
def float64OfNat (n : Nat) : Nat :=
  let e := droppedBits n
  let q := n / 2 ^ e
  let r := n % 2 ^ e
  if 2 * r > 2 ^ e ∨ (2 * r = 2 ^ e ∧ q % 2 = 1) then (q + 1) * 2 ^ e else q * 2 ^ e

/-- Go conversion `float64(i)` of an `int64`. -/
def float64OfInt (i : Int) : Rat :=
  if 0 ≤ i then (float64OfNat i.toNat : Rat) else -(float64OfNat (-i).toNat : Rat)

/-- Go conversion `int64(u)` of a `uint64`: the value modulo `2 ^ 64`, read as a signed
number, so a value from `2 ^ 63` on becomes negative. -/
def int64OfUint (n : Nat) : Int :=
  if n % 2 ^ 64 < 2 ^ 63 then ((n % 2 ^ 64 : Nat) : Int) else ((n % 2 ^ 64 : Nat) : Int) - 2 ^ 64

/-- Go `toInt`: a string is parsed; `int`, `int8`, `int16`, `int32`, `uint`, `uint8`,
`uint16`, `uint32` and the floats are converted (an unsigned value through
`int64(v.Uint())`); every other type, `int64` and `uint64` among them, is an error. -/
def toInt : Value → Except ConvError Int
  | .string s => ParseInt0 s
  | .int .Int64 _ => .error (.cantConvert (Kind.Int .Int64).kindName)
  | .int _ i => .ok i
  | .uint .Uint n | .uint .Uint8 n | .uint .Uint16 n | .uint .Uint32 n => .ok (int64OfUint n)
  | .float _ q => .ok (int64OfFloat q)
  | v => .error (.cantConvert v.Kind.kindName)

/-- Go `toFloat`: an integer is converted by `float64(v.Int())` or `float64(v.Uint())`,
which rounds a number of more than 53 bits. -/
def toFloat (E : Ext) : Value → Except ConvError Rat
  | .string s =>
    match E.ParseFloat s with
    | some q => .ok q
    | none => .error (.syntaxError s)
  | .int .Int64 _ => .error (.cantConvert (Kind.Int .Int64).kindName)
  | .int _ i => .ok (float64OfInt i)
  | .uint .Uint n | .uint .Uint8 n | .uint .Uint16 n | .uint .Uint32 n =>
    .ok (float64OfNat (n % 2 ^ 64) : Rat)
  | .float _ q => .ok q
  | v => .error (.cantConvert v.Kind.kindName)

/-- The value of `x, _ := conv(val)`: on an error Go hands back the zero value. -/
def valueOrZero {α : Type} [Zero α] : Except ConvError α → α
  | .ok x => x
  | .error _ => 0

/-- Go `minMaxToInt`. -/
def minMaxToInt (min max : Value) : Except ConvError (Int × Int) :=
  match toInt min with
  | .error e => .error e
  | .ok intMin =>
    match toInt max with
    | .error e => .error e
    | .ok intMax => .ok (intMin, intMax)

/-- Go `minMaxToFloat`. -/
def minMaxToFloat (E : Ext) (min max : Value) : Except ConvError (Rat × Rat) :=
  match toFloat E min with
  | .error e => .error e
  | .ok floatMin =>
    match toFloat E max with
    | .error e => .error e
    | .ok floatMax => .ok (floatMin, floatMax)

/-- Go `Between`.  The type switch names `string`, then `int`, `int8`, `int16`, `int64`
and the unsigned types from `uint` to `uint64`, then the floats; `int32` and `uintptr`
fall to the default. -/
def Between (E : Ext) (val : Value) (params : List Value) : Bool :=
  match params with
  | [p0, p1] =>
    match val with
    | .string x =>
      if x.length = 0 then true
      else
        match minMaxToInt p0 p1 with
        | .error _ => false
        | .ok (min, max) => decide ((x.length : Int) ≥ min ∧ (x.length : Int) ≤ max)
    | .int .Int32 _ => false
    | .uint .Uintptr _ => false
    | .int _ _ | .uint _ _ =>
      let x := valueOrZero (toInt val)
      if x = 0 then true
      else
        match minMaxToInt p0 p1 with
        | .error _ => false
        | .ok (min, max) => decide (x ≥ min ∧ x ≤ max)
    | .float _ _ =>
      let x := valueOrZero (toFloat E val)
      if x = 0 then true
      else
        match minMaxToFloat E p0 p1 with
        | .error _ => false
        | .ok (min, max) => decide (x ≥ min ∧ x ≤ max)
    | _ => false
  | _ => false

/-! ## Decimal integer strings in their usual writing -/

/-- The characters `0` to `9`. -/
def isDecimalDigit (c : Char) : Bool := decide (48 ≤ c.toNat ∧ c.toNat ≤ 57)

/-- The number a string of decimal digits denotes. -/
def decimalValue (ds : Str) : Nat := ds.foldl (fun n c => n * 10 + (c.toNat - 48)) 0

/-- Digits in the usual writing of a number: at least one digit, only digits, and no
leading zero except for the number zero itself. -/
def CanonicalDigits (ds : Str) : Bool :=
  !ds.isEmpty && ds.all isDecimalDigit && (ds.head? != some (Char.ofNat 48) || ds == [Char.ofNat 48])

/-- A decimal integer string: the digits, after a minus sign when `neg` holds. -/
def decimalNumeral (neg : Bool) (ds : Str) : Str := if neg then Char.ofNat 45 :: ds else ds

/-- The integer a decimal integer string denotes. -/
def decimalInt (neg : Bool) (ds : Str) : Int :=
  if neg then -(decimalValue ds : Int) else (decimalValue ds : Int)

/-- The integers an `int64` holds. -/
def inInt64 (i : Int) : Bool := decide (-(2 : Int) ^ 63 ≤ i ∧ i ≤ 2 ^ 63 - 1)

/-! ## The grouping of parameter segments the grammar describes -/

/-- A segment that ends in a backslash: the comma behind it is escaped. -/
def endsInBackslash (v : Str) : Bool := v.getLast? == some (Char.ofNat 92)

/-- The parameters of a list of comma-separated segments: a segment that ends in a
backslash is joined, with the comma, to what follows it; `param` is the text joined so
far. -/
def foldEscaped : List Str → Str → List Str
  | [], _ => []
  | v :: re, param =>
    if endsInBackslash v then foldEscaped re (param ++ v ++ paramSeparator)
    else (param ++ v) :: foldEscaped re []

/-- A segment on which the loop of `extractParams` does not read out of range: it is not
empty and, when it ends in a backslash, has a character before the backslash. -/
def safeSegment (v : Str) : Bool := !v.isEmpty && (!endsInBackslash v || decide (2 ≤ v.length))

/-- Go `unicode.IsSpace`. -/
def isSpace (c : Char) : Bool :=
  let n := c.toNat
  (9 ≤ n && n ≤ 13) || n == 32 || n == 0x85 || n == 0xA0 || n == 0x1680 ||
    (0x2000 ≤ n && n ≤ 0x200A) || n == 0x2028 || n == 0x2029 || n == 0x202F ||
    n == 0x205F || n == 0x3000

/-- Go `strings.TrimSpace`. -/
def TrimSpace (s : Str) : Str :=
  ((s.dropWhile isSpace).reverse.dropWhile isSpace).reverse

/-- Go `getLen`: the length of an array, slice, map or string, `-1` for anything else. -/
def getLen : Value → Int
  | .array es => es.length
  | .slice es => es.length
  | .map _ es => es.length
  | .string s => s.length
  | _ => -1

/-- Go `IsNonEmpty`, the predicate of `required`. -/
def IsNonEmpty (val : Value) (_params : List Value) : Bool :=
  match val with
  | .int _ t => decide (t > 0)
  | .string t => decide ((TrimSpace t).length > 0)
  | .float _ t => decide (t > 0)
  | _ =>
    let len := getLen val
    if len < 0 then
      if val.isNilInterface then false
      else
        match val with
        | .ptr elem => elem.isSome
        | _ => true
    else decide (len > 0)

/-- The comparison `strings.ToLower(str) == "null"` of `IsNull`.  The only characters
whose lower case is one of the letters n, u, l are those letters and their ASCII capitals,
so lowering ASCII capitals decides it. -/
def lowerIsNull (str : Str) : Bool :=
  str.map Char.toLower == "null".toList

/-- Go `IsNull`. -/
def IsNull (val : Value) (_params : List Value) : Bool :=
  match val with
  | .iface none => true
  | .string str => str.length == 0 || lowerIsNull str
  | _ => false

/-- Modelled from the spec: the regular expression `rxAlpha` is declared in `patterns.go`,
which is not among the sources; the comment on `IsAlpha` says the string contains only
letters (a-zA-Z), so the match is a non-empty string of ASCII letters. -/
def rxAlphaMatchString (str : Str) : Bool :=
  !str.isEmpty && str.all (fun c => (65 ≤ c.toNat && c.toNat ≤ 90) || (97 ≤ c.toNat && c.toNat ≤ 122))

/-- Go `IsAlpha`. -/
def IsAlpha (str : Str) (_params : List Value) : Bool :=
  if IsNull (Value.string str) [] then true else rxAlphaMatchString str

/-- Go `Matches`: the pattern is quoted by `regexp.QuoteMeta` before it is compiled, so
the match is the search for the pattern as literal text. -/
def Matches (str pattern : Str) : Bool := decide (Index str pattern ≥ 0)

/-- Go `StringMatches`, the predicate of `matches`. -/
def StringMatches (val : Str) (params : List Value) : Bool :=
  match params with
  | [Value.string pattern] => Matches val pattern
  | _ => false

/-- The function a general operation names. -/
def GenericOp.apply (E : Ext) : GenericOp → Value → List Value → Bool
  | .IsNonEmpty => Genesis.IsNonEmpty
  | .Between => Genesis.Between E
  | .IsNull => Genesis.IsNull
  | .leaf goName => E.leafOp goName.toList

/-- The function a string operation names. -/
def StringOp.apply (E : Ext) : StringOp → Str → List Value → Bool
  | .IsAlpha => Genesis.IsAlpha
  | .StringMatches => Genesis.StringMatches
  | .leaf goName => E.leafString goName.toList

/-- Go `EmValidator.Validate`: the verdict, or the error for a value no operation of the
validator applies to. -/
def EmValidator.Validate (E : Ext) (ev : EmValidator) (v : Value) (params : List Value) :
    Except Str Bool :=
  match ev.Op with
  | some op => .ok (op.apply E v.Interface params)
  | none =>
    match v.Interface, ev.OpString with
    | Value.string t, some opString => .ok (opString.apply E t params)
    | _, _ => .error ("No default validator for field of type ".toList ++ v.TypeName)

/-! ## The registry (`types.go`, `messages_en.go`) -/

/-- The registry `emKeyMap`: validators by key. -/
abbrev Registry := List (Str × EmValidator)

/-- Go `emKeyMap.Put`. -/
def Registry.Put (reg : Registry) (key : Str) (ev : EmValidator) : Registry :=
  if reg.any (fun p => p.1 == key) then reg.map (fun p => if p.1 == key then (key, ev) else p)
  else reg ++ [(key, ev)]

/-- Go `GetValidator`. -/
def GetValidator (reg : Registry) (key : Str) : Option EmValidator :=
  (reg.find? (fun p => p.1 == key)).map Prod.snd

/-- A validator with a string operation taken from outside the development. -/
def leafStringValidator (goName : String) : EmValidator :=
  { OpString := some (StringOp.leaf goName) }

/-- A validator with a general operation taken from outside the development. -/
def leafOpValidator (goName : String) : EmValidator :=
  { Op := some (GenericOp.leaf goName) }

/-- The registrations of `init`, in the order of the source. -/
def registrations : List (String × EmValidator) :=
  [ ("required",
      { Op := some GenericOp.IsNonEmpty, CanValidateComplexTypes := true,
        DefaultMessages := { Message := "{field} must not be empty".toList } }),
    ("between",
      { Op := some GenericOp.Between,
        DefaultMessages := { Message := "{field} is out of range".toList } }),
    ("matches", { OpString := some StringOp.StringMatches }),
    ("title", leafStringValidator "IsTitle"),
    ("name", leafStringValidator "IsName"),
    ("phone", leafStringValidator "IsPhone"),
    ("skype", leafStringValidator "IsSkype"),
    ("email", leafStringValidator "IsEmail"),
    ("url", leafStringValidator "IsURL"),
    ("dialstring", leafStringValidator "IsDialString"),
    ("requrl", leafStringValidator "IsRequestURL"),
    ("requri", leafStringValidator "IsRequestURI"),
    ("alpha", { OpString := some StringOp.IsAlpha }),
    ("utfletter", leafStringValidator "IsUTFLetter"),
    ("alphanum", leafStringValidator "IsAlphanumeric"),
    ("utfletternum", leafStringValidator "IsUTFLetterNumeric"),
    ("utfnumeric", leafStringValidator "IsUTFNumeric"),
    ("numeric", leafStringValidator "IsNumeric"),
    ("utfdigit", leafStringValidator "IsUTFDigit"),
    ("hexadecimal", leafStringValidator "IsHexadecimal"),
    ("hexcolor", leafStringValidator "IsHexcolor"),
    ("rgbcolor", leafStringValidator "IsRGBcolor"),
    ("lowercase", leafStringValidator "IsLowerCase"),
    ("uppercase", leafStringValidator "IsUpperCase"),
    ("int", leafOpValidator "IsInt"),
    ("float", leafOpValidator "IsFloat"),
    ("null", { Op := some GenericOp.IsNull }),
    ("uuid", leafStringValidator "IsUUID"),
    ("uuidv3", leafStringValidator "IsUUIDv3"),
    ("uuidv4", leafStringValidator "IsUUIDv4"),
    ("uuidv5", leafStringValidator "IsUUIDv5"),
    ("isoalpha2", leafStringValidator "IsISO3166Alpha2"),
    ("isoalpha3", leafStringValidator "IsISO3166Alpha3"),
    ("creditcard", leafStringValidator "IsCreditCard"),
    ("isbn10", leafStringValidator "IsISBN10"),
    ("isbn13", leafStringValidator "IsISBN13"),
    ("json", leafStringValidator "IsJSON"),
    ("multibyte", leafStringValidator "IsMultibyte"),
    ("ascii", leafStringValidator "IsASCII"),
    ("printableascii", leafStringValidator "IsPrintableASCII"),
    ("fullwidth", leafStringValidator "IsFullWidth"),
    ("halfwidth", leafStringValidator "IsHalfWidth"),
    ("variablewidth", leafStringValidator "IsVariableWidth"),
    ("base64", leafStringValidator "IsBase64"),
    ("datauri", leafStringValidator "IsDataURI"),
    ("ip", leafStringValidator "IsIP"),
    ("port", leafOpValidator "IsPort"),
    ("ipv4", leafStringValidator "IsIPv4"),
    ("dns", leafStringValidator "IsDNSName"),
    ("host", leafStringValidator "IsHost"),
    ("mac", leafStringValidator "IsMAC"),
    ("latitude", leafStringValidator "IsLatitude"),
    ("longitude", leafStringValidator "IsLongitude"),
    ("ssn", leafStringValidator "IsSSN"),
    ("semver", leafStringValidator "IsSemver") ]

/-- The registry after the `Put` calls of `init`. -/
def registered : Registry :=
  registrations.foldl (fun reg p => reg.Put p.1.toList p.2) []

/-- The table `messages_en`, in the order of the source. -/
def messages_en : List (String × String) :=
  [
    ("email.messagefmt", "%s must be a valid address"),
    ("email.negatedmessagefmt", "%s must not be an email address"),
    ("url.messagefmt", "%s must be a full URL"),
    ("url.negatedmessagefmt", "%s must not be a URL"),
    ("dialstring.messagefmt", "%s must be a port, IP address, or DNS address"),
    ("dialstring.negatedmessagefmt", "%s must not be a port, IP address, or DNS address"),
    ("requrl.messagefmt", "%s must be a full URL"),
    ("requrl.negatedmessagefmt", "%s must not be a full URL"),
    ("requri.messagefmt", "%s must be a full URI"),
    ("requri.negatedmessagefmt", "%s must not be a full URI"),
    ("alpha.messagefmt", "%s must only contain letters"),
    ("alpha.negatedmessagefmt", "%s must not contain letters"),
    ("utfletter.messagefmt", "%s must only contain letters"),
    ("utfletter.negatedmessagefmt", "%s must not contain letters"),
    ("alphanum.messagefmt", "%s must only contain letters and numbers"),
    ("alphanum.negatedmessagefmt", "%s must not contain letters or numbers"),
    ("utfletternum.messagefmt", "%s must only contain letters and numbers"),
    ("utfletternum.negatedmessagefmt", "%s must not contain letters or numbers"),
    ("utfnumeric.messagefmt", "%s must only contain numbers"),
    ("utfnumeric.negatedmessagefmt", "%s must not contain numbers"),
    ("utfdigit.messagefmt", "%s must only contain numbers"),
    ("utfdigit.negatedmessagefmt", "%s must not contain numbers"),
    ("numeric.messagefmt", "%s must only contain numbers"),
    ("numeric.negatedmessagefmt", "%s must not contain numbers"),
    ("hexidecimal.messagefmt", "%s must be a hex value"),
    ("hexidecimal.negatedmessagefmt", "%s must not be a hex value"),
    ("hexcolor.messagefmt", "%s must be a hex color"),
    ("hexcolor.negatedmessagefmt", "%s must not be a hex color"),
    ("rgbcolor.messagefmt", "%s must be an RGB color"),
    ("rgbcolor.negatedmessagefmt", "%s must not be an RGB color"),
    ("lowercase.messagefmt", "%s must be all lower case"),
    ("lowercase.negatedmessagefmt", "%s must not have lower case letters"),
    ("uppercase.messagefmt", "%s must all be all upper case"),
    ("uppercase.negatedmessagefmt", "%s must not have upper case letters"),
    ("float.messagefmt", "%s must be a floating point (decimal) number"),
    ("float.negatedmessagefmt", "%s must not be a floating point (decimal) number"),
    ("null.messagefmt", "%s must be null"),
    ("null.negatedmessagefmt", "%s must not be null"),
    ("uuid.messagefmt", "%s must be a UUID"),
    ("uuid.negatedmessagefmt", "%s must not be a UUID"),
    ("uuid3.messagefmt", "%s must be a UUID (v3)"),
    ("uuid3.negatedmessagefmt", "%s must not be a UUID (v3)"),
    ("uuid4.messagefmt", "%s must be a UUID (v4)"),
    ("uuid4.negatedmessagefmt", "%s must not be a UUID (v4)"),
    ("uuid5.messagefmt", "%s must be a UUID (v5)"),
    ("uuid5.negatedmessagefmt", "%s must not be a UUID (v5)"),
    ("creditcard.messagefmt", "%s must be a valid credit card number"),
    ("creditcard.negatedmessagefmt", "%s must not be a credit card number"),
    ("json.messagefmt", "%s must be a valid JSON"),
    ("json.negatedmessagefmt", "%s must not be JSON"),
    ("multibyte.messagefmt", "%s must be multibyte text"),
    ("multibyte.negatedmessagefmt", "%s must not be multibyte text"),
    ("ascii.messagefmt", "%s must be ascii text"),
    ("ascii.negatedmessagefmt", "%s must not be ascii text"),
    ("printableascii.messagefmt", "%s must be printable ascii text"),
    ("printableascii.negatedmessagefmt", "%s must not be printable ascii text"),
    ("fullwidth.messagefmt", "%s must contain fullwidth UTF characters"),
    ("fullwidth.negatedmessagefmt", "%s must not contain fullwidth UTF characters"),
    ("halfwidth.messagefmt", "%s must contain halfwidth UTF characters"),
    ("halfwidth.negatedmessagefmt", "%s must not contain halfwidth UTF characters"),
    ("variablewidth.messagefmt", "%s must contain variable-width UTF characters"),
    ("variablewidth.negatedmessagefmt", "%s must not contain variable-width UTF characters"),
    ("base64.messagefmt", "%s must be valid Base64"),
    ("base64.negatedmessagefmt", "%s must not be Base64"),
    ("ip.messagefmt", "%s must be a valid IP address"),
    ("ip.negatedmessagefmt", "%s must not be an IP address"),
    ("port.messagefmt", "%s must be a valid port"),
    ("port.negatedmessagefmt", "%s must not be a port number"),
    ("ipv4.messagefmt", "%s must be a valid IPv4 address"),
    ("ipv4.negatedmessagefmt", "%s must not be an IPv4 address"),
    ("dns.messagefmt", "%s must be a valid DNS name"),
    ("dns.negatedmessagefmt", "%s must not be a DNS name"),
    ("host.messagefmt", "%s must be a valid host name"),
    ("host.negatedmessagefmt", "%s must not be a host name"),
    ("mac.messagefmt", "%s must be a valid MAC address"),
    ("mac.negatedmessagefmt", "%s must not be a MAC address"),
    ("latitude.messagefmt", "%s must be a valid latitude"),
    ("latitude.negatedmessagefmt", "%s must not be a latitude"),
    ("longitude.messagefmt", "%s must be a valid longitude"),
    ("longitude.negatedmessagefmt", "%s must not be a longitude"),
    ("ssn.messagefmt", "%s must be a valid SSN"),
    ("ssn.negatedmessagefmt", "%s must not be a SSN"),
    ("semver.messagefmt", "%s must be a valid semantic version"),
    ("semver.negatedmessagefmt", "%s must not be a semantic version") ]

/-- The function `keyRoot` of `SetMessagesLocale`: the text before the first dot; cutting
a key without a dot panics. -/
def keyRoot (fullKey : Str) : Option Str :=
  let idx := Index fullKey ".".toList
  if idx < 0 then none else some (fullKey.take idx.toNat)

/-- The function `keyMsgType` of `SetMessagesLocale`: the text after the first dot. -/
def keyMsgType (fullKey : Str) : Str :=
  let idx := Index fullKey ".".toList
  fullKey.drop (idx + 1).toNat

/-- The assignment a message type selects; `none` for a type that is not one of the four. -/
def setDefaultMessage (ev : EmValidator) (messageType msg : Str) : Option EmValidator :=
  if messageType = "messagefmt".toList then
    some { ev with DefaultMessages := { ev.DefaultMessages with MessageFmt := msg } }
  else if messageType = "negatedmessagefmt".toList then
    some { ev with DefaultMessages := { ev.DefaultMessages with NegatedMessageFmt := msg } }
  else if messageType = "message".toList then
    some { ev with DefaultMessages := { ev.DefaultMessages with Message := msg } }
  else if messageType = "negatedmessage".toList then
    some { ev with DefaultMessages := { ev.DefaultMessages with NegatedMessage := msg } }
  else none

/-- The loop of `SetMessagesLocale` over the message table (Go visits a map in no fixed
order; the entries of the table touch different slots, so the order does not matter).
The result is the registry and the error; `none` is a panic. -/
def setMessagesLoop : List (Str × Str) → Registry → Option (Registry × Option Str)
  | [], reg => some (reg, none)
  | (key, msg) :: rest, reg =>
    match keyRoot key with
    | none => none
    | some root =>
      match GetValidator reg root with
      | none => setMessagesLoop rest reg
      | some validator =>
        match setDefaultMessage validator (keyMsgType key) msg with
        | none => some (reg, some (keyMsgType key ++ " is not a valid message type identifier".toList))
        | some validator1 =>
          setMessagesLoop rest (reg.map (fun p => if p.1 == root then (p.1, validator1) else p))

/-- Go `SetMessagesLocale`. -/
def SetMessagesLocale (locale : Str) (reg : Registry) : Option (Registry × Option Str) :=
  if locale = "en".toList then
    setMessagesLoop (messages_en.map (fun p => (p.1.toList, p.2.toList))) reg
  else
    some (reg, some ("Locale ".toList ++ locale ++
      " is not implemented (we\x27d love it if you could help us fix that!)".toList))

/-- The registry after `init`: the registrations, then the locale `en`.  (`init` panics
when the locale cannot be set; the table gives no occasion for it.) -/
def initRegistry : Registry :=
  match SetMessagesLocale "en".toList registered with
  | some (reg, _) => reg
  | none => registered

/-! ## The error bag (`error_bag.go`) -/

/-- Go `Error`; the wrapped Go error is kept as its message. -/
structure Error where
  Name : Str
  Field : Str
  Err : Str
  deriving DecidableEq, Repr

/-- Go `ErrorBag`: the lists of errors by key, the keys in the order of their first use. -/
abbrev ErrorBag := List (Str × List Error)

/-- Go `NewErrorBag`. -/
def NewErrorBag : ErrorBag := []

/-- Go `ErrorBag.addError`. -/
def ErrorBag.addError (eb : ErrorBag) (err : Error) : ErrorBag :=
  if eb.any (fun p => p.1 == err.Name) then
    eb.map (fun p => if p.1 == err.Name then (p.1, p.2 ++ [err]) else p)
  else eb ++ [(err.Name, [err])]

/-- Go `ErrorBag.Add`. -/
def ErrorBag.Add (eb : ErrorBag) (key err field : Str) : ErrorBag :=
  eb.addError { Name := key, Err := err, Field := field }

/-- Go `ErrorBag.HasErrors`. -/
def ErrorBag.HasErrors (eb : ErrorBag) : Bool := decide (eb.length > 0)

/-- Go `ErrorBag.HasErrorFor`. -/
def ErrorBag.HasErrorFor (eb : ErrorBag) (key : Str) : Bool := eb.any (fun p => p.1 == key)

/-- Go `ErrorBag.GetErrorsFor`; a nil slice is the empty list. -/
def ErrorBag.GetErrorsFor (eb : ErrorBag) (key : Str) : List Error :=
  match eb.find? (fun p => p.1 == key) with
  | some p => p.2
  | none => []

/-! ## Parsing the tag of a field (`validator.go`) -/

/-- Go `reflect.StructTag.Get`. -/
def StructField.TagGet (t : StructField) (key : Str) : Str :=
  match t.Tag.find? (fun p => p.1 == key) with
  | some p => p.2
  | none => []

/-- The loop of `extractFieldName`: `before` are the elements already passed. -/
def extractFieldNameLoop : List Str → List Str → List Str × Str × Option Str
  | before, [] => (before, [], none)
  | before, key :: rest =>
    let settingTokenIndex := Index key settingsToken
    if settingTokenIndex > 0 then
      let settingName := key.take settingTokenIndex.toNat
      if settingName = "name".toList then
        (before ++ rest, key.drop (settingTokenIndex.toNat + 1), none)
      else
        (before ++ rest, [], some (settingName ++ " is not a valid validation option".toList))
    else extractFieldNameLoop (before ++ [key]) rest

/-- Go `extractFieldName`: the elements without the first setting, the name it sets, and
the error for a setting other than `name`. -/
def extractFieldName (rawKeys : List Str) : List Str × Str × Option Str :=
  extractFieldNameLoop [] rawKeys

/-- The result of a function that returns a value or an internal error, or panics. -/
inductive Outcome (α : Type) where
  | panic
  | error (msg : Str)
  | ok (a : α)

/-- The body of the directive loop of `getFieldValidators` for one element that is
neither empty nor a dash. -/
def bindDirective (reg : Registry) (fieldName : Str) (fieldValue : Value) (key : Str) :
    Outcome FieldValidator :=
  let isNegated : Bool := key.take 1 = "!".toList
  let key1 := if isNegated then key.drop 1 else key
  match extractMessage key1 fieldName isNegated with
  | (key2, customMessagesPtr, err) =>
    if customMessagesPtr.isNone && err.isSome then .error (err.getD [])
    else
      match params key2 fieldName with
      | none => .panic
      | some (key3, ps, err3) =>
        if ps.length = 0 ∧ err3.isSome then .error (err3.getD [])
        else
          match GetValidator reg key3 with
          | none => .error ("Invalid validation key for field ".toList ++ fieldName ++
              ": ".toList ++ key3)
          | some v =>
            .ok { FieldName := fieldName, FieldValue := fieldValue, Validator := v,
                  ValidatorParams := ps.map Value.string, IsNegated := isNegated,
                  FieldCustomMessages := customMessagesPtr.getD {} }

/-- The directive loop of `getFieldValidators`. -/
def bindDirectives (reg : Registry) (fieldName : Str) (fieldValue : Value) :
    List Str → List FieldValidator → Outcome (List FieldValidator)
  | [], fieldValidators => .ok fieldValidators
  | key :: rest, fieldValidators =>
    if key = "-".toList ∨ key = [] then bindDirectives reg fieldName fieldValue rest fieldValidators
    else
      match bindDirective reg fieldName fieldValue key with
      | .panic => .panic
      | .error e => .error e
      | .ok validator =>
        bindDirectives reg fieldName fieldValue rest (fieldValidators ++ [validator])

/-- Go `getFieldValidators`; `customFieldTags` is `none` for a nil map.  (The parameter
for the enclosing struct is not used by the Go function and is left out.) -/
def getFieldValidators (E : Ext) (reg : Registry) (v : Value) (t : StructField)
    (customFieldTags : Option (List (Str × Str))) : Outcome (List FieldValidator) :=
  let tag : Str :=
    match customFieldTags with
    | none => t.TagGet tagName
    | some m =>
      match m.find? (fun p => p.1 == t.Name) with
      | some p => p.2
      | none => []
  let rawKeys := Split tag validatorSeparator
  match extractFieldName rawKeys with
  | (rawKeys1, name, err) =>
    if name.length = 0 ∧ err.isSome then .error (err.getD [])
    else
      let fieldName := if name.length > 0 then name else E.Title t.Name
      bindDirectives reg fieldName v.Interface rawKeys1 []

/-- Go `errorKey`. -/
def errorKey (t : StructField) (v : FieldValidator) : Str :=
  if t.TagGet "form".toList ≠ [] then t.TagGet "form".toList
  else if t.TagGet "json".toList ≠ [] then t.TagGet "json".toList
  else v.Validator.Key

/-- Go `validateBasicType`: the bag after the loop and the internal error, if any. -/
def validateBasicType (E : Ext) (v : Value) (t : StructField) :
    List FieldValidator → ErrorBag → ErrorBag × Option Str
  | [], validationErrs => (validationErrs, none)
  | validator :: rest, validationErrs =>
    match validator.Validator.Validate E v validator.ValidatorParams with
    | .error e => (validationErrs, some ("Error validating ".toList ++ t.Name ++ ": ".toList ++ e))
    | .ok valid =>
      validateBasicType E v t rest
        (if !valid then
          validationErrs.Add (errorKey t validator) (validator.Message E) validator.FieldName
        else validationErrs)

/-- Go `validateComplexType`. -/
def validateComplexType (E : Ext) (v : Value) (t : StructField) :
    List FieldValidator → ErrorBag → ErrorBag × Option Str
  | [], validationErrs => (validationErrs, none)
  | validator :: rest, validationErrs =>
    if validator.CanValidateComplexTypes then
      match validator.Validator.Validate E v validator.ValidatorParams with
      | .error e =>
        (validationErrs, some ("Error validating ".toList ++ t.Name ++ ": ".toList ++ e))
      | .ok valid =>
        validateComplexType E v t rest
          (if !valid then
            validationErrs.Add (errorKey t validator) (validator.Message E) validator.FieldName
          else validationErrs)
    else validateComplexType E v t rest validationErrs

/-! ## The recursive walker (`validator.go`) -/

/-- The error of the `default` case of `validateField` and of `validateMap`. -/
def unsupportedError (k : Kind) : Str :=
  k.kindName ++ " is not a supported validation type".toList

/-- The error `doValidateStruct` returns for a value that is not a struct. -/
def onlyStructsError (k : Kind) : Str :=
  "doValidateStruct only accepts structs; got ".toList ++ k.kindName

mutual

/-- Go `validateField`: the bag after the call and the internal error, if any; `none` is
a panic.  A call reaches a value only through a valid `reflect.Value`, so the test
`!v.IsValid()` never holds.  For a struct the call `doValidateStruct(v.Interface(), ...)`
is the field loop of `doValidateStruct` on the fields of `v`. -/
def validateField (E : Ext) (reg : Registry) (v : Value) (t : StructField)
    (validationErrs : ErrorBag) (customFieldTags : Option (List (Str × Str))) :
    Option (ErrorBag × Option Str) :=
  match getFieldValidators E reg v t customFieldTags with
  | .panic => none
  | .error e => some (validationErrs, some e)
  | .ok fieldValidators =>
    match v with
    | .bool _ | .int _ _ | .uint _ _ | .float _ _ | .string _ =>
      some (validateBasicType E v t fieldValidators validationErrs)
    | .map keyKind entries =>
      match validateComplexType E v t fieldValidators validationErrs with
      | (bag, some e) => some (bag, some e)
      | (bag, none) =>
        if keyKind ≠ Kind.String then some (bag, some (unsupportedError Kind.Map))
        else validateMapEntries E reg entries bag customFieldTags
    | .slice elems | .array elems =>
      match validateComplexType E v t fieldValidators validationErrs with
      | (bag, some e) => some (bag, some e)
      | (bag, none) => validateArrayOrSlice E reg elems t bag customFieldTags
    | .iface elem =>
      match validateComplexType E v t fieldValidators validationErrs with
      | (bag, some e) => some (bag, some e)
      | (bag, none) =>
        match elem with
        | none => some (bag, none)
        | some x => doValidateStruct E reg x bag customFieldTags
    | .ptr elem =>
      match validateComplexType E v t fieldValidators validationErrs with
      | (bag, some e) => some (bag, some e)
      | (bag, none) =>
        match elem with
        | none => some (bag, none)
        | some x => validateField E reg x t bag customFieldTags
    | .struct _ fields =>
      match validateComplexType E v t fieldValidators validationErrs with
      | (bag, some e) => some (bag, some e)
      | (bag, none) => validateStructFields E reg fields bag customFieldTags
    | .other k => some (validationErrs, some (unsupportedError k))

/-- The loop of `validateMap` over the entries of a map with string keys (in the order
of the list; Go visits a map in no fixed order): a value that is a struct is validated as
a struct, any other value is passed over. -/
def validateMapEntries (E : Ext) (reg : Registry) (entries : List (Value × Value))
    (validationErrs : ErrorBag) (customFieldTags : Option (List (Str × Str))) :
    Option (ErrorBag × Option Str) :=
  match entries with
  | [] => some (validationErrs, none)
  | (_, x) :: rest =>
    match x with
    | .struct _ _ =>
      match doValidateStruct E reg x validationErrs customFieldTags with
      | none => none
      | some (bag, some e) => some (bag, some e)
      | some (bag, none) => validateMapEntries E reg rest bag customFieldTags
    | _ => validateMapEntries E reg rest validationErrs customFieldTags

/-- Go `validateArrayOrSlice`: an element that is not a struct is validated as the field
itself, with the field's own tag; an element that is a struct is validated as a struct. -/
def validateArrayOrSlice (E : Ext) (reg : Registry) (elems : List Value) (t : StructField)
    (validationErrs : ErrorBag) (customFieldTags : Option (List (Str × Str))) :
    Option (ErrorBag × Option Str) :=
  match elems with
  | [] => some (validationErrs, none)
  | x :: rest =>
    match x with
    | .struct _ _ =>
      match doValidateStruct E reg x validationErrs customFieldTags with
      | none => none
      | some (bag, some e) => some (bag, some e)
      | some (bag, none) => validateArrayOrSlice E reg rest t bag customFieldTags
    | _ =>
      match validateField E reg x t validationErrs customFieldTags with
      | none => none
      | some (bag, some e) => some (bag, some e)
      | some (bag, none) => validateArrayOrSlice E reg rest t bag customFieldTags

/-- The field loop of `doValidateStruct`: a field with a package path (an unexported
field) is passed over; the loop stops at the first internal error. -/
def validateStructFields (E : Ext) (reg : Registry) (fields : List (StructField × Value))
    (bag : ErrorBag) (customFieldTags : Option (List (Str × Str))) :
    Option (ErrorBag × Option Str) :=
  match fields with
  | [] => some (bag, none)
  | (typeField, valueField) :: rest =>
    if typeField.PkgPath ≠ [] then validateStructFields E reg rest bag customFieldTags
    else
      match validateField E reg valueField typeField bag customFieldTags with
      | none => none
      | some (bag1, some e) => some (bag1, some e)
      | some (bag1, none) => validateStructFields E reg rest bag1 customFieldTags

/-- Go `doValidateStruct`: nil is accepted; a pointer (or interface) is followed once;
what is then not a struct is an internal error (the element of a nil pointer has the
kind `invalid`). -/
def doValidateStruct (E : Ext) (reg : Registry) (s : Value) (bag : ErrorBag)
    (customFieldTags : Option (List (Str × Str))) : Option (ErrorBag × Option Str) :=
  match s with
  | .iface none => some (bag, none)
  | .struct _ fields => validateStructFields E reg fields bag customFieldTags
  | .ptr (some (.struct _ fields)) | .iface (some (.struct _ fields)) =>
    validateStructFields E reg fields bag customFieldTags
  | .ptr (some x) | .iface (some x) => some (bag, some (onlyStructsError x.Kind))
  | .ptr none => some (bag, some (onlyStructsError Kind.Invalid))
  | x => some (bag, some (onlyStructsError x.Kind))

end

/-- Go `ValidateStruct`. -/
def ValidateStruct (E : Ext) (reg : Registry) (s : Value) : Option (ErrorBag × Option Str) :=
  doValidateStruct E reg s NewErrorBag none

/-! ## Sample inputs -/

/-- A struct with one exported string field `Name` tagged `required` (no `form` or `json`
tag) that holds the empty string. -/
def sampleRequired : Value :=
  Value.struct "User".toList
    [({ Name := "Name".toList, Tag := [("valid".toList, "required".toList)] }, Value.string [])]

/-- A struct with one exported string field `Code` tagged `!alpha` that holds `s`. -/
def sampleNotAlpha (s : String) : Value :=
  Value.struct "User".toList
    [({ Name := "Code".toList, Tag := [("valid".toList, "!alpha".toList)] },
      Value.string s.toList)]

/-- A struct with one exported `int` field `Age` tagged `between(5,10)` that holds `v`. -/
def sampleBetween (v : Int) : Value :=
  Value.struct "User".toList
    [({ Name := "Age".toList, Tag := [("valid".toList, "between(5,10)".toList)] },
      Value.int IntKind.Int v)]

/-- A string field `Name` holding the empty string, with the given `valid` tag. -/
def sampleField (tag : String) : StructField :=
  { Name := "Name".toList, Tag := [("valid".toList, tag.toList)] }

/-- The directive `required` bound to an empty field displayed as `fieldName`. -/
def boundRequired (fieldName : String) : FieldValidator :=
  { FieldName := fieldName.toList, FieldValue := Value.string [],
    Validator :=
      { Op := some GenericOp.IsNonEmpty, CanValidateComplexTypes := true,
        DefaultMessages := { Message := "{field} must not be empty".toList } } }

/-- The directive `alpha` bound to an empty field displayed as `fieldName`. -/
def boundAlpha (fieldName : String) : FieldValidator :=
  { FieldName := fieldName.toList, FieldValue := Value.string [],
    Validator :=
      { OpString := some StringOp.IsAlpha,
        DefaultMessages :=
          { MessageFmt := "%s must only contain letters".toList,
            NegatedMessageFmt := "%s must not contain letters".toList } } }

/-! ## Registry-level custom messages (`types.go`) -/

/-- The error of the setters for a key that is not registered. -/
def noValidatorError (key : Str) : Str :=
  "Validator with key ".toList ++ key ++ " doesn\x27t exist".toList

/-- The assignment `v.ValidatorCustomMessages = ms` through the pointer the registry
holds for `key`. -/
def Registry.setCustomMessages (reg : Registry) (key : Str) (ms : MessageSet) : Registry :=
  reg.map (fun p => if p.1 == key then (p.1, { p.2 with ValidatorCustomMessages := ms }) else p)

/-- Go `SetCustomMessage`: the registry after the call and the error.  The test for the
verb `%s` is made on `key`, as in the source. -/
def SetCustomMessage (reg : Registry) (key msg : Str) : Registry × Option Str :=
  match GetValidator reg key with
  | none => (reg, some (noValidatorError key))
  | some _ =>
    let ms : MessageSet :=
      if Index key "%s".toList > -1 then { MessageFmt := msg } else { Message := msg }
    (reg.setCustomMessages key ms, none)

/-- Go `SetCustomNegationMessage`. -/
def SetCustomNegationMessage (reg : Registry) (key msg : Str) : Registry × Option Str :=
  match GetValidator reg key with
  | none => (reg, some (noValidatorError key))
  | some _ =>
    let ms : MessageSet :=
      if Index key "%s".toList > -1 then { NegatedMessageFmt := msg }
      else { NegatedMessage := msg }
    (reg.setCustomMessages key ms, none)

/-- Go `SetCustomMessages`. -/
def SetCustomMessages (reg : Registry) (key : Str) (ms : MessageSet) : Registry × Option Str :=
  match GetValidator reg key with
  | none => (reg, some (noValidatorError key))
  | some _ => (reg.setCustomMessages key ms, none)

/-- Go `ClearCustomMessages`. -/
def ClearCustomMessages (reg : Registry) (validationKey : Str) : Registry :=
  match GetValidator reg validationKey with
  | none => reg
  | some _ => reg.setCustomMessages validationKey {}

/-! ## Reading a tag as its elements -/

/-- The tag `getFieldValidators` reads for a field: the `valid` struct tag, or the entry
of the rule-set map under the field's name. -/
def fieldTag (t : StructField) (customFieldTags : Option (List (Str × Str))) : Str :=
  match customFieldTags with
  | none => t.TagGet tagName
  | some m =>
    match m.find? (fun p => p.1 == t.Name) with
    | some p => p.2
    | none => []

/-- An element that is consumed as a setting: it holds `=` after its first character. -/
def isSetting (k : Str) : Bool := decide (0 < Index k settingsToken)

/-- An element the directive loop passes over: the empty element and the dash. -/
def isSkipped (k : Str) : Bool := k == "-".toList || k == []

/-- The elements of a tag that stand for directives: the pipe-separated elements that
are neither empty nor a dash, in the order of the tag. -/
def directiveElements (tag : Str) : List Str :=
  (Split tag validatorSeparator).filter (fun k => !isSkipped k)

/-- The key text of a directive: what is left of the element once the negation mark,
the custom message and the parameter list are taken off; `none` when the message or the
parameters cannot be taken off. -/
def directiveKeyText (k fieldName : Str) : Option Str :=
  let isNegated : Bool := k.take 1 = "!".toList
  let key1 := if isNegated then k.drop 1 else k
  match extractMessage key1 fieldName isNegated with
  | (key2, customMessagesPtr, err) =>
    if customMessagesPtr.isNone && err.isSome then none
    else
      match params key2 fieldName with
      | none => none
      | some (key3, ps, err3) => if ps.length = 0 ∧ err3.isSome then none else some key3

/-- The display name `getFieldValidators` gives a field: the value of the `name`
setting when it is not empty, otherwise the title-cased field identifier. -/
def displayName (E : Ext) (t : StructField) (name : Str) : Str :=
  if name.length > 0 then name else E.Title t.Name

/-! ## Further sample inputs -/

/-- The registry after `SetCustomMessage("required", "fill it in")`. -/
def registryWithCustomRequired : Registry :=
  (SetCustomMessage initRegistry "required".toList "fill it in".toList).1

/-! ## Sequences of recorded failures -/

/-- The bag after the errors of a list are added one after the other. -/
def ErrorBag.addAll (eb : ErrorBag) (errs : List Error) : ErrorBag :=
  errs.foldl ErrorBag.addError eb

/-- The bag after a sequence of calls `Add(key, err, field)`. -/
def ErrorBag.addCalls (eb : ErrorBag) (calls : List (Str × Str × Str)) : ErrorBag :=
  calls.foldl (fun b c => b.Add c.1 c.2.1 c.2.2) eb

/-- The number of errors a bag holds (the length of Go `ErrorBag.Errors`). -/
def ErrorBag.count (eb : ErrorBag) : Nat := (eb.map (fun p => p.2.length)).sum

/-- The error the walker records for a directive on a value: the error filed when the
predicate of the directive is false on the value, nothing otherwise. -/
def FieldValidator.failure (E : Ext) (t : StructField) (v : Value) (f : FieldValidator) :
    Option Error :=
  match f.Validator.Validate E v f.ValidatorParams with
  | .ok false => some { Name := errorKey t f, Err := f.Message E, Field := f.FieldName }
  | _ => none

/-- The predicate of a directive is applicable to a value: `Validate` returns a verdict,
not an error. -/
def FieldValidator.applicable (E : Ext) (v : Value) (f : FieldValidator) : Bool :=
  match f.Validator.Validate E v f.ValidatorParams with
  | .ok _ => true
  | .error _ => false

/-- The scalar kinds: the kinds `validateField` hands to `validateBasicType`. -/
def Value.isScalar : Value → Bool
  | .bool _ | .int _ _ | .uint _ _ | .float _ _ | .string _ => true
  | _ => false

/-- The value is a struct (its kind is `Struct`). -/
def Value.isStruct : Value → Bool
  | .struct _ _ => true
  | _ => false

/-- Go `validateMap`, for the value of a map field (for any other value the Go function
panics on `v.Type().Key()`). -/
def validateMap (E : Ext) (reg : Registry) (v : Value) (validationErrs : ErrorBag)
    (customFieldTags : Option (List (Str × Str))) : Option (ErrorBag × Option Str) :=
  match v with
  | .map keyKind entries =>
    if keyKind ≠ Kind.String then some (validationErrs, some (unsupportedError Kind.Map))
    else validateMapEntries E reg entries validationErrs customFieldTags
  | _ => none

/-! ## Named rule sets (`validator.go`) -/

/-- What the holder reads of a `reflect.Type`: of a struct type its package path, its
name (both empty for an unnamed struct type) and the names `FieldByName` finds in it (its
fields and those promoted from embedded structs); of a pointer type its element; of any
other type its package path and name. -/
inductive GoType where
  | struct (pkgPath name : Str) (fieldNames : List Str)
  | ptr (elem : GoType)
  | other (pkgPath name : Str)
  deriving DecidableEq, Repr

namespace GoType

/-- Go `reflect.Type.PkgPath`: empty for a pointer type. -/
def PkgPath : GoType → Str
  | .struct p _ _ => p
  | .ptr _ => []
  | .other p _ => p

/-- Go `reflect.Type.Name`: empty for a pointer type. -/
def Name : GoType → Str
  | .struct _ n _ => n
  | .ptr _ => []
  | .other _ n => n

/-- The step `if ty.Kind() == reflect.Ptr { ty = ty.Elem() }`. -/
def elemIfPtr : GoType → GoType
  | .ptr e => e
  | t => t

/-- Go `reflect.Type.FieldByName`: whether the field is found; `none` is the panic for a
type that is not a struct. -/
def FieldByName : GoType → Str → Option Bool
  | .struct _ _ names, n => some (names.contains n)
  | _, _ => none

end GoType

/-- Go `customValidatorsHolder`: rule sets by key.  A rule set is a `map[string]string`
(`none` for a nil map), its entries in the order `range` visits them. -/
abbrev customValidatorsHolder := List (Str × Option (List (Str × Str)))

namespace customValidatorsHolder

/-- Go `customValidatorsHolder.getKey`; `i` is `reflect.TypeOf` of the argument, `none`
for the nil interface, on which the function panics.  `Sprintf` with three verbs `%s` on
strings joins them with the spaces of the format. -/
def getKey (i : Option GoType) (validatorName : Str) : Option Str :=
  match i with
  | none => none
  | some ty0 =>
    let ty := ty0.elemIfPtr
    some (ty.PkgPath ++ " ".toList ++ ty.Name ++ " ".toList ++ validatorName)

/-- The map assignment `h[key] = validations`. -/
def set (h : customValidatorsHolder) (key : Str) (validations : Option (List (Str × Str))) :
    customValidatorsHolder :=
  if h.any (fun p => p.1 == key) then
    h.map (fun p => if p.1 == key then (key, validations) else p)
  else h ++ [(key, validations)]

/-- The map read `h[key]` with its `found` flag. -/
def lookup (h : customValidatorsHolder) (key : Str) : Option (Option (List (Str × Str))) :=
  (h.find? (fun p => p.1 == key)).map Prod.snd

/-- The loop of `add` over the field names of the rule set: the error for the first name
`FieldByName` does not find; the outer `none` is a panic. -/
def addLoop (ty : GoType) : List (Str × Str) → Option (Option Str)
  | [] => some none
  | (fieldName, _) :: rest =>
    match ty.FieldByName fieldName with
    | none => none
    | some false =>
      some (some ("Field ".toList ++ fieldName ++ " in ".toList ++ ty.Name ++
        " not found".toList))
    | some true => addLoop ty rest

/-- Go `customValidatorsHolder.add`: the holder after the call and the error, if any;
`none` is a panic. -/
def add (h : customValidatorsHolder) (validatorName : Str) (sampleStruct : Option GoType)
    (validations : Option (List (Str × Str))) : Option (customValidatorsHolder × Option Str) :=
  match sampleStruct with
  | none => none
  | some ty0 =>
    match addLoop ty0.elemIfPtr (validations.getD []) with
    | none => none
    | some (some err) => some (h, some err)
    | some none =>
      match getKey sampleStruct validatorName with
      | none => none
      | some key => some (h.set key validations, none)

/-- Go `customValidatorsHolder.get`.  The function does not read its receiver: it reads
the package variable `customValidators`, the one holder of the package. -/
def get (customValidators : customValidatorsHolder) (validatorName : Str)
    (i : Option GoType) : Option (Option (List (Str × Str)) × Option Str) :=
  match getKey i validatorName with
  | none => none
  | some key =>
    match customValidators.lookup key with
    | some validations => some (validations, none)
    | none => some (none, some ("No custom validation ".toList ++ validatorName))

/-- The holder after a sequence of calls of `add` on an empty holder; a call that panics
leaves the holder as it was. -/
def afterAdds (calls : List (Str × Option GoType × Option (List (Str × Str)))) :
    customValidatorsHolder :=
  calls.foldl (fun h c => match h.add c.1 c.2.1 c.2.2 with
    | some (h1, _) => h1
    | none => h) []

end customValidatorsHolder

/-- The loop of `CustomValidateStruct`; `ty` is `reflect.TypeOf(s)`.  The result is the
returned bag (`none` for the nil bag) and the internal error, if any; the outer `none` is
a panic. -/
def customValidateLoop (E : Ext) (reg : Registry) (customValidators : customValidatorsHolder)
    (ty : Option GoType) (s : Value) : List Str → ErrorBag → Option (Option ErrorBag × Option Str)
  | [], bag => some (some bag, none)
  | customValidation :: rest, bag =>
    let looked : Option (Option (List (Str × Str)) × Option Str) :=
      if customValidation ≠ tagName then
        customValidatorsHolder.get customValidators customValidation ty
      else some (none, none)
    match looked with
    | none => none
    | some (_, some err) => some (none, some err)
    | some (validations, none) =>
      match doValidateStruct E reg s bag validations with
      | none => none
      | some (bag1, some err) => some (some bag1, some err)
      | some (bag1, none) => customValidateLoop E reg customValidators ty s rest bag1

/-- Go `CustomValidateStruct`. -/
def CustomValidateStruct (E : Ext) (reg : Registry) (customValidators : customValidatorsHolder)
    (ty : Option GoType) (s : Value) (customValidations : List Str) :
    Option (Option ErrorBag × Option Str) :=
  customValidateLoop E reg customValidators ty s customValidations NewErrorBag

/-! ## Notions used to state the properties of the walker -/

/-- The directive bound to another field value. -/
def FieldValidator.withValue (f : FieldValidator) (x : Value) : FieldValidator :=
  { f with FieldValue := x }

/-- The predicate of a directive is false on a value. -/
def FieldValidator.fails (E : Ext) (v : Value) (f : FieldValidator) : Bool :=
  match f.Validator.Validate E v f.ValidatorParams with
  | .ok false => true
  | _ => false

/-- Modelled from the spec: the business failures the directives of a field record on a
value, in the order of the directives, and the internal error that ends them: a directive
whose predicate is false records the error with its key, message and display name, one
whose predicate is true records nothing, and the first directive whose predicate cannot
be applied ends the list with the internal error, of which nothing is recorded. -/
def recordedDirectives (E : Ext) (t : StructField) (v : Value) :
    List FieldValidator → List Error × Option Str
  | [] => ([], none)
  | f :: rest =>
    match f.Validator.Validate E v f.ValidatorParams with
    | .error e => ([], some ("Error validating ".toList ++ t.Name ++ ": ".toList ++ e))
    | .ok valid =>
      ((if valid then [] else
          [{ Name := errorKey t f, Err := f.Message E, Field := f.FieldName }]) ++
        (recordedDirectives E t v rest).1, (recordedDirectives E t v rest).2)

/-- Modelled from the spec: what two parts of a walk record one after the other; the
second part is not reached when the first panics or ends with an internal error. -/
def recordedThen (first second : Option (List Error × Option Str)) :
    Option (List Error × Option Str) :=
  match first with
  | none => none
  | some (errs, some e) => some (errs, some e)
  | some (errs, none) =>
    match second with
    | none => none
    | some (errs2, outcome) => some (errs ++ errs2, outcome)

mutual

/-- Modelled from the spec: the business failures the walk of a field records, in order,
and the internal error that ends it, if any (`none` is a panic).  A tag that does not
parse or a value of an unsupported kind records nothing; a scalar records the failures of
its directives; any other value records the failures of the directives that may validate
complex types and then what the walk of its content records. -/
def recordedField (E : Ext) (reg : Registry) (v : Value) (t : StructField)
    (customFieldTags : Option (List (Str × Str))) : Option (List Error × Option Str) :=
  match getFieldValidators E reg v t customFieldTags with
  | .panic => none
  | .error e => some ([], some e)
  | .ok fieldValidators =>
    match v with
    | .bool _ | .int _ _ | .uint _ _ | .float _ _ | .string _ =>
      some (recordedDirectives E t v fieldValidators)
    | .map keyKind entries =>
      recordedThen
        (some (recordedDirectives E t v
          (fieldValidators.filter FieldValidator.CanValidateComplexTypes)))
        (if keyKind ≠ Kind.String then some ([], some (unsupportedError Kind.Map))
         else recordedMapEntries E reg entries customFieldTags)
    | .slice elems | .array elems =>
      recordedThen
        (some (recordedDirectives E t v
          (fieldValidators.filter FieldValidator.CanValidateComplexTypes)))
        (recordedElements E reg elems t customFieldTags)
    | .iface elem =>
      recordedThen
        (some (recordedDirectives E t v
          (fieldValidators.filter FieldValidator.CanValidateComplexTypes)))
        (match elem with
          | none => some ([], none)
          | some x => recordedStruct E reg x customFieldTags)
    | .ptr elem =>
      recordedThen
        (some (recordedDirectives E t v
          (fieldValidators.filter FieldValidator.CanValidateComplexTypes)))
        (match elem with
          | none => some ([], none)
          | some x => recordedField E reg x t customFieldTags)
    | .struct _ fields =>
      recordedThen
        (some (recordedDirectives E t v
          (fieldValidators.filter FieldValidator.CanValidateComplexTypes)))
        (recordedFields E reg fields customFieldTags)
    | .other k => some ([], some (unsupportedError k))

/-- Modelled from the spec: what the walk of the values of a map records: the values
that are structs, one after the other. -/
def recordedMapEntries (E : Ext) (reg : Registry) (entries : List (Value × Value))
    (customFieldTags : Option (List (Str × Str))) : Option (List Error × Option Str) :=
  match entries with
  | [] => some ([], none)
  | (_, x) :: rest =>
    match x with
    | .struct _ _ =>
      recordedThen (recordedStruct E reg x customFieldTags)
        (recordedMapEntries E reg rest customFieldTags)
    | _ => recordedMapEntries E reg rest customFieldTags

/-- Modelled from the spec: what the walk of the elements of a slice or array records: an
element that is a struct as a struct, any other element as the field itself. -/
def recordedElements (E : Ext) (reg : Registry) (elems : List Value) (t : StructField)
    (customFieldTags : Option (List (Str × Str))) : Option (List Error × Option Str) :=
  match elems with
  | [] => some ([], none)
  | x :: rest =>
    match x with
    | .struct _ _ =>
      recordedThen (recordedStruct E reg x customFieldTags)
        (recordedElements E reg rest t customFieldTags)
    | _ =>
      recordedThen (recordedField E reg x t customFieldTags)
        (recordedElements E reg rest t customFieldTags)

/-- Modelled from the spec: what the walk of the fields of a struct records: the exported
fields, one after the other. -/
def recordedFields (E : Ext) (reg : Registry) (fields : List (StructField × Value))
    (customFieldTags : Option (List (Str × Str))) : Option (List Error × Option Str) :=
  match fields with
  | [] => some ([], none)
  | (typeField, valueField) :: rest =>
    if typeField.PkgPath ≠ [] then recordedFields E reg rest customFieldTags
    else
      recordedThen (recordedField E reg valueField typeField customFieldTags)
        (recordedFields E reg rest customFieldTags)

/-- Modelled from the spec: what the validation of a value as a struct records: the walk
of its fields for a struct or a pointer to a struct, nothing for nil, and nothing but
the internal error for any other value. -/
def recordedStruct (E : Ext) (reg : Registry) (s : Value)
    (customFieldTags : Option (List (Str × Str))) : Option (List Error × Option Str) :=
  match s with
  | .iface none => some ([], none)
  | .struct _ fields => recordedFields E reg fields customFieldTags
  | .ptr (some (.struct _ fields)) | .iface (some (.struct _ fields)) =>
    recordedFields E reg fields customFieldTags
  | .ptr (some x) | .iface (some x) => some ([], some (onlyStructsError x.Kind))
  | .ptr none => some ([], some (onlyStructsError Kind.Invalid))
  | x => some ([], some (onlyStructsError x.Kind))

end

/-- A step of the walker records `recorded`: on every bag it panics when `recorded` is a
panic, and otherwise adds the listed failures to the bag, in their order, and returns the
listed outcome. -/
def Records (step : ErrorBag → Option (ErrorBag × Option Str))
    (recorded : Option (List Error × Option Str)) : Prop :=
  ∀ bag, step bag = recorded.map (fun p => (bag.addAll p.1, p.2))

/-- Modelled from the spec: full struct validation of the values of a list in turn, on
one bag, up to the first internal error. -/
def validateEach (E : Ext) (reg : Registry) (customFieldTags : Option (List (Str × Str))) :
    List Value → ErrorBag → Option (ErrorBag × Option Str)
  | [], bag => some (bag, none)
  | x :: rest, bag =>
    match doValidateStruct E reg x bag customFieldTags with
    | none => none
    | some (bag1, some e) => some (bag1, some e)
    | some (bag1, none) => validateEach E reg customFieldTags rest bag1

/-! ## Sample inputs for the walker -/

/-- A struct whose one field `secret` is unexported, tagged `required|bogus(` (a
directive that fails on the empty string and one that does not parse) and empty. -/
def sampleUnexported : Value :=
  Value.struct "Account".toList
    [({ Name := "secret".toList, PkgPath := "main".toList,
        Tag := [("valid".toList, "required|bogus(".toList)] }, Value.string [])]

/-- A string field with the given name and `valid` tag. -/
def taggedField (name tag : String) : StructField :=
  { Name := name.toList, Tag := [("valid".toList, tag.toList)] }

/-- The error filed for `required` on an empty field displayed as `fieldName`. -/
def requiredFailure (fieldName : String) : Error :=
  { Name := [], Field := fieldName.toList, Err := (fieldName ++ " must not be empty").toList }

/-- The error filed for `alpha` on a field displayed as `fieldName`. -/
def alphaFailure (fieldName : String) : Error :=
  { Name := [], Field := fieldName.toList,
    Err := (fieldName ++ " must only contain letters").toList }

/-- The directive `matches(abc)` bound to a field displayed as `fieldName`. -/
def boundMatches (fieldName : String) : FieldValidator :=
  { FieldName := fieldName.toList, FieldValue := Value.string [],
    Validator := { OpString := some StringOp.StringMatches },
    ValidatorParams := [Value.string "abc".toList] }

/-- The fields of a struct with their values and the directives their tags parse to: a
string field `Code` tagged `alpha|matches(abc)` that holds `12`, and a string field `Name`
tagged `required` that is empty. -/
def sampleParsed : List (StructField × Value × List FieldValidator) :=
  [ (taggedField "Code" "alpha|matches(abc)", Value.string "12".toList,
      [ { boundAlpha "Code" with FieldValue := Value.string "12".toList },
        { boundMatches "Code" with FieldValue := Value.string "12".toList } ]),
    (taggedField "Name" "required", Value.string [], [boundRequired "Name"]) ]

/-- A struct whose one field `Done`, exported and without tag, is a channel. -/
def sampleChannel : Value :=
  Value.struct "Job".toList [({ Name := "Done".toList }, Value.other Kind.Chan)]

/-- A map with string keys whose one value is a struct with a field `Code` tagged with
the unknown key `bogus`. -/
def sampleMapOfStructs : Value :=
  Value.map Kind.String
    [(Value.string "a".toList,
      Value.struct "Item".toList [(taggedField "Code" "bogus", Value.string "x".toList)])]

/-- A struct with a string field `Name`, tagged `required` and empty, and a struct field
`Inner` without tag whose one field `Code`, without tag, is empty. -/
def sampleNested : Value :=
  Value.struct "Outer".toList
    [ (taggedField "Name" "required", Value.string []),
      ({ Name := "Inner".toList },
        Value.struct "Inner".toList [({ Name := "Code".toList }, Value.string [])]) ]

/-! ## Notions used to state the properties of the rule sets -/

/-- A call `add(validatorName, sampleStruct, validations)` returns without error (whether
it does is independent of the holder). -/
def customValidatorsHolder.accepts (c : Str × Option GoType × Option (List (Str × Str))) :
    Bool :=
  match customValidatorsHolder.add [] c.1 c.2.1 c.2.2 with
  | some (_, none) => true
  | _ => false

/-- Modelled from the spec: of the results of validations made one after the other, the
bags up to the first validation that raises an internal error, and this error. -/
def upToError : List (ErrorBag × Option Str) → List ErrorBag × Option Str
  | [] => ([], none)
  | (b, some e) :: _ => ([b], some e)
  | (b, none) :: rest => (b :: (upToError rest).1, (upToError rest).2)

/-- The type `User` of package `main`, a struct with the fields `Name` and `Email`. -/
def sampleUserType : GoType :=
  GoType.struct "main".toList "User".toList ["Name".toList, "Email".toList]

/-- A value of type `User` whose field `Name`, tagged `alpha`, holds `1`, and whose field
`Email`, without tag, is empty. -/
def sampleUser : Value :=
  Value.struct "User".toList
    [ (taggedField "Name" "alpha", Value.string "1".toList),
      ({ Name := "Email".toList }, Value.string []) ]

/-- The holder after the rule set `strict`, with `alpha` for the field `Name`, is added
for the type `User`. -/
def sampleHolder : customValidatorsHolder :=
  customValidatorsHolder.afterAdds
    [("strict".toList, some sampleUserType, some [("Name".toList, "alpha".toList)])]

/-! ## The text of an error bag (`error_bag.go`) -/

/-- Go `Error.Error` (the method cannot bear the name of its type here). -/
def Error.errorString (e : Error) : Str :=
  if e.Name.length = 0 then e.Err else e.Name ++ ": ".toList ++ e.Err

/-- The inner loop of `ErrorBag.String`, over the errors of one key; `res` is the buffer.
`Sprintf("[%s] %s", ...)` on two strings puts them in the place of the verbs. -/
def ErrorBag.stringErrors : List Error → Str → Str
  | [], res => res
  | e :: rest, res =>
    let res1 := if res.length > 0 then res ++ "; ".toList else res
    let res2 :=
      if e.Field = [] then res1 ++ ("[".toList ++ e.Field ++ "] ".toList ++ e.errorString)
      else res1 ++ e.errorString
    ErrorBag.stringErrors rest res2

/-- The outer loop of `ErrorBag.String`, over the keys (in the order of the list; Go
visits a map in no fixed order). -/
def ErrorBag.stringKeys : ErrorBag → Str → Str
  | [], res => res
  | (_, v) :: rest, res => ErrorBag.stringKeys rest (ErrorBag.stringErrors v res)

/-- Go `ErrorBag.String`. -/
def ErrorBag.String (eb : ErrorBag) : Str := eb.stringKeys []

/-- Modelled from the spec: the rendered text of an error, `Name: message` (the message
alone when the name is empty), with the bracketed field name and a space before it
exactly when the field is empty. -/
def Error.rendered (e : Error) : Str :=
  (if e.Field = [] then "[".toList ++ e.Field ++ "] ".toList else []) ++
    (if e.Name = [] then e.Err else e.Name ++ ": ".toList ++ e.Err)

/-! ## Inflections (`framework/utils/strings/case.go`) -/

namespace Strings

/-- Go `trim`: `strings.Trim(str, " ")`. -/
def trim (str : Str) : Str :=
  ((str.dropWhile (fun c => c == Char.ofNat 32)).reverse.dropWhile
    (fun c => c == Char.ofNat 32)).reverse

/-- The replacer of `split`: a dash and an underscore become a space. -/
def replaceDashUnderscore (str : Str) : Str :=
  str.map (fun c => if c = Char.ofNat 45 ∨ c = Char.ofNat 95 then Char.ofNat 32 else c)

/-- The call `rex1.ReplaceAllString(str, " $1")` with `rex1 = ([A-Z])`: a space is put
before every ASCII capital. -/
def spaceBeforeCapitals (str : Str) : Str :=
  str.flatMap (fun c => if 65 ≤ c.toNat ∧ c.toNat ≤ 90 then [Char.ofNat 32, c] else [c])

/-- The class `\w` of the regular expressions of Go: the ASCII letters and digits and the
underscore. -/
def isWordChar (c : Char) : Bool :=
  (48 ≤ c.toNat && c.toNat ≤ 57) || (65 ≤ c.toNat && c.toNat ≤ 90) ||
    (97 ≤ c.toNat && c.toNat ≤ 122) || c.toNat == 95

/-- The call `rex2.FindAllString(str, -1)` with `rex2 = (\w+)`: the maximal runs of word
characters from left to right; `cur` is the run being read. -/
def findWordsLoop : Str → Str → List Str
  | [], cur => if cur = [] then [] else [cur]
  | c :: cs, cur =>
    if isWordChar c then findWordsLoop cs (cur ++ [c])
    else if cur = [] then findWordsLoop cs []
    else cur :: findWordsLoop cs []

/-- Go `split`. -/
def split (str : Str) : List Str :=
  findWordsLoop (spaceBeforeCapitals (replaceDashUnderscore (trim str))) []

/-- Go `ToLower`: `strings.ToLower(trim(str))`; `toLowerRune` is `unicode.ToLower`, the
mapping `strings.ToLower` applies to every code point. -/
def ToLower (toLowerRune : Char → Char) (str : Str) : Str := (trim str).map toLowerRune

/-- Go `ToSnake`. -/
def ToSnake (toLowerRune : Char → Char) (str : Str) : Str :=
  List.intercalate "_".toList ((split str).map (ToLower toLowerRune))

/-- The lower case of an ASCII character: a capital from A to Z gives its small letter. -/
def asciiLower (c : Char) : Char :=
  if 65 ≤ c.toNat ∧ c.toNat ≤ 90 then Char.ofNat (c.toNat + 32) else c

/-- An ASCII digit or small letter. -/
def isLowerAlnum (c : Char) : Bool :=
  (48 ≤ c.toNat && c.toNat ≤ 57) || (97 ≤ c.toNat && c.toNat ≤ 122)

end Strings

/-! ## Sample inputs for the predicates -/

/-- A struct with one exported field `Email`, tagged `required` and with the given `form`
and `json` tags, that holds the empty string. -/
def sampleEmailField (form json : String) : Value :=
  Value.struct "User".toList
    [({ Name := "Email".toList,
        Tag := [("valid".toList, "required".toList), ("form".toList, form.toList),
          ("json".toList, json.toList)] }, Value.string [])]

/-- A struct with one exported `int` field `Age` with the given `valid` tag that holds `v`. -/
def sampleAge (tag : String) (v : Int) : Value :=
  Value.struct "User".toList [(taggedField "Age" tag, Value.int IntKind.Int v)]
/-! ## Facts about the string functions -/

theorem isPrefixOf_single (c d : Char) (ds : Str) : [c].isPrefixOf (d :: ds) = (c == d) := by
  simp [List.isPrefixOf]

theorem indexFrom_single_not_mem (c : Char) : ∀ (s : Str) (i : Nat), c ∉ s → indexFrom [c] s i = -1
  | [], _, _ => by simp [indexFrom]
  | d :: ds, i, h => by
    have hd : c ≠ d := fun e => h (by simp [e])
    have hds : c ∉ ds := fun e => h (by simp [e])
    simp [indexFrom, isPrefixOf_single, hd, indexFrom_single_not_mem c ds (i + 1) hds]

theorem indexFrom_single_append (c : Char) (rest : Str) :
    ∀ (pre : Str) (i : Nat), c ∉ pre → indexFrom [c] (pre ++ c :: rest) i = ((i + pre.length : Nat) : Int)
  | [], i, _ => by simp [indexFrom]
  | d :: ds, i, h => by
    have hd : c ≠ d := fun e => h (by simp [e])
    have hds : c ∉ ds := fun e => h (by simp [e])
    have ih := indexFrom_single_append c rest ds (i + 1) hds
    show indexFrom [c] (d :: (ds ++ c :: rest)) i = _
    rw [indexFrom, isPrefixOf_single, ih]
    simp only [beq_iff_eq, hd, if_false, List.length_cons]
    congr 1; omega

theorem indexFrom_single_cases (c : Char) : ∀ (s : Str) (i : Nat),
    indexFrom [c] s i = -1 ∨ ∃ pre rest, s = pre ++ c :: rest ∧ c ∉ pre ∧
      indexFrom [c] s i = ((i + pre.length : Nat) : Int) := by
  intro s i
  by_cases h : c ∈ s
  · right
    obtain ⟨pre, rest, hs, hpre⟩ := List.eq_append_cons_of_mem h
    exact ⟨pre, rest, hs, hpre, by rw [hs]; exact indexFrom_single_append c rest pre i hpre⟩
  · left; exact indexFrom_single_not_mem c s i h

theorem lastIndexFrom_single (c : Char) : ∀ (s : Str) (i : Nat) (best : Int), s ≠ [] →
    best < (i : Int) + s.length - 1 →
    (lastIndexFrom [c] s i best = (i : Int) + s.length - 1 ↔ s.getLast? = some c) ∧
    lastIndexFrom [c] s i best ≤ (i : Int) + s.length - 1
  | [], _, _, h, _ => absurd rfl h
  | [d], i, best, _, hb => by
    simp only [lastIndexFrom, isPrefixOf_single, beq_iff_eq]
    simp at hb
    by_cases hcd : c = d
    · subst hcd; simp
    · simp [hcd]; constructor
      · constructor
        · intro h; omega
        · intro h; exact absurd h.symm hcd
      · omega
  | d :: e :: r, i, best, _, hb => by
    rw [lastIndexFrom]
    have ih := lastIndexFrom_single c (e :: r) (i + 1)
      (if [c].isPrefixOf (d :: e :: r) then (i : Int) else best) (by simp) (by
        simp only [List.length_cons] at hb ⊢
        split <;> push_cast <;> omega)
    simp only [List.length_cons] at ih ⊢
    push_cast at ih ⊢
    have e1 : (i : Int) + 1 + ((r.length : Int) + 1) - 1 = (i : Int) + ((r.length : Int) + 1 + 1) - 1 := by ring
    rw [e1] at ih
    simpa using ih

theorem Index_single_append (c : Char) (pre rest : Str) (h : c ∉ pre) :
    Index (pre ++ c :: rest) [c] = (pre.length : Int) := by
  simpa [Index] using indexFrom_single_append c rest pre 0 h

theorem LastIndex_single (c : Char) (s : Str) (hs : s ≠ []) :
    LastIndex s [c] = (s.length : Int) - 1 ↔ s.getLast? = some c := by
  have hlen : 0 < s.length := List.length_pos.mpr hs
  have h := (lastIndexFrom_single c s 0 (-1) hs (by push_cast; omega)).1
  simpa [LastIndex] using h

/-- C8: when the first opening parenthesis of a directive stands after its first
character, `params` returns the grammar error exactly when the text does not end with a
closing parenthesis, and otherwise the text before that parenthesis as the key and
`extractParams` of the text between it and the final parenthesis as the parameters; when
no opening parenthesis stands after the first character, it returns the text unchanged
with no parameters and no error. -/
theorem params_spec (text fieldName : Str) :
    (∀ pre rest : Str, text = pre ++ '(' :: rest → pre ≠ [] → '(' ∉ pre →
      ((∃ e, params text fieldName = some ([], [], some e)) ↔ text.getLast? ≠ some ')') ∧
      (text.getLast? = some ')' →
        params text fieldName =
          (extractParams rest.dropLast).map (fun ps => (pre, ps, none)))) ∧
    ('(' ∉ text.tail →
      params text fieldName = some (text, [], none)) := by
  constructor
  · intro pre rest htext hpre hno
    have hidx : Index text paramOpenToken = (pre.length : Int) := by
      rw [htext]; exact Index_single_append '(' pre rest hno
    have hpos : 0 < pre.length := List.length_pos.mpr hpre
    have hne : text ≠ [] := by rw [htext]; simp
    have hlast := LastIndex_single ')' text hne
    have hclose : paramCloseToken = [')'] := rfl
    have hcl : (paramCloseToken.length : Int) = 1 := rfl
    have hol : paramOpenToken.length = 1 := rfl
    constructor
    · constructor
      · rintro ⟨e, he⟩ hend
        have hl := hlast.mpr hend
        simp only [params, hidx, hclose] at he
        rw [if_pos (by exact_mod_cast hpos)] at he
        simp only [hl, List.length_singleton, Nat.cast_one, ne_eq, not_true_eq_false,
          if_false] at he
        split at he <;> simp at he
      · intro hend
        have hl : LastIndex text [')'] ≠ (text.length : Int) - 1 := fun h => hend (hlast.mp h)
        refine ⟨paramsCloseError (text.take pre.length) fieldName, ?_⟩
        simp only [params, hidx, hclose]
        rw [if_pos (by exact_mod_cast hpos)]
        simp [hl]
    · intro hend
      have hl := hlast.mpr hend
      have hrest : rest ≠ [] := by
        intro h; rw [htext, h] at hend; simp at hend
      have hbody : List.drop ((pre.length : Int).toNat + paramOpenToken.length)
          (List.take ((text.length : Int) - 1).toNat text) = rest.dropLast := by
        have h1 : ((text.length : Int) - 1).toNat = text.length - 1 := by omega
        rw [h1, hol, ← List.dropLast_eq_take, htext, Int.toNat_ofNat]
        rw [List.dropLast_append_of_ne_nil _ (by simp), List.dropLast_cons_of_ne_nil hrest]
        rw [show pre ++ '(' :: rest.dropLast = (pre ++ ['(']) ++ rest.dropLast by simp]
        rw [List.drop_append_of_le_length (by simp)]
        simp
      have htake : List.take (pre.length : Int).toNat text = pre := by
        rw [htext]; simp
      simp only [params, hidx, hclose]
      rw [if_pos (by exact_mod_cast hpos)]
      simp only [hl, List.length_singleton, Nat.cast_one, ne_eq, not_true_eq_false, if_false,
        hbody, htake]
      cases extractParams rest.dropLast <;> rfl
  · intro hno
    have hidx : ¬ (Index text paramOpenToken > 0) := by
      rcases indexFrom_single_cases '(' text 0 with h | ⟨pre, rest, hs, -, h⟩
      · have : Index text paramOpenToken = -1 := h
        omega
      · have h2 : Index text paramOpenToken = ((0 + pre.length : Nat) : Int) := h
        intro hgt
        have hp : 0 < pre.length := by rw [h2] at hgt; simpa using hgt
        apply hno
        rw [hs]
        cases pre with
        | nil => simp at hp
        | cons p ps => simp
    simp only [params, if_neg hidx]

/-- C8 on the directives `between(5,10)`, `between(5,10` and `alpha` of a field `Age`. -/
theorem params_spec_witness :
    params "between(5,10)".toList "Age".toList =
        some ("between".toList, ["5".toList, "10".toList], none) ∧
      (∃ e, params "between(5,10".toList "Age".toList = some ([], [], some e)) ∧
      params "alpha".toList "Age".toList = some ("alpha".toList, [], none) :=
  ⟨(((params_spec "between(5,10)".toList "Age".toList).1 "between".toList "5,10)".toList
        (by decide) (by decide) (by decide)).2 (by decide)).trans (by decide),
    ((params_spec "between(5,10".toList "Age".toList).1 "between".toList "5,10".toList
        (by decide) (by decide) (by decide)).1.mpr (by decide),
    (params_spec "alpha".toList "Age".toList).2 (by decide)⟩

/-! ## Splitting at a one-character separator -/

theorem splitLoop_single_not_mem (c : Char) : ∀ (s cur : Str), c ∉ s →
    splitLoop [c] s 0 cur = [cur ++ s]
  | [], cur, _ => by simp [splitLoop]
  | d :: ds, cur, h => by
    have hd : c ≠ d := fun e => h (by simp [e])
    have hds : c ∉ ds := fun e => h (by simp [e])
    rw [splitLoop, isPrefixOf_single]
    simp only [beq_iff_eq, hd, if_false]
    rw [splitLoop_single_not_mem c ds (cur ++ [d]) hds]
    simp

theorem splitLoop_single_append (c : Char) (b : Str) : ∀ (a cur : Str), c ∉ a →
    splitLoop [c] (a ++ c :: b) 0 cur = (cur ++ a) :: splitLoop [c] b 0 []
  | [], cur, _ => by
    show splitLoop [c] (c :: b) 0 cur = _
    rw [splitLoop, isPrefixOf_single]
    simp
  | d :: ds, cur, h => by
    have hd : c ≠ d := fun e => h (by simp [e])
    have hds : c ∉ ds := fun e => h (by simp [e])
    show splitLoop [c] (d :: (ds ++ c :: b)) 0 cur = _
    rw [splitLoop, isPrefixOf_single]
    simp only [beq_iff_eq, hd, if_false]
    rw [splitLoop_single_append c b ds (cur ++ [d]) hds]
    simp

theorem Split_single_not_mem (c : Char) (s : Str) (h : c ∉ s) : Split s [c] = [s] := by
  simpa [Split] using splitLoop_single_not_mem c s [] h

theorem Split_single_append (c : Char) (a b : Str) (h : c ∉ a) :
    Split (a ++ c :: b) [c] = a :: Split b [c] := by
  simpa [Split] using splitLoop_single_append c b a [] h

/-! ## Replacing the placeholders of a message -/

theorem matchVarRest_closed : ∀ (n acc rest : Str), braceClose ∉ n → lineFeed ∉ n →
    matchVarRest (n ++ braceClose :: rest) acc = some (acc ++ n ++ [braceClose])
  | [], acc, rest, _, _ => by simp [matchVarRest]
  | d :: ds, acc, rest, h1, h2 => by
    have hd1 : d ≠ braceClose := fun e => h1 (by simp [e])
    have hd2 : d ≠ lineFeed := fun e => h2 (by simp [e])
    have hds1 : braceClose ∉ ds := fun e => h1 (by simp [e])
    have hds2 : lineFeed ∉ ds := fun e => h2 (by simp [e])
    show matchVarRest (d :: (ds ++ braceClose :: rest)) acc = _
    rw [matchVarRest, if_neg hd1, if_neg hd2, matchVarRest_closed ds (acc ++ [d]) rest hds1 hds2]
    simp

theorem replaceLoop_skip (repl : Str → Str) : ∀ (xs rest : Str),
    replaceLoop repl (xs ++ rest) xs.length = replaceLoop repl rest 0
  | [], rest => by simp
  | x :: xs, rest => by
    show replaceLoop repl (x :: (xs ++ rest)) (xs.length + 1) = _
    rw [replaceLoop, replaceLoop_skip repl xs rest]

theorem replaceLoop_text (repl : Str → Str) : ∀ (t rest : Str), braceOpen ∉ t →
    replaceLoop repl (t ++ rest) 0 = t ++ replaceLoop repl rest 0
  | [], rest, _ => by simp
  | d :: ds, rest, h => by
    have hd : d ≠ braceOpen := fun e => h (by simp [e])
    have hds : braceOpen ∉ ds := fun e => h (by simp [e])
    show replaceLoop repl (d :: (ds ++ rest)) 0 = _
    rw [replaceLoop]
    simp only [matchVar, if_neg hd]
    rw [replaceLoop_text repl ds rest hds]
    simp

theorem replaceLoop_var (repl : Str → Str) (n rest : Str) (h1 : braceClose ∉ n)
    (h2 : lineFeed ∉ n) :
    replaceLoop repl (braceOpen :: (n ++ braceClose :: rest)) 0 =
      repl (braceOpen :: (n ++ [braceClose])) ++ replaceLoop repl rest 0 := by
  rw [replaceLoop]
  simp only [matchVar, if_true, matchVarRest_closed n [braceOpen] rest h1 h2]
  have hlen : ([braceOpen] ++ n ++ [braceClose]).length - 1 = (n ++ [braceClose]).length := by
    simp
  rw [hlen]
  have happ : n ++ braceClose :: rest = (n ++ [braceClose]) ++ rest := by simp
  rw [happ, replaceLoop_skip]
  simp

theorem plainChar_not_mem (n : Str) (h : n.all plainChar = true) :
    braceClose ∉ n ∧ lineFeed ∉ n ∧ Char.ofNat 58 ∉ n := by
  rw [List.all_eq_true] at h
  refine ⟨fun hm => ?_, fun hm => ?_, fun hm => ?_⟩ <;>
    · have := h _ hm
      simp [plainChar] at this

theorem fillOne_key (n : Str) :
    ((braceOpen :: (n ++ [braceClose])).take ((braceOpen :: (n ++ [braceClose])).length - 1)).drop 1
      = n := by
  simp

theorem fillOne_var (E : Ext) (ms : FieldValidator) (n : Str) (h : n.all plainChar = true) :
    ms.fillOne E (braceOpen :: (n ++ [braceClose])) =
      Token.subst E ms.FieldName ms.FieldValue (Token.var n) := by
  obtain ⟨-, -, hc⟩ := plainChar_not_mem n h
  have hs : Split n ":".toList = [n] := Split_single_not_mem (Char.ofNat 58) n hc
  unfold FieldValidator.fillOne
  rw [fillOne_key]
  simp only [hs, List.length_singleton, gt_iff_lt, lt_self_iff_false, if_false,
    FieldValidator.replacements, Token.subst]
  by_cases h1 : n = "field".toList
  · simp only [h1, if_true, E.Sprintf_v_string]
  · by_cases h2 : n = "value".toList
    · subst h2
      have hvf : ¬ ("value".toList = "field".toList) := by decide
      simp only [hvf, if_true, if_false]
    · simp only [h1, h2, if_false]

theorem fillOne_varFmt (E : Ext) (ms : FieldValidator) (n f : Str)
    (hn : n.all plainChar = true) (hf : f.all plainChar = true) :
    ms.fillOne E (braceOpen :: ((n ++ ":".toList ++ f) ++ [braceClose])) =
      Token.subst E ms.FieldName ms.FieldValue (Token.varFmt n f) := by
  obtain ⟨-, -, hc⟩ := plainChar_not_mem n hn
  obtain ⟨-, -, hcf⟩ := plainChar_not_mem f hf
  have hs : Split (n ++ ":".toList ++ f) ":".toList = [n, f] := by
    have e : n ++ ":".toList ++ f = n ++ Char.ofNat 58 :: f := by simp
    rw [e]
    show Split (n ++ Char.ofNat 58 :: f) [Char.ofNat 58] = _
    rw [Split_single_append _ _ _ hc, Split_single_not_mem _ _ hcf]
  unfold FieldValidator.fillOne
  rw [fillOne_key]
  simp only [hs, List.length_cons, List.length_nil, gt_iff_lt, Nat.lt_add_one, if_true,
    Nat.one_lt_ofNat, List.getD_cons_zero, List.getD_cons_succ,
    FieldValidator.replacements, Token.subst]
  by_cases h1 : n = "field".toList
  · simp only [h1, if_true]
  · by_cases h2 : n = "value".toList
    · subst h2
      have hvf : ¬ ("value".toList = "field".toList) := by decide
      simp only [hvf, if_true, if_false]
    · simp only [h1, h2, if_false]

theorem replaceLoop_tokens (E : Ext) (ms : FieldValidator) : ∀ (toks : List Token),
    (∀ t ∈ toks, t.WellFormed = true) →
    replaceLoop (ms.fillOne E) (toks.map Token.render).flatten 0 =
      (toks.map (Token.subst E ms.FieldName ms.FieldValue)).flatten
  | [], _ => by simp [replaceLoop]
  | tok :: toks, h => by
    have ih := replaceLoop_tokens E ms toks (fun t ht => h t (List.mem_cons_of_mem _ ht))
    have hw := h tok (List.mem_cons_self _ _)
    simp only [List.map_cons, List.flatten_cons]
    cases tok with
    | text t =>
      have hb : braceOpen ∉ t := by simpa [Token.WellFormed] using hw
      simp only [Token.render, Token.subst]
      rw [replaceLoop_text _ _ _ hb, ih]
    | var n =>
      have hn : n.all plainChar = true := by simpa [Token.WellFormed] using hw
      obtain ⟨h1, h2, -⟩ := plainChar_not_mem n hn
      have e : Token.render (Token.var n) ++ (toks.map Token.render).flatten =
          braceOpen :: (n ++ braceClose :: (toks.map Token.render).flatten) := by
        simp [Token.render]
      rw [e, replaceLoop_var _ _ _ h1 h2, fillOne_var E ms n hn, ih]
    | varFmt n f =>
      have hnf : n.all plainChar = true ∧ f.all plainChar = true := by
        simpa [Token.WellFormed] using hw
      obtain ⟨h1, h2, h3⟩ := plainChar_not_mem n hnf.1
      obtain ⟨g1, g2, -⟩ := plainChar_not_mem f hnf.2
      have e : Token.render (Token.varFmt n f) ++ (toks.map Token.render).flatten =
          braceOpen :: ((n ++ ":".toList ++ f) ++ braceClose :: (toks.map Token.render).flatten) := by
        simp [Token.render]
      have k1 : braceClose ∉ n ++ ":".toList ++ f := by
        simp only [List.mem_append, not_or]
        exact ⟨⟨h1, by decide⟩, g1⟩
      have k2 : lineFeed ∉ n ++ ":".toList ++ f := by
        simp only [List.mem_append, not_or]
        exact ⟨⟨h2, by decide⟩, g2⟩
      rw [e, replaceLoop_var _ _ _ k1 k2, fillOne_varFmt E ms n f hnf.1 hnf.2, ih]

theorem replaceLoop_no_brace (repl : Str → Str) (msg : Str) (h : braceOpen ∉ msg) :
    replaceLoop repl msg 0 = msg := by
  have := replaceLoop_text repl msg [] h
  simpa [replaceLoop] using this

theorem fillMessagePlaceholders_eq (E : Ext) (ms : FieldValidator) (msg : Str) :
    ms.fillMessagePlaceholders E msg = replaceLoop (ms.fillOne E) msg 0 := by
  unfold FieldValidator.fillMessagePlaceholders ReplaceAllStringFunc
  split
  · rename_i h
    have hno : braceOpen ∉ msg := by
      intro hm
      obtain ⟨pre, rest, hs, hpre⟩ := List.eq_append_cons_of_mem hm
      rw [hs, Index_single_append braceOpen pre rest hpre] at h
      omega
    rw [replaceLoop_no_brace _ _ hno]
  · rfl

/-- C4: a field-scoped plain message made of text and placeholders resolves to the
same text with `field` placeholders replaced by the display name, `value` placeholders by
the field value, placeholders with a format rendered with that format, and every other
placeholder by three question marks. -/
theorem Message_custom_placeholders (E : Ext) (ms : FieldValidator) (toks : List Token)
    (hwf : ∀ t ∈ toks, t.WellFormed = true)
    (hm : ms.FieldCustomMessages.Message = (toks.map Token.render).flatten)
    (hne : ms.FieldCustomMessages.Message ≠ []) :
    ms.Message E = (toks.map (Token.subst E ms.FieldName ms.FieldValue)).flatten := by
  have hlen : ms.FieldCustomMessages.Message.length > 0 := List.length_pos.mpr hne
  unfold FieldValidator.Message
  rw [if_pos hlen, fillMessagePlaceholders_eq, hm]
  exact replaceLoop_tokens E ms toks hwf

set_option maxRecDepth 100000 in
theorem bindDirective_email_message :
    (match bindDirective initRegistry "Email".toList (Value.string "not-an-address".toList)
        "email->{field} must be valid".toList with
      | Outcome.ok fv => some (fv.FieldCustomMessages.Message, fv.Message Ext.sample)
      | _ => none) =
      some ("{field} must be valid".toList, "Email must be valid".toList) := by
  rfl

/-- C4, the example of the specification: the message `{field} must be valid` on a
field displayed as `Email` resolves to `Email must be valid`, also when it is read from
the directive `email->{field} must be valid`. -/
theorem Message_custom_placeholders_witness :
    FieldValidator.Message Ext.sample
        { FieldName := "Email".toList, FieldValue := Value.string "not-an-address".toList,
          FieldCustomMessages := { Message := "{field} must be valid".toList } }
      = "Email must be valid".toList ∧
    (match bindDirective initRegistry "Email".toList (Value.string "not-an-address".toList)
        "email->{field} must be valid".toList with
      | Outcome.ok fv => some (fv.FieldCustomMessages.Message, fv.Message Ext.sample)
      | _ => none) =
      some ("{field} must be valid".toList, "Email must be valid".toList) :=
  ⟨Message_custom_placeholders Ext.sample
    { FieldName := "Email".toList, FieldValue := Value.string "not-an-address".toList,
      FieldCustomMessages := { Message := "{field} must be valid".toList } }
    [Token.var "field".toList, Token.text " must be valid".toList]
    (by decide) (by decide) (by decide), bindDirective_email_message⟩

/-! ## The walker on the examples of the specification -/

set_option maxRecDepth 100000 in
theorem initRegistry_keys_empty :
    initRegistry.all (fun p => p.2.Key == []) = true := by
  rfl

set_option maxRecDepth 100000 in
theorem ValidateStruct_sampleRequired (E : Ext) :
    (ValidateStruct E initRegistry sampleRequired).map
        (fun r => (r.1.HasErrors, r.1.HasErrorFor "required".toList, r.1.HasErrorFor [], r.2))
      = some (true, false, true, none) := by
  rfl

/-- C1: the struct with an empty string field tagged `required` is reported, but the
error is filed under the empty key and not under `required`, because no registered
validator carries its key. -/
theorem required_error_filed_under_empty_key (E : Ext) :
    (∀ key ev, GetValidator initRegistry key = some ev → ev.Key = []) ∧
    (ValidateStruct E initRegistry sampleRequired).map
        (fun r => (r.1.HasErrors, r.1.HasErrorFor "required".toList, r.1.HasErrorFor [], r.2))
      = some (true, false, true, none) := by
  refine ⟨?_, ValidateStruct_sampleRequired E⟩
  intro key ev h
  have hall := initRegistry_keys_empty
  rw [List.all_eq_true] at hall
  unfold GetValidator at h
  cases hf : initRegistry.find? (fun p => p.1 == key) with
  | none => simp [hf] at h
  | some p =>
    simp only [hf, Option.map_some', Option.some.injEq] at h
    have hp := hall p (List.mem_of_find?_eq_some hf)
    rw [← h]
    simpa using hp

set_option maxRecDepth 100000 in
theorem ValidateStruct_sampleNotAlpha_mixed (E : Ext) :
    (ValidateStruct E initRegistry (sampleNotAlpha "abc123")).map
        (fun r => (r.1.HasErrors, r.2)) = some (true, none) := by
  rfl

set_option maxRecDepth 100000 in
theorem ValidateStruct_sampleNotAlpha_letters (E : Ext) :
    ValidateStruct E initRegistry (sampleNotAlpha "abc") = some ([], none) := by
  rfl

theorem validateBasicType_negation_flag (E : Ext) (v : Value) (t : StructField) (b : Bool) :
    ∀ (fieldValidators : List FieldValidator) (bag : ErrorBag),
      validateBasicType E v t (fieldValidators.map (fun f => { f with IsNegated := b })) bag =
        validateBasicType E v t fieldValidators bag
  | [], bag => rfl
  | f :: fs, bag => by
    simp only [List.map_cons, validateBasicType]
    cases hv : f.Validator.Validate E v f.ValidatorParams with
    | error e => rfl
    | ok valid =>
      simp only []
      exact validateBasicType_negation_flag E v t b fs _

/-- C2: the walker does not invert the verdict of a negated directive.  The negation
flag of a bound directive has no effect on what `validateBasicType` records; the field
tagged `!alpha` is reported for the value `abc123` and passes for the value `abc`. -/
theorem negation_flag_not_applied (E : Ext) :
    (∀ (v : Value) (t : StructField) (b : Bool) (fieldValidators : List FieldValidator)
        (bag : ErrorBag),
      validateBasicType E v t (fieldValidators.map (fun f => { f with IsNegated := b })) bag =
        validateBasicType E v t fieldValidators bag) ∧
    (ValidateStruct E initRegistry (sampleNotAlpha "abc123")).map
        (fun r => (r.1.HasErrors, r.2)) = some (true, none) ∧
    ValidateStruct E initRegistry (sampleNotAlpha "abc") = some ([], none) :=
  ⟨fun v t b fvs bag => validateBasicType_negation_flag E v t b fvs bag,
    ValidateStruct_sampleNotAlpha_mixed E, ValidateStruct_sampleNotAlpha_letters E⟩

/-! ## Message resolution -/

/-- C5: `Message` takes the field-scoped plain message when there is one, otherwise the
field-scoped formatted message applied to the display name, otherwise the default plain
message of the validator, otherwise its default formatted message applied to the display
name. -/
theorem Message_precedence (E : Ext) (ms : FieldValidator) :
    (ms.FieldCustomMessages.Message ≠ [] →
      ms.Message E = ms.fillMessagePlaceholders E ms.FieldCustomMessages.Message) ∧
    (ms.FieldCustomMessages.Message = [] → ms.FieldCustomMessages.MessageFmt ≠ [] →
      ms.Message E = E.Sprintf ms.FieldCustomMessages.MessageFmt (Value.string ms.FieldName)) ∧
    (ms.FieldCustomMessages.Message = [] → ms.FieldCustomMessages.MessageFmt = [] →
      ms.Validator.DefaultMessages.Message ≠ [] →
      ms.Message E = ms.fillMessagePlaceholders E ms.Validator.DefaultMessages.Message) ∧
    (ms.FieldCustomMessages.Message = [] → ms.FieldCustomMessages.MessageFmt = [] →
      ms.Validator.DefaultMessages.Message = [] →
      ms.Message E = E.Sprintf ms.Validator.DefaultMessages.MessageFmt
        (Value.string ms.FieldName)) := by
  refine ⟨fun h1 => ?_, fun h1 h2 => ?_, fun h1 h2 h3 => ?_, fun h1 h2 h3 => ?_⟩
  · simp [FieldValidator.Message, List.length_pos.mpr h1]
  · simp [FieldValidator.Message, h1, List.length_pos.mpr h2]
  · simp [FieldValidator.Message, h1, h2, List.length_pos.mpr h3]
  · simp [FieldValidator.Message, h1, h2, h3]

/-- C5 on four directives of a field displayed as `Email`: one with both field-scoped
messages, one with the formatted field-scoped message only, one with both defaults, one
with the formatted default only. -/
theorem Message_precedence_witness :
    FieldValidator.Message Ext.sample
        { FieldName := "Email".toList,
          FieldCustomMessages := { Message := "plain".toList, MessageFmt := "%s fmt".toList },
          Validator := { DefaultMessages := { Message := "dflt".toList } } }
      = "plain".toList ∧
    FieldValidator.Message Ext.sample
        { FieldName := "Email".toList,
          FieldCustomMessages := { MessageFmt := "%s fmt".toList },
          Validator := { DefaultMessages := { Message := "dflt".toList } } }
      = Ext.sample.Sprintf "%s fmt".toList (Value.string "Email".toList) ∧
    FieldValidator.Message Ext.sample
        { FieldName := "Email".toList,
          Validator := { DefaultMessages :=
            { Message := "dflt".toList, MessageFmt := "%s dfmt".toList } } }
      = "dflt".toList ∧
    FieldValidator.Message Ext.sample
        { FieldName := "Email".toList,
          Validator := { DefaultMessages := { MessageFmt := "%s dfmt".toList } } }
      = Ext.sample.Sprintf "%s dfmt".toList (Value.string "Email".toList) :=
  ⟨((Message_precedence Ext.sample _).1 (by decide)).trans (by decide),
    (Message_precedence Ext.sample _).2.1 (by decide) (by decide),
    ((Message_precedence Ext.sample _).2.2.1 (by decide) (by decide) (by decide)).trans
      (by decide),
    (Message_precedence Ext.sample _).2.2.2 (by decide) (by decide) (by decide)⟩

/-- C6: `NegatedMessage` tests the negated slots but returns the slots of the plain
message: with the field-scoped negated message `no letters, please` and no plain message
the result is empty, and with both set the result is the plain message, not the negated
one. -/
theorem NegatedMessage_returns_plain_slot (E : Ext) :
    FieldValidator.NegatedMessage E
        { FieldName := "Code".toList, IsNegated := true,
          FieldCustomMessages := { NegatedMessage := "no letters, please".toList } }
      = [] ∧
    FieldValidator.NegatedMessage E
        { FieldName := "Code".toList, IsNegated := true,
          FieldCustomMessages :=
            { Message := "letters only".toList, NegatedMessage := "no letters, please".toList } }
      = "letters only".toList ∧
    (∀ ms : FieldValidator, ms.FieldCustomMessages.NegatedMessage ≠ [] →
      ms.NegatedMessage E = ms.FieldCustomMessages.Message) := by
  refine ⟨rfl, rfl, fun ms h => ?_⟩
  simp [FieldValidator.NegatedMessage, List.length_pos.mpr h]

/-! ## The parser on the inputs where it departs from the grammar -/

/-- C7: the slot is chosen by one test only.  A message with `%s` on a directive that
is not negated is stored as the plain message, and a message without `%s` on a negated
directive is stored as the plain message too; only a negated directive with `%s` uses
another slot. -/
theorem extractMessage_slot (fieldName : Str) :
    extractMessage "email->%s is bad".toList fieldName false =
      ("email".toList, some { Message := "%s is bad".toList }, none) ∧
    extractMessage "email->bad".toList fieldName true =
      ("email".toList, some { Message := "bad".toList }, none) ∧
    extractMessage "email->%s is fine".toList fieldName true =
      ("email".toList, some { NegatedMessageFmt := "%s is fine".toList }, none) ∧
    extractMessage "email->bad".toList fieldName false =
      ("email".toList, some { Message := "bad".toList }, none) := by
  refine ⟨?_, ?_, ?_, ?_⟩ <;> rfl

/-- C9: a body that begins with an escaped comma makes `extractParams` read before the
start of the one-character segment and panic; and when the last segment ends in a
backslash the segment is dropped, so the comma before it separates nothing. -/
theorem extractParams_escaped_comma_first :
    extractParams [Char.ofNat 92, Char.ofNat 44, Char.ofNat 98] = none ∧
    extractParams [Char.ofNat 97, Char.ofNat 44, Char.ofNat 98, Char.ofNat 92] =
      some [[Char.ofNat 97]] := by
  decide

/-- C10: a comma after two backslashes does not split either: the body
`x`, backslash, backslash, comma, `y` gives one parameter, the whole body. -/
theorem extractParams_double_backslash :
    extractParams [Char.ofNat 120, Char.ofNat 92, Char.ofNat 92, Char.ofNat 44, Char.ofNat 121] =
      some [[Char.ofNat 120, Char.ofNat 92, Char.ofNat 92, Char.ofNat 44, Char.ofNat 121]] := by
  decide

/-! ## Parsing decimal integer strings -/

theorem decimalFold_ge : ∀ (ds : Str) (n : Nat),
    n ≤ ds.foldl (fun n c => n * 10 + (c.toNat - 48)) n
  | [], n => by simp
  | c :: cs, n => by
    simp only [List.foldl_cons]
    exact le_trans (by omega) (decimalFold_ge cs (n * 10 + (c.toNat - 48)))

theorem parseUintLoop_decimal (s0 : Str) : ∀ (ds : Str) (n : Nat),
    ds.all isDecimalDigit = true →
    ds.foldl (fun n c => n * 10 + (c.toNat - 48)) n ≤ maxUint64 →
    parseUintLoop s0 10 ds n false =
      .ok (ds.foldl (fun n c => n * 10 + (c.toNat - 48)) n, false)
  | [], n, _, _ => by simp [parseUintLoop]
  | c :: cs, n, hd, hle => by
    simp only [List.all_cons, Bool.and_eq_true] at hd
    have hc : 48 ≤ c.toNat ∧ c.toNat ≤ 57 := by simpa [isDecimalDigit] using hd.1
    simp only [List.foldl_cons] at hle ⊢
    have hstep : n * 10 + (c.toNat - 48) ≤ maxUint64 := le_trans (decimalFold_ge cs _) hle
    have hne : c ≠ Char.ofNat 95 := by
      intro e; rw [e] at hc; revert hc; decide
    have hcut : ¬ (n ≥ maxUint64 / 10 + 1) := by
      have : maxUint64 = 18446744073709551615 := by decide
      omega
    rw [parseUintLoop, if_neg hne]
    simp only [hc, and_self, if_true]
    rw [if_neg (by omega), if_neg hcut, if_neg (by omega)]
    exact parseUintLoop_decimal s0 cs _ hd.2 hle

theorem ParseUint0_canonical (ds : Str) (h : CanonicalDigits ds = true)
    (hle : decimalValue ds ≤ maxUint64) : ParseUint0 ds = .ok (decimalValue ds) := by
  cases ds with
  | nil => simp [CanonicalDigits] at h
  | cons c0 rest =>
    simp only [CanonicalDigits, List.isEmpty_cons, Bool.not_false, Bool.true_and,
      Bool.and_eq_true, List.head?_cons, Bool.or_eq_true, bne_iff_ne, ne_eq,
      Option.some.injEq, beq_iff_eq, List.cons.injEq, and_true] at h
    obtain ⟨hd, hz⟩ := h
    by_cases h0 : c0 = Char.ofNat 48
    · have hrest : rest = [] := by
        rcases hz with hz | hz
        · exact absurd h0 hz
        · exact hz.2
      subst hrest
      subst h0
      rfl
    · have hloop := parseUintLoop_decimal (c0 :: rest) (c0 :: rest) 0 hd hle
      unfold ParseUint0
      simp only [if_neg h0, hloop]
      simp [decimalValue]

theorem ParseInt0_canonical (neg : Bool) (ds : Str) (h : CanonicalDigits ds = true)
    (hr : inInt64 (decimalInt neg ds) = true) :
    ParseInt0 (decimalNumeral neg ds) = .ok (decimalInt neg ds) := by
  have hr2 : -(2 : Int) ^ 63 ≤ decimalInt neg ds ∧ decimalInt neg ds ≤ 2 ^ 63 - 1 := by
    simpa [inInt64] using hr
  have hmax : maxUint64 = 18446744073709551615 := by decide
  cases neg with
  | true =>
    simp only [decimalInt, if_true] at hr2
    have hle : decimalValue ds ≤ maxUint64 := by omega
    have hu := ParseUint0_canonical ds h hle
    have hgt : ¬ (decimalValue ds > 2 ^ 63) := by omega
    simp only [not_lt] at hgt
    simp [decimalNumeral, decimalInt, ParseInt0, hu]
    omega
  | false =>
    simp only [decimalInt] at hr2
    have hle : decimalValue ds ≤ maxUint64 := by
      simp only [Bool.false_eq_true, if_false] at hr2
      omega
    have hu := ParseUint0_canonical ds h hle
    cases ds with
    | nil => simp [CanonicalDigits] at h
    | cons c cs =>
      have hd : isDecimalDigit c = true := by
        simp only [CanonicalDigits, List.all_cons, Bool.and_eq_true] at h
        exact h.1.2.1
      have hc : 48 ≤ c.toNat ∧ c.toNat ≤ 57 := by simpa [isDecimalDigit] using hd
      have hm : c ≠ Char.ofNat 45 := by
        intro e; rw [e] at hc; revert hc; decide
      have hp : c ≠ Char.ofNat 43 := by
        intro e; rw [e] at hc; revert hc; decide
      have hge : ¬ (decimalValue (c :: cs) ≥ 2 ^ 63) := by
        simp only [Bool.false_eq_true, if_false] at hr2
        omega
      simp only [not_le] at hge
      simp [decimalNumeral, decimalInt, ParseInt0, hm, hp, hu]
      omega

/-- C3 (as amended): for a value of Go type `int` and bounds written as decimal integers
in the usual way (an optional minus sign, digits without a leading zero) that fit an
`int64`, `Between` holds exactly when the value is zero or lies between the bounds. -/
theorem Between_int_canonical (E : Ext) (v : Int) (negMin negMax : Bool) (dmin dmax : Str)
    (hmin : CanonicalDigits dmin = true) (hmax : CanonicalDigits dmax = true)
    (rmin : inInt64 (decimalInt negMin dmin) = true)
    (rmax : inInt64 (decimalInt negMax dmax) = true) :
    Between E (Value.int IntKind.Int v)
        [Value.string (decimalNumeral negMin dmin), Value.string (decimalNumeral negMax dmax)]
      = true ↔
    (v = 0 ∨ (decimalInt negMin dmin ≤ v ∧ v ≤ decimalInt negMax dmax)) := by
  have h1 := ParseInt0_canonical negMin dmin hmin rmin
  have h2 := ParseInt0_canonical negMax dmax hmax rmax
  by_cases hv : v = 0
  · simp [Between, toInt, valueOrZero, hv]
  · simp [Between, toInt, valueOrZero, minMaxToInt, hv, h1, h2]

set_option maxRecDepth 100000 in
theorem ValidateStruct_sampleBetween :
    (ValidateStruct Ext.sample initRegistry (sampleBetween 3)).map (fun r => (r.1.HasErrors, r.2))
        = some (true, none) ∧
      ValidateStruct Ext.sample initRegistry (sampleBetween 7) = some ([], none) ∧
      ValidateStruct Ext.sample initRegistry (sampleBetween 0) = some ([], none) := by
  refine ⟨?_, ?_, ?_⟩ <;> rfl

/-- C3, the example of the specification: with the bounds `5` and `10` the value 3 is
rejected and the values 7 and 0 are accepted, and the walker records a failure for an
`int` field tagged `between(5,10)` that holds 3 and none when it holds 7 or 0. -/
theorem Between_int_canonical_witness :
    (Between Ext.sample (Value.int IntKind.Int 3) [Value.string "5".toList, Value.string "10".toList]
        = false ∧
      Between Ext.sample (Value.int IntKind.Int 7) [Value.string "5".toList, Value.string "10".toList]
        = true ∧
      Between Ext.sample (Value.int IntKind.Int 0) [Value.string "5".toList, Value.string "10".toList]
        = true) ∧
    ((ValidateStruct Ext.sample initRegistry (sampleBetween 3)).map (fun r => (r.1.HasErrors, r.2))
        = some (true, none) ∧
      ValidateStruct Ext.sample initRegistry (sampleBetween 7) = some ([], none) ∧
      ValidateStruct Ext.sample initRegistry (sampleBetween 0) = some ([], none)) := by
  have h := fun v => Between_int_canonical Ext.sample v false false "5".toList "10".toList
    (by decide) (by decide) (by decide) (by decide)
  refine ⟨⟨?_, (h 7).mpr (by decide), (h 0).mpr (by decide)⟩, ValidateStruct_sampleBetween⟩
  have h3 := (h 3).not
  simpa using h3.mpr (by decide)

/-- C3 fails as stated: the bound `010` is read as the octal number 8, so 9 lies between
`010` and `20`; and a bound beyond the `int64` range is a conversion error, so 5 does not
lie between `1` and `99999999999999999999`. -/
theorem Between_int_decimal_counterexample :
    ¬ (Between Ext.sample (Value.int IntKind.Int 9)
          [Value.string "010".toList, Value.string "20".toList] = true ↔
        ((9 : Int) = 0 ∨ ((decimalValue "010".toList : Int) ≤ 9 ∧
          (9 : Int) ≤ (decimalValue "20".toList : Int)))) ∧
    ¬ (Between Ext.sample (Value.int IntKind.Int 5)
          [Value.string "1".toList, Value.string "99999999999999999999".toList] = true ↔
        ((5 : Int) = 0 ∨ ((decimalValue "1".toList : Int) ≤ 5 ∧
          (5 : Int) ≤ (decimalValue "99999999999999999999".toList : Int)))) := by
  decide

/-! ## `extractParams` on segments it can read -/

theorem charAt_last (v : Str) (h : v ≠ []) :
    charAt v ((v.length : Int) - 1) = v.getLast? := by
  have hlen : 0 < v.length := List.length_pos.mpr h
  have hi : ¬ ((v.length : Int) - 1 < 0) := by omega
  have ht : ((v.length : Int) - 1).toNat = v.length - 1 := by omega
  simp only [charAt, if_neg hi, ht, List.getLast?_eq_getElem?, List.get?_eq_getElem?]

theorem charAt_before_last (v : Str) (h : 2 ≤ v.length) :
    ∃ prev, charAt v ((v.length : Int) - 2) = some prev := by
  have hi : ¬ ((v.length : Int) - 2 < 0) := by omega
  have ht : ((v.length : Int) - 2).toNat = v.length - 2 := by omega
  have hlt : v.length - 2 < v.length := by omega
  refine ⟨v[v.length - 2], ?_⟩
  simp only [charAt, if_neg hi, ht, List.get?_eq_getElem?, List.getElem?_eq_getElem hlt]

theorem extractParamsLoop_safe : ∀ (segs : List Str) (param : Str) (ps : List Str),
    (∀ v ∈ segs, safeSegment v = true) →
    extractParamsLoop segs param ps = some (ps ++ foldEscaped segs param)
  | [], param, ps, _ => by simp [extractParamsLoop, foldEscaped]
  | v :: re, param, ps, h => by
    have hv : safeSegment v = true := h v (List.mem_cons_self _ _)
    have hre : ∀ w ∈ re, safeSegment w = true := fun w hw => h w (List.mem_cons_of_mem _ hw)
    simp only [safeSegment, Bool.and_eq_true, Bool.not_eq_true', List.isEmpty_eq_false,
      Bool.or_eq_true, decide_eq_true_eq] at hv
    obtain ⟨hne, hesc⟩ := hv
    obtain ⟨last, hlast⟩ : ∃ last, v.getLast? = some last := by
      cases hg : v.getLast? with
      | none => exact absurd (List.getLast?_eq_none_iff.mp hg) hne
      | some c => exact ⟨c, rfl⟩
    rw [extractParamsLoop, charAt_last v hne, hlast]
    by_cases hb : endsInBackslash v = true
    · have h2 : 2 ≤ v.length := by
        rcases hesc with hesc | hesc
        · rw [hb] at hesc; exact absurd hesc (by decide)
        · exact hesc
      obtain ⟨prev, hprev⟩ := charAt_before_last v h2
      have hl : last = Char.ofNat 92 := by
        simpa [endsInBackslash, hlast] using hb
      have hcmp : [prev] ≠ backslash2 := by simp [backslash2]
      simp only [hl, backslash1, if_true, hprev, hcmp, ne_eq, not_false_eq_true]
      rw [extractParamsLoop_safe re _ ps hre]
      simp [foldEscaped, hb]
    · have hl : ¬ ([last] = backslash1) := by
        intro e
        apply hb
        simp only [backslash1, List.cons.injEq, and_true] at e
        simp [endsInBackslash, hlast, e]
      simp only [hl, if_false]
      rw [extractParamsLoop_safe re [] _ hre]
      simp [foldEscaped, hb]

theorem intercalate_cons_cons (c : Char) (s t : Str) (r : List Str) :
    List.intercalate [c] (s :: t :: r) = s ++ c :: List.intercalate [c] (t :: r) := by
  simp [List.intercalate, List.intersperse]

theorem Split_intercalate (c : Char) : ∀ (segs : List Str), segs ≠ [] →
    (∀ s ∈ segs, c ∉ s) → Split (List.intercalate [c] segs) [c] = segs
  | [], h, _ => absurd rfl h
  | [s], _, hno => by
    have hs : c ∉ s := hno s (List.mem_cons_self _ _)
    simpa [List.intercalate] using Split_single_not_mem c s hs
  | s :: t :: r, _, hno => by
    have hs : c ∉ s := hno s (List.mem_cons_self _ _)
    rw [intercalate_cons_cons, Split_single_append c _ _ hs,
      Split_intercalate c (t :: r) (by simp) (fun w hw => hno w (List.mem_cons_of_mem _ hw))]

theorem extractParams_no_comma (s : Str) (h : Char.ofNat 44 ∉ s) :
    extractParams s = some [s] := by
  have hi : Index s paramSeparator = -1 := indexFrom_single_not_mem (Char.ofNat 44) s 0 h
  simp [extractParams, hi]

theorem extractParams_segments (segs : List Str) (hlen : 2 ≤ segs.length)
    (hno : ∀ s ∈ segs, Char.ofNat 44 ∉ s) (hsafe : ∀ s ∈ segs, safeSegment s = true) :
    extractParams (List.intercalate paramSeparator segs) = some (foldEscaped segs []) := by
  match segs, hlen, hno, hsafe with
  | s :: t :: r, _, hno, hsafe =>
    have hs : Char.ofNat 44 ∉ s := hno s (List.mem_cons_self _ _)
    have hsplit := Split_intercalate (Char.ofNat 44) (s :: t :: r) (by simp) hno
    have hidx : Index (List.intercalate paramSeparator (s :: t :: r)) paramSeparator =
        (s.length : Int) := by
      show Index (List.intercalate [Char.ofNat 44] (s :: t :: r)) [Char.ofNat 44] = _
      rw [intercalate_cons_cons]
      exact Index_single_append _ _ _ hs
    have hnn : ¬ ((s.length : Int) < 0) := by omega
    unfold extractParams
    rw [hidx, if_neg hnn]
    show extractParamsLoop (Split (List.intercalate [Char.ofNat 44] (s :: t :: r))
      [Char.ofNat 44]) [] [] = _
    rw [hsplit, extractParamsLoop_safe _ _ _ hsafe]
    simp

/-! ## The elements of a tag -/

theorem getFieldValidators_eq (E : Ext) (reg : Registry) (v : Value) (t : StructField)
    (customFieldTags : Option (List (Str × Str))) :
    getFieldValidators E reg v t customFieldTags =
      (let r := extractFieldName (Split (fieldTag t customFieldTags) validatorSeparator)
       if r.2.1.length = 0 ∧ r.2.2.isSome then Outcome.error (r.2.2.getD [])
       else bindDirectives reg (displayName E t r.2.1) v.Interface r.1 []) := by
  cases customFieldTags <;> rfl

theorem extractFieldNameLoop_no_setting : ∀ (ks before : List Str),
    (∀ k ∈ ks, isSetting k = false) →
    extractFieldNameLoop before ks = (before ++ ks, [], none)
  | [], before, _ => by simp [extractFieldNameLoop]
  | k :: ks, before, h => by
    have hk : ¬ (Index k settingsToken > 0) := by
      have := h k (List.mem_cons_self _ _)
      simpa [isSetting] using this
    rw [extractFieldNameLoop]
    simp only [hk, if_false]
    rw [extractFieldNameLoop_no_setting ks (before ++ [k])
      (fun e he => h e (List.mem_cons_of_mem _ he))]
    simp

theorem extractFieldNameLoop_skip_before : ∀ (pre before rest : List Str),
    (∀ k ∈ pre, isSetting k = false) →
    extractFieldNameLoop before (pre ++ rest) = extractFieldNameLoop (before ++ pre) rest
  | [], before, rest, _ => by simp
  | k :: ks, before, rest, h => by
    have hk : ¬ (Index k settingsToken > 0) := by
      have := h k (List.mem_cons_self _ _)
      simpa [isSetting] using this
    show extractFieldNameLoop before (k :: (ks ++ rest)) = _
    rw [extractFieldNameLoop]
    simp only [hk, if_false]
    rw [extractFieldNameLoop_skip_before ks (before ++ [k]) rest
      (fun e he => h e (List.mem_cons_of_mem _ he))]
    simp

theorem bindDirectives_ok_iff (reg : Registry) (fieldName : Str) (fieldValue : Value) :
    ∀ (ks : List Str) (acc out : List FieldValidator),
    bindDirectives reg fieldName fieldValue ks acc = Outcome.ok out ↔
      ∃ fvs, List.Forall₂ (fun k f => bindDirective reg fieldName fieldValue k = Outcome.ok f)
        (ks.filter (fun k => !isSkipped k)) fvs ∧ out = acc ++ fvs
  | [], acc, out => by
    simp only [bindDirectives, Outcome.ok.injEq, List.filter_nil, List.forall₂_nil_left_iff]
    constructor
    · rintro rfl; exact ⟨[], rfl, by simp⟩
    · rintro ⟨fvs, rfl, h⟩; simpa using h.symm
  | k :: ks, acc, out => by
    by_cases hs : k = "-".toList ∨ k = []
    · have hsk : isSkipped k = true := by
        rcases hs with h | h <;> simp [isSkipped, h]
      rw [bindDirectives, if_pos hs, bindDirectives_ok_iff reg fieldName fieldValue ks acc out]
      simp [List.filter_cons, hsk]
    · have hsk : isSkipped k = false := by
        simp only [not_or] at hs
        have h1 : (k == "-".toList) = false := beq_eq_false_iff_ne.mpr hs.1
        have h2 : (k == ([] : Str)) = false := beq_eq_false_iff_ne.mpr hs.2
        simp only [isSkipped, h1, h2, Bool.or_self]
      rw [bindDirectives, if_neg hs]
      simp only [List.filter_cons, hsk, Bool.not_false, if_true, List.forall₂_cons_left_iff]
      cases hb : bindDirective reg fieldName fieldValue k with
      | panic => simp
      | error e => simp
      | ok validator =>
        simp only [Outcome.ok.injEq]
        rw [bindDirectives_ok_iff reg fieldName fieldValue ks (acc ++ [validator]) out]
        constructor
        · rintro ⟨fvs, hf, rfl⟩
          exact ⟨validator :: fvs, ⟨validator, fvs, rfl, hf, rfl⟩, by simp⟩
        · rintro ⟨fvs, ⟨b, u, hb2, hf, rfl⟩, rfl⟩
          subst hb2
          exact ⟨u, hf, by simp⟩

theorem Split_empty (sep : Str) : Split [] sep = [[]] := rfl

theorem getFieldValidators_ok_iff (E : Ext) (reg : Registry) (v : Value)
    (t : StructField) (customFieldTags : Option (List (Str × Str)))
    (h : ∀ k ∈ Split (fieldTag t customFieldTags) validatorSeparator, isSetting k = false)
    (fvs : List FieldValidator) :
    getFieldValidators E reg v t customFieldTags = Outcome.ok fvs ↔
      List.Forall₂ (fun k f => bindDirective reg (E.Title t.Name) v.Interface k = Outcome.ok f)
        (directiveElements (fieldTag t customFieldTags)) fvs := by
  have hx := extractFieldNameLoop_no_setting _ [] h
  rw [getFieldValidators_eq]
  simp only [extractFieldName, hx, List.nil_append, Option.isSome_none, Bool.false_eq_true,
    and_false, if_false, displayName, List.length_nil, gt_iff_lt, lt_self_iff_false]
  rw [bindDirectives_ok_iff]
  simp [directiveElements]

/-- C11: for a tag without settings, `getFieldValidators` returns a list of bound
directives exactly when the list holds, in the order of the tag, the binding of every
pipe-separated element that is neither empty nor a dash; the empty tag and the tag `-`
give the empty list and no error. -/
theorem getFieldValidators_no_settings (E : Ext) (reg : Registry) (v : Value)
    (t : StructField) (customFieldTags : Option (List (Str × Str))) :
    ((∀ k ∈ Split (fieldTag t customFieldTags) validatorSeparator, isSetting k = false) →
      ∀ fvs, getFieldValidators E reg v t customFieldTags = Outcome.ok fvs ↔
        List.Forall₂ (fun k f => bindDirective reg (E.Title t.Name) v.Interface k = Outcome.ok f)
          (directiveElements (fieldTag t customFieldTags)) fvs) ∧
    (fieldTag t customFieldTags = [] ∨ fieldTag t customFieldTags = "-".toList →
      getFieldValidators E reg v t customFieldTags = Outcome.ok []) := by
  refine ⟨getFieldValidators_ok_iff E reg v t customFieldTags, ?_⟩
  intro h
  rcases h with h | h
  · refine (getFieldValidators_ok_iff E reg v t customFieldTags ?_ []).mpr ?_
    · rw [h]; decide
    · rw [h]; exact List.Forall₂.nil
  · refine (getFieldValidators_ok_iff E reg v t customFieldTags ?_ []).mpr ?_
    · rw [h]; decide
    · rw [h]; exact List.Forall₂.nil

set_option maxRecDepth 100000 in
theorem bindDirective_required_sample :
    bindDirective initRegistry "Name".toList (Value.string []) "required".toList =
      Outcome.ok (boundRequired "Name") := by
  rfl

set_option maxRecDepth 100000 in
theorem bindDirective_alpha_sample :
    bindDirective initRegistry "Name".toList (Value.string []) "alpha".toList =
      Outcome.ok (boundAlpha "Name") := by
  rfl

/-- C11 on the tags `required||-|alpha`, the empty tag and `-` of a field `Name`. -/
theorem getFieldValidators_no_settings_witness :
    getFieldValidators Ext.sample initRegistry (Value.string []) (sampleField "required||-|alpha")
        none = Outcome.ok [boundRequired "Name", boundAlpha "Name"] ∧
      getFieldValidators Ext.sample initRegistry (Value.string []) (sampleField "") none
        = Outcome.ok [] ∧
      getFieldValidators Ext.sample initRegistry (Value.string []) (sampleField "-") none
        = Outcome.ok [] :=
  ⟨((getFieldValidators_no_settings Ext.sample initRegistry (Value.string [])
        (sampleField "required||-|alpha") none).1 (by decide) _).mpr
      (List.Forall₂.cons bindDirective_required_sample
        (List.Forall₂.cons bindDirective_alpha_sample List.Forall₂.nil)),
    (getFieldValidators_no_settings Ext.sample initRegistry (Value.string [])
      (sampleField "") none).2 (Or.inl (by decide)),
    (getFieldValidators_no_settings Ext.sample initRegistry (Value.string [])
      (sampleField "-") none).2 (Or.inr (by decide))⟩

/-! ## The `name` setting -/

theorem extractMessage_fieldName (key fn1 fn2 : Str) (negated : Bool) :
    (extractMessage key fn1 negated).1 = (extractMessage key fn2 negated).1 ∧
    (extractMessage key fn1 negated).2.1 = (extractMessage key fn2 negated).2.1 ∧
    (extractMessage key fn1 negated).2.2.isSome = (extractMessage key fn2 negated).2.2.isSome := by
  unfold extractMessage
  by_cases h1 : Index key customMessageToken > 0
  · by_cases h2 : (key.drop ((Index key customMessageToken).toNat +
        customMessageToken.length)).length = 0
    · simp only [h1, h2, if_true]
      simp
    · simp only [h1, h2, if_true, if_false, and_self]
  · simp only [h1, if_false, and_self]

theorem params_fieldName (key fn1 fn2 key3 : Str) (ps : List Str) (e3 : Option Str)
    (h : params key fn1 = some (key3, ps, e3)) :
    ∃ e3', params key fn2 = some (key3, ps, e3') ∧ e3'.isSome = e3.isSome := by
  unfold params at h ⊢
  dsimp only at h ⊢
  by_cases h1 : Index key paramOpenToken > 0
  · rw [if_pos h1] at h
    rw [if_pos h1]
    by_cases h2 : LastIndex key paramCloseToken ≠
        (key.length : Int) - (paramCloseToken.length : Int)
    · rw [if_pos h2] at h
      rw [if_pos h2]
      simp only [Option.some.injEq, Prod.mk.injEq] at h
      obtain ⟨rfl, rfl, rfl⟩ := h
      exact ⟨_, rfl, rfl⟩
    · rw [if_neg h2] at h
      rw [if_neg h2]
      split at h
      · exact absurd h (by simp)
      · rename_i ps' hx
        simp only [Option.some.injEq, Prod.mk.injEq] at h
        obtain ⟨rfl, rfl, rfl⟩ := h
        exact ⟨none, rfl, rfl⟩
  · rw [if_neg h1] at h
    rw [if_neg h1]
    simp only [Option.some.injEq, Prod.mk.injEq] at h
    obtain ⟨rfl, rfl, rfl⟩ := h
    exact ⟨none, rfl, rfl⟩

theorem bindDirective_fieldName (reg : Registry) (fn1 fn2 : Str) (fieldValue : Value)
    (k : Str) (f : FieldValidator)
    (h : bindDirective reg fn1 fieldValue k = Outcome.ok f) :
    bindDirective reg fn2 fieldValue k = Outcome.ok { f with FieldName := fn2 } ∧
      f.FieldName = fn1 := by
  unfold bindDirective at h ⊢
  dsimp only at h ⊢
  generalize decide (List.take 1 k = "!".toList) = neg at h ⊢
  generalize (if neg = true then List.drop 1 k else k) = key1 at h ⊢
  obtain ⟨hm1, hm2, hm3⟩ := extractMessage_fieldName key1 fn1 fn2 neg
  rcases hr1 : extractMessage key1 fn1 neg with ⟨a1, b1, c1⟩
  rcases hr2 : extractMessage key1 fn2 neg with ⟨a2, b2, c2⟩
  rw [hr1, hr2] at hm1 hm2 hm3
  simp only at hm1 hm2 hm3
  subst hm1 hm2
  rw [hr1] at h
  simp only [] at h ⊢
  by_cases hc : (b1.isNone && c1.isSome) = true
  · rw [if_pos hc] at h
    exact absurd h (by simp)
  · have hc2 : ¬ ((b1.isNone && c2.isSome) = true) := by rw [← hm3]; exact hc
    rw [if_neg hc] at h
    rw [if_neg hc2]
    cases hp : params a1 fn1 with
    | none => rw [hp] at h; exact absurd h (by simp)
    | some r =>
      obtain ⟨key3, ps, e3⟩ := r
      obtain ⟨e3', hp2, he⟩ := params_fieldName a1 fn1 fn2 key3 ps e3 hp
      rw [hp] at h
      rw [hp2]
      simp only [] at h ⊢
      by_cases hq : ps.length = 0 ∧ e3.isSome = true
      · rw [if_pos hq] at h
        exact absurd h (by simp)
      · have hq2 : ¬ (ps.length = 0 ∧ e3'.isSome = true) := by rw [he]; exact hq
        rw [if_neg hq] at h
        rw [if_neg hq2]
        cases hg : GetValidator reg key3 with
        | none => rw [hg] at h; exact absurd h (by simp)
        | some ev =>
          rw [hg] at h
          simp only [Outcome.ok.injEq] at h ⊢
          subst h
          exact ⟨rfl, rfl⟩

theorem forall₂_exists_left {α β : Type} {R : α → β → Prop} :
    ∀ {l : List α} {u : List β}, List.Forall₂ R l u → ∀ b ∈ u, ∃ a ∈ l, R a b
  | _, _, List.Forall₂.nil, b, hb => by simp at hb
  | _, _, List.Forall₂.cons hr hrs, b, hb => by
    rcases List.mem_cons.mp hb with rfl | hb
    · exact ⟨_, List.mem_cons_self _ _, hr⟩
    · obtain ⟨a, ha, hab⟩ := forall₂_exists_left hrs b hb
      exact ⟨a, List.mem_cons_of_mem _ ha, hab⟩

theorem isSetting_of_not_mem (k : Str) (h : Char.ofNat 61 ∉ k) : isSetting k = false := by
  have hi : Index k settingsToken = -1 := indexFrom_single_not_mem (Char.ofNat 61) k 0 h
  simp [isSetting, hi]

theorem Split_intercalate_elements (ds : List Str) (h : ∀ d ∈ ds, Char.ofNat 124 ∉ d) :
    Split (List.intercalate validatorSeparator ds) validatorSeparator =
      if ds = [] then [[]] else ds := by
  by_cases he : ds = []
  · subst he; rfl
  · rw [if_neg he]
    exact Split_intercalate (Char.ofNat 124) ds he h

theorem fieldTag_valid (t : StructField) (tag : Str) :
    fieldTag { t with Tag := [(tagName, tag)] } none = tag := by
  simp [fieldTag, StructField.TagGet]

theorem extractFieldName_name (D1 D2 : List Str) (V : Str)
    (hD : ∀ d ∈ D1, Char.ofNat 61 ∉ d) :
    extractFieldName (D1 ++ ("name=".toList ++ V) :: D2) = (D1 ++ D2, V, none) := by
  have hidx : Index ("name=".toList ++ V) settingsToken = 4 :=
    Index_single_append (Char.ofNat 61) "name".toList V (by decide)
  unfold extractFieldName
  rw [extractFieldNameLoop_skip_before D1 [] _ (fun k hk => isSetting_of_not_mem k (hD k hk))]
  rw [extractFieldNameLoop]
  simp only [hidx]
  simp

/-- C12: when one element `name=V`, with `V` not empty, is put at any place among
directive elements that hold no `=`, `getFieldValidators` binds the same directives in
the same order as without it, each with the display name `V` in the place of the
title-cased field identifier. -/
theorem getFieldValidators_name_setting (E : Ext) (reg : Registry) (v : Value)
    (t : StructField) (D1 D2 : List Str) (V : Str)
    (hD : ∀ d ∈ D1 ++ D2, Char.ofNat 61 ∉ d ∧ Char.ofNat 124 ∉ d)
    (hV : V ≠ []) (hVbar : Char.ofNat 124 ∉ V) (fvs : List FieldValidator)
    (h : getFieldValidators E reg v
      { t with Tag := [(tagName, List.intercalate validatorSeparator (D1 ++ D2))] } none
        = Outcome.ok fvs) :
    getFieldValidators E reg v
      { t with Tag := [(tagName,
          List.intercalate validatorSeparator (D1 ++ ("name=".toList ++ V) :: D2))] } none
        = Outcome.ok (fvs.map (fun f => { f with FieldName := V })) ∧
    ∀ f ∈ fvs, f.FieldName = E.Title t.Name := by
  have hbar : ∀ d ∈ D1 ++ D2, Char.ofNat 124 ∉ d := fun d hd => (hD d hd).2
  have heq : ∀ d ∈ D1 ++ D2, Char.ofNat 61 ∉ d := fun d hd => (hD d hd).1
  -- the tag without the setting
  have hsplit1 := Split_intercalate_elements (D1 ++ D2) hbar
  have hset1 : ∀ k ∈ Split (fieldTag { t with Tag := [(tagName,
      List.intercalate validatorSeparator (D1 ++ D2))] } none) validatorSeparator,
      isSetting k = false := by
    rw [fieldTag_valid, hsplit1]
    intro k hk
    split at hk
    · simp only [List.mem_singleton] at hk; subst hk; rfl
    · exact isSetting_of_not_mem k (heq k hk)
  have hfilter1 : directiveElements (List.intercalate validatorSeparator (D1 ++ D2)) =
      (D1 ++ D2).filter (fun k => !isSkipped k) := by
    unfold directiveElements
    rw [hsplit1]
    split
    · rename_i he; rw [he]; rfl
    · rfl
  have h1 := (getFieldValidators_ok_iff E reg v _ none hset1 fvs).mp h
  rw [fieldTag_valid, hfilter1] at h1
  -- the tag with the setting
  have hbar2 : ∀ d ∈ D1 ++ ("name=".toList ++ V) :: D2, Char.ofNat 124 ∉ d := by
    intro d hd
    simp only [List.mem_append, List.mem_cons] at hd
    rcases hd with hd | hd | hd
    · exact hbar d (List.mem_append_left _ hd)
    · subst hd
      simp only [List.mem_append, not_or]
      exact ⟨by decide, hVbar⟩
    · exact hbar d (List.mem_append_right _ hd)
  have hsplit2 := Split_intercalate (Char.ofNat 124) (D1 ++ ("name=".toList ++ V) :: D2)
    (by simp) hbar2
  have hx := extractFieldName_name D1 D2 V (fun d hd => heq d (List.mem_append_left _ hd))
  have hVlen : 0 < V.length := List.length_pos.mpr hV
  constructor
  · rw [getFieldValidators_eq, fieldTag_valid]
    have hsplit2' : Split (List.intercalate validatorSeparator
        (D1 ++ ("name=".toList ++ V) :: D2)) validatorSeparator =
        D1 ++ ("name=".toList ++ V) :: D2 := hsplit2
    rw [hsplit2', hx]
    have hne : ¬ (V.length = 0 ∧ (none : Option Str).isSome = true) := by simp
    simp only [hne, if_false, displayName, gt_iff_lt, hVlen, if_true]
    rw [bindDirectives_ok_iff]
    refine ⟨fvs.map (fun f => { f with FieldName := V }), ?_, by simp⟩
    rw [List.forall₂_map_right_iff]
    exact h1.imp (fun k f hkf => (bindDirective_fieldName reg _ V _ k f hkf).1)
  · intro f hf
    obtain ⟨k, -, hkf⟩ := forall₂_exists_left h1 f hf
    exact (bindDirective_fieldName reg _ V _ k f hkf).2

set_option maxRecDepth 100000 in
theorem getFieldValidators_required_alpha :
    getFieldValidators Ext.sample initRegistry (Value.string [])
      { sampleField "" with Tag := [(tagName,
          List.intercalate validatorSeparator (["required".toList] ++ ["alpha".toList]))] } none
      = Outcome.ok [boundRequired "Name", boundAlpha "Name"] := by
  rfl

/-- C12 on the tag `required|name=Nom|alpha` of a field `Name`. -/
theorem getFieldValidators_name_setting_witness :
    getFieldValidators Ext.sample initRegistry (Value.string [])
      { sampleField "" with Tag := [(tagName,
          List.intercalate validatorSeparator
            (["required".toList] ++ ("name=".toList ++ "Nom".toList) :: ["alpha".toList]))] } none
      = Outcome.ok ([boundRequired "Name", boundAlpha "Name"].map
          (fun f => { f with FieldName := "Nom".toList })) :=
  (getFieldValidators_name_setting Ext.sample initRegistry (Value.string []) (sampleField "")
    ["required".toList] ["alpha".toList] "Nom".toList (by decide) (by decide) (by decide) _
    getFieldValidators_required_alpha).1

/-! ## Settings other than `name` -/

/-- C13 (as amended): when the first element of a tag that holds `=` after its first
character has a text before that `=` other than `name`, `getFieldValidators` fails with
the error that this text is not a valid validation option, and returns no directives. -/
theorem getFieldValidators_first_setting_not_name (E : Ext) (reg : Registry) (v : Value)
    (t : StructField) (customFieldTags : Option (List (Str × Str)))
    (before after : List Str) (k : Str)
    (hsplit : Split (fieldTag t customFieldTags) validatorSeparator = before ++ k :: after)
    (hbefore : ∀ e ∈ before, isSetting e = false)
    (hk : isSetting k = true)
    (hname : k.take (Index k settingsToken).toNat ≠ "name".toList) :
    getFieldValidators E reg v t customFieldTags =
      Outcome.error (k.take (Index k settingsToken).toNat ++
        " is not a valid validation option".toList) := by
  have hpos : Index k settingsToken > 0 := by simpa [isSetting] using hk
  rw [getFieldValidators_eq, hsplit]
  unfold extractFieldName
  rw [extractFieldNameLoop_skip_before before [] _ hbefore, extractFieldNameLoop]
  dsimp only
  rw [if_pos hpos, if_neg hname]
  simp

/-- C13 (as amended) on the tags `required|size=3` and `matches(a=b)` of a field `Name`. -/
theorem getFieldValidators_first_setting_not_name_witness :
    getFieldValidators Ext.sample initRegistry (Value.string []) (sampleField "required|size=3")
        none = Outcome.error "size is not a valid validation option".toList ∧
      getFieldValidators Ext.sample initRegistry (Value.string []) (sampleField "matches(a=b)")
        none = Outcome.error "matches(a is not a valid validation option".toList :=
  ⟨getFieldValidators_first_setting_not_name Ext.sample initRegistry (Value.string [])
      (sampleField "required|size=3") none ["required".toList] [] "size=3".toList
      (by decide) (by decide) (by decide) (by decide),
    getFieldValidators_first_setting_not_name Ext.sample initRegistry (Value.string [])
      (sampleField "matches(a=b)") none [] [] "matches(a=b)".toList
      (by decide) (by decide) (by decide) (by decide)⟩

set_option maxRecDepth 100000 in
theorem getFieldValidators_second_setting :
    (match getFieldValidators Ext.sample initRegistry (Value.string [])
        (sampleField "name=Email|email->a=b") none with
      | Outcome.ok fvs => some (fvs.map (fun f => (f.FieldName, f.FieldCustomMessages.Message)))
      | _ => none) = some [("Email".toList, "a=b".toList)] ∧
    (match getFieldValidators Ext.sample initRegistry (Value.string [])
        (sampleField "name=X|foo=(,)") none with
      | Outcome.panic => true
      | _ => false) = true := by
  constructor <;> rfl

/-- C13 fails as stated: after a `name` setting the parser looks for no further
setting.  In the tag `name=Email|email->a=b` the element `email->a=b` is read as the
directive `email` with the message `a=b`, and one directive is returned without an
error; in the tag `name=X|foo=(,)` the element `foo=(,)` is read as a directive with
parameters and the parser panics instead of returning an error. -/
theorem getFieldValidators_setting_counterexample :
    ¬ (∀ tag : String, (∃ k ∈ Split tag.toList validatorSeparator,
          isSetting k = true ∧ k.take (Index k settingsToken).toNat ≠ "name".toList) →
        ∃ e, getFieldValidators Ext.sample initRegistry (Value.string []) (sampleField tag) none
          = Outcome.error e) ∧
    (match getFieldValidators Ext.sample initRegistry (Value.string [])
        (sampleField "name=X|foo=(,)") none with
      | Outcome.panic => true
      | _ => false) = true := by
  refine ⟨?_, getFieldValidators_second_setting.2⟩
  intro hall
  obtain ⟨e, he⟩ := hall "name=Email|email->a=b"
    ⟨"email->a=b".toList, by decide, by decide, by decide⟩
  have h := getFieldValidators_second_setting.1
  rw [he] at h
  simp at h

/-! ## Keys the registry does not hold -/

theorem bindDirective_unknown (reg : Registry) (fieldName : Str) (fieldValue : Value)
    (k key3 : Str) (hkey : directiveKeyText k fieldName = some key3)
    (hreg : GetValidator reg key3 = none) :
    bindDirective reg fieldName fieldValue k =
      Outcome.error ("Invalid validation key for field ".toList ++ fieldName ++
        ": ".toList ++ key3) := by
  unfold directiveKeyText at hkey
  unfold bindDirective
  dsimp only at hkey ⊢
  generalize decide (List.take 1 k = "!".toList) = neg at hkey ⊢
  generalize (if neg = true then List.drop 1 k else k) = key1 at hkey ⊢
  rcases hr1 : extractMessage key1 fieldName neg with ⟨a1, b1, c1⟩
  rw [hr1] at hkey
  simp only [] at hkey ⊢
  by_cases hc : (b1.isNone && c1.isSome) = true
  · rw [if_pos hc] at hkey
    exact absurd hkey (by simp)
  · rw [if_neg hc] at hkey
    rw [if_neg hc]
    cases hp : params a1 fieldName with
    | none => rw [hp] at hkey; exact absurd hkey (by simp)
    | some r =>
      obtain ⟨k3, ps, e3⟩ := r
      rw [hp] at hkey
      simp only [] at hkey ⊢
      by_cases hq : ps.length = 0 ∧ e3.isSome = true
      · rw [if_pos hq] at hkey
        exact absurd hkey (by simp)
      · rw [if_neg hq] at hkey
        rw [if_neg hq]
        simp only [Option.some.injEq] at hkey
        subst hkey
        rw [hreg]

theorem bindDirectives_before (reg : Registry) (fieldName : Str) (fieldValue : Value)
    (rest : List Str) : ∀ (before : List Str) (acc : List FieldValidator),
    (∀ e ∈ before, isSkipped e = true ∨
      ∃ f, bindDirective reg fieldName fieldValue e = Outcome.ok f) →
    ∃ acc', bindDirectives reg fieldName fieldValue (before ++ rest) acc =
      bindDirectives reg fieldName fieldValue rest acc'
  | [], acc, _ => ⟨acc, rfl⟩
  | e :: es, acc, h => by
    have he := h e (List.mem_cons_self _ _)
    have hes : ∀ x ∈ es, isSkipped x = true ∨
        ∃ f, bindDirective reg fieldName fieldValue x = Outcome.ok f :=
      fun x hx => h x (List.mem_cons_of_mem _ hx)
    show ∃ acc', bindDirectives reg fieldName fieldValue (e :: (es ++ rest)) acc = _
    by_cases hs : e = "-".toList ∨ e = []
    · rw [bindDirectives, if_pos hs]
      exact bindDirectives_before reg fieldName fieldValue rest es acc hes
    · have hsk : isSkipped e = false := by
        simp only [not_or] at hs
        have h1 : (e == "-".toList) = false := beq_eq_false_iff_ne.mpr hs.1
        have h2 : (e == ([] : Str)) = false := beq_eq_false_iff_ne.mpr hs.2
        simp only [isSkipped, h1, h2, Bool.or_self]
      rcases he with he | ⟨f, hf⟩
      · rw [hsk] at he; exact absurd he (by decide)
      · rw [bindDirectives, if_neg hs, hf]
        exact bindDirectives_before reg fieldName fieldValue rest es (acc ++ [f]) hes

/-- C14: when the settings of a tag are read without error, every element before a
directive is passed over or binds, and the key text of the directive (what is left once
negation mark, custom message and parameters are taken off) is not a key of the registry,
`getFieldValidators` returns no directives but the error `Invalid validation key for
field`, followed by the display name of the field, a colon and the key text. -/
theorem getFieldValidators_unknown_key (E : Ext) (reg : Registry) (v : Value)
    (t : StructField) (customFieldTags : Option (List (Str × Str)))
    (before after : List Str) (k name key3 : Str)
    (hx : extractFieldName (Split (fieldTag t customFieldTags) validatorSeparator) =
      (before ++ k :: after, name, none))
    (hbefore : ∀ e ∈ before, isSkipped e = true ∨
      ∃ f, bindDirective reg (displayName E t name) v.Interface e = Outcome.ok f)
    (hk : isSkipped k = false)
    (hkey : directiveKeyText k (displayName E t name) = some key3)
    (hreg : GetValidator reg key3 = none) :
    getFieldValidators E reg v t customFieldTags =
      Outcome.error ("Invalid validation key for field ".toList ++ displayName E t name ++
        ": ".toList ++ key3) := by
  have hs : ¬ (k = "-".toList ∨ k = []) := by
    intro h
    rcases h with h | h <;> subst h <;> exact absurd hk (by decide)
  rw [getFieldValidators_eq, hx]
  have hne : ¬ (name.length = 0 ∧ (none : Option Str).isSome = true) := by simp
  simp only [hne, if_false]
  obtain ⟨acc', hacc⟩ := bindDirectives_before reg (displayName E t name) v.Interface
    (k :: after) before [] hbefore
  rw [hacc, bindDirectives, if_neg hs,
    bindDirective_unknown reg _ v.Interface k key3 hkey hreg]

set_option maxRecDepth 100000 in
theorem GetValidator_bogus : GetValidator initRegistry "bogus".toList = none := by
  rfl

/-- C14 on the tag `required|!bogus(1,2)->oops` of a field `Name`. -/
theorem getFieldValidators_unknown_key_witness :
    getFieldValidators Ext.sample initRegistry (Value.string [])
        (sampleField "required|!bogus(1,2)->oops") none =
      Outcome.error "Invalid validation key for field Name: bogus".toList :=
  getFieldValidators_unknown_key Ext.sample initRegistry (Value.string [])
    (sampleField "required|!bogus(1,2)->oops") none ["required".toList] []
    "!bogus(1,2)->oops".toList [] "bogus".toList (by decide)
    (fun e he => Or.inr ⟨boundRequired "Name", by
      rw [List.mem_singleton.mp he]; exact bindDirective_required_sample⟩)
    (by decide) (by decide) GetValidator_bogus

/-! ## Registry-level custom messages -/

theorem GetValidator_setCustomMessages (key : Str) (ms : MessageSet) : ∀ (reg : Registry),
    GetValidator (reg.setCustomMessages key ms) key =
      (GetValidator reg key).map (fun ev => { ev with ValidatorCustomMessages := ms })
  | [] => rfl
  | p :: reg => by
    have ih := GetValidator_setCustomMessages key ms reg
    unfold GetValidator Registry.setCustomMessages at ih ⊢
    by_cases hp : (p.1 == key) = true
    · simp [List.find?, hp]
    · simp only [List.map_cons, hp, if_false, List.find?, Bool.false_eq_true]
      exact ih

set_option maxRecDepth 100000 in
theorem initRegistry_keys_without_verb :
    initRegistry.all (fun p => decide (Index p.1 "%s".toList = -1)) = true := by
  rfl

theorem registered_key_without_verb (key : Str) (ev : EmValidator)
    (h : GetValidator initRegistry key = some ev) : Index key "%s".toList = -1 := by
  have hall := initRegistry_keys_without_verb
  rw [List.all_eq_true] at hall
  unfold GetValidator at h
  cases hf : initRegistry.find? (fun p => p.1 == key) with
  | none => simp [hf] at h
  | some p =>
    have hp := hall p (List.mem_of_find?_eq_some hf)
    have hk : p.1 = key := by simpa using List.find?_some hf
    rw [← hk]
    simpa using hp

/-- C15: the setters test the key, not the message, for the verb `%s`; no registered
key holds it, so for every registered key and every text, with or without `%s`,
`SetCustomMessage` stores the text in the plain slot `Message` and
`SetCustomNegationMessage` in the plain slot `NegatedMessage`. -/
theorem SetCustomMessage_tests_key (key msg : Str) (ev : EmValidator)
    (h : GetValidator initRegistry key = some ev) :
    (SetCustomMessage initRegistry key msg).2 = none ∧
    GetValidator (SetCustomMessage initRegistry key msg).1 key =
      some { ev with ValidatorCustomMessages := { Message := msg } } ∧
    (SetCustomNegationMessage initRegistry key msg).2 = none ∧
    GetValidator (SetCustomNegationMessage initRegistry key msg).1 key =
      some { ev with ValidatorCustomMessages := { NegatedMessage := msg } } := by
  have hv := registered_key_without_verb key ev h
  have hn : ¬ (Index key "%s".toList > -1) := by omega
  simp only [SetCustomMessage, SetCustomNegationMessage, h, hn, if_false,
    GetValidator_setCustomMessages, Option.map_some', and_self]

set_option maxRecDepth 100000 in
theorem GetValidator_email :
    GetValidator initRegistry "email".toList =
      some { OpString := some (StringOp.leaf "IsEmail"),
             DefaultMessages :=
               { MessageFmt := "%s must be a valid address".toList,
                 NegatedMessageFmt := "%s must not be an email address".toList } } := by
  rfl

/-- C15 on the key `email` and the text `%s is wrong`. -/
theorem SetCustomMessage_tests_key_witness :
    GetValidator (SetCustomMessage initRegistry "email".toList "%s is wrong".toList).1
        "email".toList =
      some { OpString := some (StringOp.leaf "IsEmail"),
             DefaultMessages :=
               { MessageFmt := "%s must be a valid address".toList,
                 NegatedMessageFmt := "%s must not be an email address".toList },
             ValidatorCustomMessages := { Message := "%s is wrong".toList } } :=
  (SetCustomMessage_tests_key "email".toList "%s is wrong".toList _ GetValidator_email).2.1

theorem Message_without_registry_custom (E : Ext) (ms : FieldValidator) (cm : MessageSet) :
    FieldValidator.Message E
        { ms with Validator := { ms.Validator with ValidatorCustomMessages := cm } } =
      ms.Message E := by
  rfl

set_option maxRecDepth 100000 in
theorem ValidateStruct_custom_required :
    (GetValidator registryWithCustomRequired "required".toList).map
        (fun ev => ev.ValidatorCustomMessages) = some { Message := "fill it in".toList } ∧
    (ValidateStruct Ext.sample registryWithCustomRequired sampleRequired).map
        (fun r => (r.1.map (fun p => p.2.map (fun e => e.Err)), r.2)) =
      some ([["Name must not be empty".toList]], none) := by
  constructor <;> rfl

/-- C16: `Message` never reads the custom messages of the validator.  Changing them
changes no resolved message, and after `SetCustomMessage("required", "fill it in")` the
empty field tagged `required` is still reported with the default text `Name must not be
empty`. -/
theorem registry_custom_message_not_used (E : Ext) :
    (∀ (ms : FieldValidator) (cm : MessageSet),
      FieldValidator.Message E
          { ms with Validator := { ms.Validator with ValidatorCustomMessages := cm } } =
        ms.Message E) ∧
    (GetValidator registryWithCustomRequired "required".toList).map
        (fun ev => ev.ValidatorCustomMessages) = some { Message := "fill it in".toList } ∧
    (ValidateStruct Ext.sample registryWithCustomRequired sampleRequired).map
        (fun r => (r.1.map (fun p => p.2.map (fun e => e.Err)), r.2)) =
      some ([["Name must not be empty".toList]], none) :=
  ⟨Message_without_registry_custom E, ValidateStruct_custom_required⟩

/-! ## Locales -/

/-- C17: for every locale name other than `en`, `SetMessagesLocale` returns the error
that the locale is not implemented and the registry it was given, unchanged. -/
theorem SetMessagesLocale_other (locale : Str) (reg : Registry) (h : locale ≠ "en".toList) :
    SetMessagesLocale locale reg =
      some (reg, some ("Locale ".toList ++ locale ++
        " is not implemented (we\x27d love it if you could help us fix that!)".toList)) := by
  unfold SetMessagesLocale
  rw [if_neg h]

/-- C17 on the locale `fr` and the registry after `init`. -/
theorem SetMessagesLocale_other_witness :
    SetMessagesLocale "fr".toList initRegistry =
      some (initRegistry, some ("Locale ".toList ++ "fr".toList ++
        " is not implemented (we\x27d love it if you could help us fix that!)".toList)) :=
  SetMessagesLocale_other "fr".toList initRegistry (by decide)

set_option maxRecDepth 100000 in
theorem initRegistry_without_message :
    (initRegistry.filter (fun p =>
        p.2.DefaultMessages.Message == [] && p.2.DefaultMessages.MessageFmt == [])).map
        (fun p => String.mk p.1) =
      ["matches", "title", "name", "phone", "skype", "hexadecimal", "int", "uuidv3", "uuidv4",
        "uuidv5", "isoalpha2", "isoalpha3", "isbn10", "isbn13", "datauri"] ∧
    ((messages_en.filter (fun p =>
        (GetValidator registered ((keyRoot p.1.toList).getD [])).isNone)).map
        (fun p => p.1)) =
      ["hexidecimal.messagefmt", "hexidecimal.negatedmessagefmt", "uuid3.messagefmt",
        "uuid3.negatedmessagefmt", "uuid4.messagefmt", "uuid4.negatedmessagefmt",
        "uuid5.messagefmt", "uuid5.negatedmessagefmt"] := by
  constructor <;> rfl

set_option maxRecDepth 100000 in
theorem bindDirective_uuidv4 (E : Ext) :
    (match bindDirective initRegistry "Id".toList (Value.string "x".toList) "uuidv4".toList with
      | Outcome.ok fv => some (fv.Message E)
      | _ => none) = some (E.Sprintf [] (Value.string "Id".toList)) := by
  rfl

/-- C18: after `init` fifteen registered validators carry no default message at all,
neither plain nor formatted; the table of the locale `en` names `hexidecimal`, `uuid3`,
`uuid4` and `uuid5`, which are no registered keys.  For a directive `uuidv4` the message
is `Sprintf` of the empty template. -/
theorem registered_without_default_message (E : Ext) :
    (initRegistry.filter (fun p =>
        p.2.DefaultMessages.Message == [] && p.2.DefaultMessages.MessageFmt == [])).map
        (fun p => String.mk p.1) =
      ["matches", "title", "name", "phone", "skype", "hexadecimal", "int", "uuidv3", "uuidv4",
        "uuidv5", "isoalpha2", "isoalpha3", "isbn10", "isbn13", "datauri"] ∧
    ((messages_en.filter (fun p =>
        (GetValidator registered ((keyRoot p.1.toList).getD [])).isNone)).map
        (fun p => p.1)) =
      ["hexidecimal.messagefmt", "hexidecimal.negatedmessagefmt", "uuid3.messagefmt",
        "uuid3.negatedmessagefmt", "uuid4.messagefmt", "uuid4.negatedmessagefmt",
        "uuid5.messagefmt", "uuid5.negatedmessagefmt"] ∧
    (match bindDirective initRegistry "Id".toList (Value.string "x".toList) "uuidv4".toList with
      | Outcome.ok fv => some (fv.Message E)
      | _ => none) = some (E.Sprintf [] (Value.string "Id".toList)) :=
  ⟨initRegistry_without_message.1, initRegistry_without_message.2, bindDirective_uuidv4 E⟩

/-! ## Nil values -/

/-- C19: `ValidateStruct` accepts the untyped nil, but for a typed nil pointer it
returns the internal error that it only accepts structs and got `invalid`: the test
`s == nil` does not hold for a typed nil pointer, and the element of a nil pointer has
the kind `invalid`. -/
theorem ValidateStruct_nil (E : Ext) (reg : Registry) :
    ValidateStruct E reg (Value.iface none) = some ([], none) ∧
    ValidateStruct E reg (Value.ptr none) =
      some ([], some "doValidateStruct only accepts structs; got invalid".toList) := by
  constructor
  · simp [ValidateStruct, doValidateStruct, NewErrorBag]
  · simp [ValidateStruct, doValidateStruct, NewErrorBag, onlyStructsError, Kind.kindName]

theorem validateComplexType_none_eligible (E : Ext) (v : Value) (t : StructField) :
    ∀ (fvs : List FieldValidator) (bag : ErrorBag),
    (∀ f ∈ fvs, f.CanValidateComplexTypes = false) →
    validateComplexType E v t fvs bag = (bag, none)
  | [], _, _ => rfl
  | f :: fs, bag, h => by
    have hf := h f (List.mem_cons_self _ _)
    rw [validateComplexType]
    simp only [hf, Bool.false_eq_true, if_false]
    exact validateComplexType_none_eligible E v t fs bag
      (fun x hx => h x (List.mem_cons_of_mem _ hx))

/-- C20: for a field that holds a nil pointer and whose tag parses and binds no
directive that may validate complex types, `validateField` returns no error, does not
panic and leaves the bag as it was. -/
theorem validateField_nil_pointer (E : Ext) (reg : Registry) (t : StructField)
    (bag : ErrorBag) (customFieldTags : Option (List (Str × Str)))
    (fvs : List FieldValidator)
    (hparse : getFieldValidators E reg (Value.ptr none) t customFieldTags = Outcome.ok fvs)
    (hnone : ∀ f ∈ fvs, f.CanValidateComplexTypes = false) :
    validateField E reg (Value.ptr none) t bag customFieldTags = some (bag, none) := by
  rw [validateField, hparse]
  simp only [validateComplexType_none_eligible E _ t fvs bag hnone]

set_option maxRecDepth 100000 in
theorem getFieldValidators_nil_pointer_alpha :
    getFieldValidators Ext.sample initRegistry (Value.ptr none) (sampleField "alpha|-") none =
      Outcome.ok [{ boundAlpha "Name" with FieldValue := Value.ptr none }] := by
  rfl

/-- C20 on a nil pointer field `Name` tagged `alpha|-` and a bag that holds an error. -/
theorem validateField_nil_pointer_witness :
    validateField Ext.sample initRegistry (Value.ptr none) (sampleField "alpha|-")
        (NewErrorBag.Add "k".toList "earlier".toList "Other".toList) none =
      some (NewErrorBag.Add "k".toList "earlier".toList "Other".toList, none) :=
  validateField_nil_pointer Ext.sample initRegistry (sampleField "alpha|-") _ none _
    getFieldValidators_nil_pointer_alpha (by decide)

/-! ## The error bag -/

theorem find?_map_key (g : Str × List Error → Str × List Error)
    (hg : ∀ p, (g p).1 = p.1) (k : Str) : ∀ (eb : ErrorBag),
    (eb.map g).find? (fun p => p.1 == k) = (eb.find? (fun p => p.1 == k)).map g
  | [] => rfl
  | p :: ps => by
    have ih := find?_map_key g hg k ps
    by_cases hp : (p.1 == k) = true
    · have hp2 : ((g p).1 == k) = true := by rw [hg]; exact hp
      simp only [List.map_cons, List.find?, hp, hp2, Option.map_some']
    · simp only [Bool.not_eq_true] at hp
      have hp2 : ((g p).1 == k) = false := by rw [hg]; exact hp
      simp only [List.map_cons, List.find?, hp, hp2]
      exact ih

theorem any_map_key (g : Str × List Error → Str × List Error)
    (hg : ∀ p, (g p).1 = p.1) (k : Str) (eb : ErrorBag) :
    (eb.map g).any (fun p => p.1 == k) = eb.any (fun p => p.1 == k) := by
  rw [List.any_map]
  congr 1
  funext p
  simp only [Function.comp, hg]

theorem appendTo_key (err : Error) (p : Str × List Error) :
    (if (p.1 == err.Name) = true then (p.1, p.2 ++ [err]) else p).1 = p.1 := by
  split <;> rfl

theorem GetErrorsFor_addError (eb : ErrorBag) (err : Error) (k : Str) :
    (eb.addError err).GetErrorsFor k =
      eb.GetErrorsFor k ++ (if err.Name = k then [err] else []) := by
  unfold ErrorBag.addError ErrorBag.GetErrorsFor
  by_cases hany : eb.any (fun p => p.1 == err.Name) = true
  · rw [if_pos hany, find?_map_key _ (appendTo_key err) k eb]
    cases hf : eb.find? (fun p => p.1 == k) with
    | none =>
      have hk : ¬ err.Name = k := by
        intro hk
        subst hk
        obtain ⟨p, hp, hpk⟩ := List.any_eq_true.mp hany
        have := List.find?_eq_none.mp hf p hp
        exact this hpk
      simp [hk]
    | some p =>
      have hpk : p.1 = k := by simpa using List.find?_some hf
      by_cases hk : err.Name = k
      · have hpe : (p.1 == err.Name) = true := by rw [hpk, hk]; simp
        simp only [Option.map_some', hpe, if_true, if_pos hk]
      · have hpe : ¬ ((p.1 == err.Name) = true) := by
          rw [hpk]
          simpa using fun h => hk h.symm
        simp only [Option.map_some', if_neg hpe, if_neg hk, List.append_nil]
  · rw [if_neg hany]
    simp only [Bool.not_eq_true, List.any_eq_false, beq_iff_eq] at hany
    by_cases hk : err.Name = k
    · subst hk
      have hnone : eb.find? (fun p => p.1 == err.Name) = none := by
        rw [List.find?_eq_none]
        intro p hp
        simpa using hany p hp
      simp [List.find?_append, hnone]
    · have hk' : (err.Name == k) = false := beq_eq_false_iff_ne.mpr hk
      simp only [List.find?_append, List.find?, hk', if_neg hk, List.append_nil]
      cases eb.find? (fun p => p.1 == k) <;> rfl

theorem HasErrorFor_addError (eb : ErrorBag) (err : Error) (k : Str) :
    (eb.addError err).HasErrorFor k = (eb.HasErrorFor k || (err.Name == k)) := by
  unfold ErrorBag.addError ErrorBag.HasErrorFor
  by_cases hany : eb.any (fun p => p.1 == err.Name) = true
  · rw [if_pos hany, any_map_key _ (appendTo_key err) k eb]
    by_cases hk : err.Name = k
    · subst hk; simp [hany]
    · have hk' : (err.Name == k) = false := beq_eq_false_iff_ne.mpr hk
      simp [hk']
  · rw [if_neg hany]
    simp [List.any_append]

theorem HasErrors_addError (eb : ErrorBag) (err : Error) :
    (eb.addError err).HasErrors = true := by
  unfold ErrorBag.addError ErrorBag.HasErrors
  by_cases hany : eb.any (fun p => p.1 == err.Name) = true
  · rw [if_pos hany]
    obtain ⟨p, hp, -⟩ := List.any_eq_true.mp hany
    have : 0 < eb.length := List.length_pos_of_mem hp
    simpa using this
  · rw [if_neg hany]
    simp

theorem GetErrorsFor_addAll (k : Str) : ∀ (errs : List Error) (eb : ErrorBag),
    (eb.addAll errs).GetErrorsFor k = eb.GetErrorsFor k ++ errs.filter (fun e => e.Name == k)
  | [], eb => by simp [ErrorBag.addAll]
  | e :: es, eb => by
    have ih := GetErrorsFor_addAll k es (eb.addError e)
    unfold ErrorBag.addAll at ih ⊢
    rw [List.foldl_cons, ih, GetErrorsFor_addError]
    by_cases hk : e.Name = k
    · simp [hk, List.filter_cons]
    · have hk' : (e.Name == k) = false := beq_eq_false_iff_ne.mpr hk
      simp [hk, hk', List.filter_cons]

theorem HasErrorFor_addAll (k : Str) : ∀ (errs : List Error) (eb : ErrorBag),
    (eb.addAll errs).HasErrorFor k = (eb.HasErrorFor k || errs.any (fun e => e.Name == k))
  | [], eb => by simp [ErrorBag.addAll]
  | e :: es, eb => by
    have ih := HasErrorFor_addAll k es (eb.addError e)
    unfold ErrorBag.addAll at ih ⊢
    rw [List.foldl_cons, ih, HasErrorFor_addError]
    simp [Bool.or_assoc]

theorem HasErrors_addAll : ∀ (errs : List Error) (eb : ErrorBag),
    (eb.addAll errs).HasErrors = (eb.HasErrors || !errs.isEmpty)
  | [], eb => by simp [ErrorBag.addAll]
  | e :: es, eb => by
    have ih := HasErrors_addAll es (eb.addError e)
    unfold ErrorBag.addAll at ih ⊢
    rw [List.foldl_cons, ih, HasErrors_addError]
    simp

theorem addCalls_eq_addAll (eb : ErrorBag) (calls : List (Str × Str × Str)) :
    eb.addCalls calls =
      eb.addAll (calls.map (fun c => { Name := c.1, Err := c.2.1, Field := c.2.2 })) := by
  unfold ErrorBag.addCalls ErrorBag.addAll
  rw [List.foldl_map]
  rfl

/-- C30: after any sequence of `Add` calls on a new bag, `GetErrorsFor(k)` is the
sequence of the added errors whose key is `k`, in the order of the calls and whatever
their field; `HasErrorFor(k)` holds exactly when that sequence is not empty, and
`HasErrors()` exactly when at least one call was made. -/
theorem ErrorBag_after_adds (calls : List (Str × Str × Str)) (k : Str) :
    (NewErrorBag.addCalls calls).GetErrorsFor k =
        (calls.filter (fun c => c.1 == k)).map
          (fun c => { Name := c.1, Err := c.2.1, Field := c.2.2 }) ∧
    ((NewErrorBag.addCalls calls).HasErrorFor k = true ↔
        calls.filter (fun c => c.1 == k) ≠ []) ∧
    ((NewErrorBag.addCalls calls).HasErrors = true ↔ calls ≠ []) := by
  rw [addCalls_eq_addAll]
  refine ⟨?_, ?_, ?_⟩
  · rw [GetErrorsFor_addAll]
    simp [NewErrorBag, ErrorBag.GetErrorsFor, List.filter_map, Function.comp_def]
  · rw [HasErrorFor_addAll]
    have h0 : NewErrorBag.HasErrorFor k = false := rfl
    rw [h0, Bool.false_or, ne_eq, List.filter_eq_nil_iff, List.any_eq_true]
    constructor
    · rintro ⟨e, he, hk⟩ hall
      obtain ⟨c, hc, rfl⟩ := List.mem_map.mp he
      exact hall c hc hk
    · intro h
      by_contra hne
      exact h (fun c hc hk => hne ⟨_, List.mem_map.mpr ⟨c, hc, rfl⟩, hk⟩)
  · rw [HasErrors_addAll]
    cases calls <;> simp [NewErrorBag, ErrorBag.HasErrors]

/-! ## What the walker records -/

theorem addAll_append (eb : ErrorBag) (a b : List Error) :
    eb.addAll (a ++ b) = (eb.addAll a).addAll b := by
  unfold ErrorBag.addAll
  rw [List.foldl_append]

theorem addAll_cons (eb : ErrorBag) (e : Error) (l : List Error) :
    eb.addAll (e :: l) = (eb.addError e).addAll l := rfl

theorem addAll_nil (eb : ErrorBag) : eb.addAll [] = eb := rfl

theorem Records.of_eq {f g : ErrorBag → Option (ErrorBag × Option Str)}
    {r s : Option (List Error × Option Str)}
    (h : ∀ bag, f bag = g bag) (hr : r = s) (hg : Records g s) : Records f r := by
  intro bag
  rw [h bag, hr]
  exact hg bag

theorem Records.stop (o : Option Str) : Records (fun bag => some (bag, o)) (some ([], o)) :=
  fun _ => rfl

theorem Records.panics : Records (fun _ => none) none := fun _ => rfl

theorem Records.seq {f g : ErrorBag → Option (ErrorBag × Option Str)}
    {r1 r2 : Option (List Error × Option Str)} (hf : Records f r1) (hg : Records g r2) :
    Records (fun bag =>
      match f bag with
      | none => none
      | some (b, some e) => some (b, some e)
      | some (b, none) => g b) (recordedThen r1 r2) := by
  intro bag
  rcases r1 with _ | ⟨errs, _ | e⟩
  · simp only [hf bag, Option.map_none', recordedThen]
  · rcases r2 with _ | ⟨errs2, o⟩
    · simp only [hf bag, hg _, Option.map_some', Option.map_none', recordedThen]
    · simp only [hf bag, hg _, Option.map_some', recordedThen, addAll_append]
  · simp only [hf bag, Option.map_some', recordedThen]

theorem validateBasicType_records (E : Ext) (v : Value) (t : StructField) :
    ∀ (fvs : List FieldValidator) (bag : ErrorBag),
    validateBasicType E v t fvs bag =
      (bag.addAll (recordedDirectives E t v fvs).1, (recordedDirectives E t v fvs).2)
  | [], _ => rfl
  | f :: fs, bag => by
    rw [validateBasicType, recordedDirectives]
    rcases f.Validator.Validate E v f.ValidatorParams with e | valid
    · rfl
    · cases valid
      · simp only [validateBasicType_records E v t fs]
        rfl
      · simp only [validateBasicType_records E v t fs]
        rfl

theorem validateComplexType_records (E : Ext) (v : Value) (t : StructField) :
    ∀ (fvs : List FieldValidator) (bag : ErrorBag),
    validateComplexType E v t fvs bag =
      (bag.addAll
        (recordedDirectives E t v (fvs.filter FieldValidator.CanValidateComplexTypes)).1,
        (recordedDirectives E t v (fvs.filter FieldValidator.CanValidateComplexTypes)).2)
  | [], _ => rfl
  | f :: fs, bag => by
    by_cases hc : f.CanValidateComplexTypes = true
    · rw [validateComplexType, if_pos hc, List.filter_cons_of_pos hc, recordedDirectives]
      rcases f.Validator.Validate E v f.ValidatorParams with e | valid
      · rfl
      · cases valid
        · simp only [validateComplexType_records E v t fs]
          rfl
        · simp only [validateComplexType_records E v t fs]
          rfl
    · rw [validateComplexType, if_neg hc, List.filter_cons_of_neg hc]
      exact validateComplexType_records E v t fs bag

/-- After the directives that may validate complex types, the walker goes on with `next`. -/
theorem Records.afterComplex (E : Ext) (v : Value) (t : StructField)
    (fvs : List FieldValidator) {next : ErrorBag → Option (ErrorBag × Option Str)}
    {r : Option (List Error × Option Str)} (hnext : Records next r) :
    Records (fun validationErrs =>
      match validateComplexType E v t fvs validationErrs with
      | (bag, some e) => some (bag, some e)
      | (bag, none) => next bag)
      (recordedThen
        (some (recordedDirectives E t v (fvs.filter FieldValidator.CanValidateComplexTypes)))
        r) := by
  have hc : Records (fun bag => some (validateComplexType E v t fvs bag))
      (some (recordedDirectives E t v
        (fvs.filter FieldValidator.CanValidateComplexTypes))) := by
    intro bag
    show some (validateComplexType E v t fvs bag) = _
    rw [validateComplexType_records]
    rfl
  refine Records.of_eq (fun bag => ?_) rfl (Records.seq hc hnext)
  rcases validateComplexType E v t fvs bag with ⟨b, _ | e⟩ <;> rfl

theorem doValidateStruct_struct (E : Ext) (reg : Registry) (n : Str)
    (fields : List (StructField × Value)) (bag : ErrorBag)
    (tags : Option (List (Str × Str))) :
    doValidateStruct E reg (Value.struct n fields) bag tags =
      validateStructFields E reg fields bag tags := by
  rw [doValidateStruct]

theorem recordedStruct_struct (E : Ext) (reg : Registry) (n : Str)
    (fields : List (StructField × Value)) (tags : Option (List (Str × Str))) :
    recordedStruct E reg (Value.struct n fields) tags = recordedFields E reg fields tags := by
  rw [recordedStruct]

theorem doValidateStruct_records_of (E : Ext) (reg : Registry)
    (tags : Option (List (Str × Str))) (s : Value)
    (h : ∀ n fields, (s = Value.struct n fields ∨ s = Value.ptr (some (Value.struct n fields)) ∨
        s = Value.iface (some (Value.struct n fields))) →
      Records (fun bag => validateStructFields E reg fields bag tags)
        (recordedFields E reg fields tags)) :
    Records (fun bag => doValidateStruct E reg s bag tags) (recordedStruct E reg s tags) := by
  cases s with
  | struct n fields =>
    exact Records.of_eq (fun bag => by rw [doValidateStruct]) (by rw [recordedStruct])
      (h n fields (Or.inl rfl))
  | ptr elem =>
    cases elem with
    | none =>
      exact Records.of_eq (fun bag => by rw [doValidateStruct]) (by rw [recordedStruct])
        (Records.stop _)
    | some x =>
      cases x with
      | struct n fields =>
        exact Records.of_eq (fun bag => by rw [doValidateStruct]) (by rw [recordedStruct])
          (h n fields (Or.inr (Or.inl rfl)))
      | _ =>
        exact Records.of_eq
          (fun bag => by
            rw [doValidateStruct]
            all_goals (intros; rename_i hh; cases hh))
          (by
            rw [recordedStruct]
            all_goals (intros; rename_i hh; cases hh))
          (Records.stop _)
  | iface elem =>
    cases elem with
    | none =>
      exact Records.of_eq (fun bag => by rw [doValidateStruct]) (by rw [recordedStruct])
        (Records.stop _)
    | some x =>
      cases x with
      | struct n fields =>
        exact Records.of_eq (fun bag => by rw [doValidateStruct]) (by rw [recordedStruct])
          (h n fields (Or.inr (Or.inr rfl)))
      | _ =>
        exact Records.of_eq
          (fun bag => by
            rw [doValidateStruct]
            all_goals (intros; rename_i hh; cases hh))
          (by
            rw [recordedStruct]
            all_goals (intros; rename_i hh; cases hh))
          (Records.stop _)
  | _ =>
        exact Records.of_eq
          (fun bag => by
            rw [doValidateStruct]
            all_goals (intros; rename_i hh; cases hh))
          (by
            rw [recordedStruct]
            all_goals (intros; rename_i hh; cases hh))
          (Records.stop _)

mutual

theorem validateField_records (E : Ext) (reg : Registry) (tags : Option (List (Str × Str)))
    (v : Value) (t : StructField) :
    Records (fun bag => validateField E reg v t bag tags) (recordedField E reg v t tags) := by
  rcases hg : getFieldValidators E reg v t tags with _ | e | fvs
  · exact Records.of_eq (fun bag => by rw [validateField, hg]; try rfl) (by rw [recordedField, hg]; try rfl)
      Records.panics
  · exact Records.of_eq (fun bag => by rw [validateField, hg]; try rfl) (by rw [recordedField, hg]; try rfl)
      (Records.stop (some e))
  · have hbasic : Records (fun bag => some (validateBasicType E v t fvs bag))
        (some (recordedDirectives E t v fvs)) := by
      intro bag
      show some (validateBasicType E v t fvs bag) = _
      rw [validateBasicType_records]
      rfl
    cases v with
    | bool b =>
      exact Records.of_eq (fun bag => by rw [validateField, hg]; try rfl) (by rw [recordedField, hg]; try rfl)
        hbasic
    | int k i =>
      exact Records.of_eq (fun bag => by rw [validateField, hg]; try rfl) (by rw [recordedField, hg]; try rfl)
        hbasic
    | uint k n =>
      exact Records.of_eq (fun bag => by rw [validateField, hg]; try rfl) (by rw [recordedField, hg]; try rfl)
        hbasic
    | float k q =>
      exact Records.of_eq (fun bag => by rw [validateField, hg]; try rfl) (by rw [recordedField, hg]; try rfl)
        hbasic
    | string s =>
      exact Records.of_eq (fun bag => by rw [validateField, hg]; try rfl) (by rw [recordedField, hg]; try rfl)
        hbasic
    | other k =>
      exact Records.of_eq (fun bag => by rw [validateField, hg]; try rfl) (by rw [recordedField, hg]; try rfl)
        (Records.stop _)
    | map keyKind entries =>
      by_cases hk : keyKind ≠ Kind.String
      · exact Records.of_eq (fun bag => by rw [validateField, hg]; simp only [if_pos hk]; try rfl)
          (by rw [recordedField, hg]; simp only [if_pos hk]; try rfl)
          (Records.afterComplex E (Value.map keyKind entries) t fvs
            (Records.stop (some (unsupportedError Kind.Map))))
      · exact Records.of_eq (fun bag => by rw [validateField, hg]; simp only [if_neg hk]; try rfl)
          (by rw [recordedField, hg]; simp only [if_neg hk]; try rfl)
          (Records.afterComplex E (Value.map keyKind entries) t fvs
            (validateMapEntries_records E reg tags entries))
    | slice elems =>
      exact Records.of_eq (fun bag => by rw [validateField, hg]; try rfl) (by rw [recordedField, hg]; try rfl)
        (Records.afterComplex E (Value.slice elems) t fvs
          (validateArrayOrSlice_records E reg tags elems t))
    | array elems =>
      exact Records.of_eq (fun bag => by rw [validateField, hg]; try rfl) (by rw [recordedField, hg]; try rfl)
        (Records.afterComplex E (Value.array elems) t fvs
          (validateArrayOrSlice_records E reg tags elems t))
    | struct n fields =>
      exact Records.of_eq (fun bag => by rw [validateField, hg]; try rfl) (by rw [recordedField, hg]; try rfl)
        (Records.afterComplex E (Value.struct n fields) t fvs
          (validateStructFields_records E reg tags fields))
    | ptr elem =>
      cases elem with
      | none =>
        exact Records.of_eq (fun bag => by rw [validateField, hg]; try rfl)
          (by rw [recordedField, hg]; try rfl)
          (Records.afterComplex E (Value.ptr none) t fvs (Records.stop none))
      | some x =>
        exact Records.of_eq (fun bag => by rw [validateField, hg]; try rfl)
          (by rw [recordedField, hg]; try rfl)
          (Records.afterComplex E (Value.ptr (some x)) t fvs
            (validateField_records E reg tags x t))
    | iface elem =>
      cases elem with
      | none =>
        exact Records.of_eq (fun bag => by rw [validateField, hg]; try rfl)
          (by rw [recordedField, hg]; try rfl)
          (Records.afterComplex E (Value.iface none) t fvs (Records.stop none))
      | some x =>
        exact Records.of_eq (fun bag => by rw [validateField, hg]; try rfl)
          (by rw [recordedField, hg]; try rfl)
          (Records.afterComplex E (Value.iface (some x)) t fvs
            (doValidateStruct_records_of E reg tags x (fun n fields hx =>
              validateStructFields_records E reg tags fields)))
termination_by sizeOf v
decreasing_by
  all_goals simp_wf
  all_goals first
    | omega
    | (rcases hx with rfl | rfl | rfl <;> simp <;> omega)

theorem validateMapEntries_records (E : Ext) (reg : Registry)
    (tags : Option (List (Str × Str))) (entries : List (Value × Value)) :
    Records (fun bag => validateMapEntries E reg entries bag tags)
      (recordedMapEntries E reg entries tags) := by
  cases entries with
  | nil =>
    exact Records.of_eq (fun bag => by rw [validateMapEntries]) (by rw [recordedMapEntries])
      (Records.stop none)
  | cons p rest =>
    obtain ⟨k, x⟩ := p
    have ih := validateMapEntries_records E reg tags rest
    cases x with
    | struct n fields =>
      refine Records.of_eq (fun bag => ?_) ?_
        (Records.seq (validateStructFields_records E reg tags fields) ih)
      · rw [validateMapEntries, doValidateStruct_struct]
        try rfl
      · rw [recordedMapEntries, recordedStruct_struct]
        try rfl
    | _ =>
      refine Records.of_eq (fun bag => ?_) ?_ ih
      · rw [validateMapEntries]
        all_goals first | rfl | (intros; rename_i hh; cases hh)
      · rw [recordedMapEntries]
        all_goals first | rfl | (intros; rename_i hh; cases hh)
termination_by sizeOf entries
decreasing_by
  all_goals simp_wf
  all_goals omega

theorem validateArrayOrSlice_records (E : Ext) (reg : Registry)
    (tags : Option (List (Str × Str))) (elems : List Value) (t : StructField) :
    Records (fun bag => validateArrayOrSlice E reg elems t bag tags)
      (recordedElements E reg elems t tags) := by
  cases elems with
  | nil =>
    exact Records.of_eq (fun bag => by rw [validateArrayOrSlice]) (by rw [recordedElements])
      (Records.stop none)
  | cons x rest =>
    have ih := validateArrayOrSlice_records E reg tags rest t
    cases x with
    | struct n fields =>
      refine Records.of_eq (fun bag => ?_) ?_
        (Records.seq (validateStructFields_records E reg tags fields) ih)
      · rw [validateArrayOrSlice, doValidateStruct_struct]
        try rfl
      · rw [recordedElements, recordedStruct_struct]
        try rfl
    | bool b =>
      refine Records.of_eq (fun bag => ?_) ?_
        (Records.seq (validateField_records E reg tags (Value.bool b) t) ih)
      · rw [validateArrayOrSlice]
        all_goals first | rfl | (intros; rename_i hh; cases hh)
      · rw [recordedElements]
        all_goals first | rfl | (intros; rename_i hh; cases hh)
    | int k i =>
      refine Records.of_eq (fun bag => ?_) ?_
        (Records.seq (validateField_records E reg tags (Value.int k i) t) ih)
      · rw [validateArrayOrSlice]
        all_goals first | rfl | (intros; rename_i hh; cases hh)
      · rw [recordedElements]
        all_goals first | rfl | (intros; rename_i hh; cases hh)
    | uint k i =>
      refine Records.of_eq (fun bag => ?_) ?_
        (Records.seq (validateField_records E reg tags (Value.uint k i) t) ih)
      · rw [validateArrayOrSlice]
        all_goals first | rfl | (intros; rename_i hh; cases hh)
      · rw [recordedElements]
        all_goals first | rfl | (intros; rename_i hh; cases hh)
    | float k q =>
      refine Records.of_eq (fun bag => ?_) ?_
        (Records.seq (validateField_records E reg tags (Value.float k q) t) ih)
      · rw [validateArrayOrSlice]
        all_goals first | rfl | (intros; rename_i hh; cases hh)
      · rw [recordedElements]
        all_goals first | rfl | (intros; rename_i hh; cases hh)
    | string s =>
      refine Records.of_eq (fun bag => ?_) ?_
        (Records.seq (validateField_records E reg tags (Value.string s) t) ih)
      · rw [validateArrayOrSlice]
        all_goals first | rfl | (intros; rename_i hh; cases hh)
      · rw [recordedElements]
        all_goals first | rfl | (intros; rename_i hh; cases hh)
    | ptr elem =>
      refine Records.of_eq (fun bag => ?_) ?_
        (Records.seq (validateField_records E reg tags (Value.ptr elem) t) ih)
      · rw [validateArrayOrSlice]
        all_goals first | rfl | (intros; rename_i hh; cases hh)
      · rw [recordedElements]
        all_goals first | rfl | (intros; rename_i hh; cases hh)
    | iface elem =>
      refine Records.of_eq (fun bag => ?_) ?_
        (Records.seq (validateField_records E reg tags (Value.iface elem) t) ih)
      · rw [validateArrayOrSlice]
        all_goals first | rfl | (intros; rename_i hh; cases hh)
      · rw [recordedElements]
        all_goals first | rfl | (intros; rename_i hh; cases hh)
    | slice xs =>
      refine Records.of_eq (fun bag => ?_) ?_
        (Records.seq (validateField_records E reg tags (Value.slice xs) t) ih)
      · rw [validateArrayOrSlice]
        all_goals first | rfl | (intros; rename_i hh; cases hh)
      · rw [recordedElements]
        all_goals first | rfl | (intros; rename_i hh; cases hh)
    | array xs =>
      refine Records.of_eq (fun bag => ?_) ?_
        (Records.seq (validateField_records E reg tags (Value.array xs) t) ih)
      · rw [validateArrayOrSlice]
        all_goals first | rfl | (intros; rename_i hh; cases hh)
      · rw [recordedElements]
        all_goals first | rfl | (intros; rename_i hh; cases hh)
    | map kk entries =>
      refine Records.of_eq (fun bag => ?_) ?_
        (Records.seq (validateField_records E reg tags (Value.map kk entries) t) ih)
      · rw [validateArrayOrSlice]
        all_goals first | rfl | (intros; rename_i hh; cases hh)
      · rw [recordedElements]
        all_goals first | rfl | (intros; rename_i hh; cases hh)
    | other k =>
      refine Records.of_eq (fun bag => ?_) ?_
        (Records.seq (validateField_records E reg tags (Value.other k) t) ih)
      · rw [validateArrayOrSlice]
        all_goals first | rfl | (intros; rename_i hh; cases hh)
      · rw [recordedElements]
        all_goals first | rfl | (intros; rename_i hh; cases hh)
termination_by sizeOf elems
decreasing_by
  all_goals simp_wf
  all_goals omega

theorem validateStructFields_records (E : Ext) (reg : Registry)
    (tags : Option (List (Str × Str))) (fields : List (StructField × Value)) :
    Records (fun bag => validateStructFields E reg fields bag tags)
      (recordedFields E reg fields tags) := by
  cases fields with
  | nil =>
    exact Records.of_eq (fun bag => by rw [validateStructFields]) (by rw [recordedFields])
      (Records.stop none)
  | cons p rest =>
    obtain ⟨typeField, valueField⟩ := p
    have ih := validateStructFields_records E reg tags rest
    by_cases hp : typeField.PkgPath ≠ []
    · exact Records.of_eq (fun bag => by rw [validateStructFields, if_pos hp])
        (by rw [recordedFields, if_pos hp]) ih
    · refine Records.of_eq (fun bag => ?_) ?_
        (Records.seq (validateField_records E reg tags valueField typeField) ih)
      · rw [validateStructFields, if_neg hp]
        try rfl
      · rw [recordedFields, if_neg hp]
        try rfl
termination_by sizeOf fields
decreasing_by
  all_goals simp_wf
  all_goals omega

end

theorem doValidateStruct_records (E : Ext) (reg : Registry)
    (tags : Option (List (Str × Str))) (s : Value) :
    Records (fun bag => doValidateStruct E reg s bag tags) (recordedStruct E reg s tags) :=
  doValidateStruct_records_of E reg tags s
    (fun _ fields _ => validateStructFields_records E reg tags fields)

/-! ## The field loop of `doValidateStruct` -/

theorem validateStructFields_filter (E : Ext) (reg : Registry)
    (tags : Option (List (Str × Str))) : ∀ (fields : List (StructField × Value))
    (bag : ErrorBag),
    validateStructFields E reg fields bag tags =
      validateStructFields E reg (fields.filter (fun p => decide (p.1.PkgPath = []))) bag tags
  | [], _ => rfl
  | (t, v) :: rest, bag => by
    by_cases hp : t.PkgPath ≠ []
    · have hfil : List.filter (fun p => decide (p.1.PkgPath = [])) ((t, v) :: rest) =
          List.filter (fun p => decide (p.1.PkgPath = [])) rest :=
        List.filter_cons_of_neg (by simpa using hp)
      rw [validateStructFields, if_pos hp, hfil]
      exact validateStructFields_filter E reg tags rest bag
    · have hfil : List.filter (fun p => decide (p.1.PkgPath = [])) ((t, v) :: rest) =
          (t, v) :: List.filter (fun p => decide (p.1.PkgPath = [])) rest :=
        List.filter_cons_of_pos (by simpa using hp)
      rw [hfil, validateStructFields, if_neg hp, validateStructFields, if_neg hp]
      rcases validateField E reg v t bag tags with _ | ⟨bag1, _ | e⟩
      · rfl
      · exact validateStructFields_filter E reg tags rest bag1
      · rfl

theorem validateStructFields_append (E : Ext) (reg : Registry)
    (tags : Option (List (Str × Str))) (post : List (StructField × Value)) :
    ∀ (pre : List (StructField × Value)) (bag : ErrorBag),
    validateStructFields E reg (pre ++ post) bag tags =
      match validateStructFields E reg pre bag tags with
      | none => none
      | some (b, some e) => some (b, some e)
      | some (b, none) => validateStructFields E reg post b tags
  | [], bag => by rw [List.nil_append, validateStructFields]
  | (t, v) :: rest, bag => by
    by_cases hp : t.PkgPath ≠ []
    · rw [List.cons_append, validateStructFields, if_pos hp, validateStructFields, if_pos hp]
      exact validateStructFields_append E reg tags post rest bag
    · rw [List.cons_append, validateStructFields, if_neg hp, validateStructFields, if_neg hp]
      rcases validateField E reg v t bag tags with _ | ⟨bag1, _ | e⟩
      · rfl
      · exact validateStructFields_append E reg tags post rest bag1
      · rfl

/-- C24: `doValidateStruct` passes over the unexported fields of a struct: the result is
that for the struct without them, whatever their tags and values are, and a struct with
no exported field validates with no internal error and the bag as it was. -/
theorem doValidateStruct_skips_unexported (E : Ext) (reg : Registry) (n : Str)
    (fields : List (StructField × Value)) (bag : ErrorBag)
    (tags : Option (List (Str × Str))) :
    doValidateStruct E reg (Value.struct n fields) bag tags =
      doValidateStruct E reg
        (Value.struct n (fields.filter (fun p => decide (p.1.PkgPath = [])))) bag tags ∧
    ((∀ p ∈ fields, p.1.PkgPath ≠ []) →
      doValidateStruct E reg (Value.struct n fields) bag tags = some (bag, none)) := by
  refine ⟨?_, fun h => ?_⟩
  · rw [doValidateStruct_struct, doValidateStruct_struct]
    exact validateStructFields_filter E reg tags fields bag
  · rw [doValidateStruct_struct, validateStructFields_filter]
    have hnil : fields.filter (fun p => decide (p.1.PkgPath = [])) = [] := by
      rw [List.filter_eq_nil_iff]
      intro p hp
      simpa using h p hp
    rw [hnil, validateStructFields]

/-- C24 on a struct whose one field is unexported, fails `required` and has a directive
that does not parse. -/
theorem doValidateStruct_skips_unexported_witness :
    doValidateStruct Ext.sample initRegistry sampleUnexported NewErrorBag none =
      some (NewErrorBag, none) :=
  (doValidateStruct_skips_unexported Ext.sample initRegistry _ _ NewErrorBag none).2
    (by decide)

theorem recordedDirectives_fst (E : Ext) (t : StructField) (v : Value) :
    ∀ fvs : List FieldValidator,
    (recordedDirectives E t v fvs).1 =
      (fvs.takeWhile (FieldValidator.applicable E v)).filterMap (FieldValidator.failure E t v)
  | [] => rfl
  | f :: fs => by
    have ih := recordedDirectives_fst E t v fs
    rw [recordedDirectives]
    rcases hV : f.Validator.Validate E v f.ValidatorParams with e | valid
    · have ha : FieldValidator.applicable E v f = false := by
        simp only [FieldValidator.applicable, hV]
      rw [List.takeWhile_cons, ha]
      rfl
    · have ha : FieldValidator.applicable E v f = true := by
        simp only [FieldValidator.applicable, hV]
      rw [List.takeWhile_cons, ha]
      cases valid
      · have hfail : FieldValidator.failure E t v f =
            some { Name := errorKey t f, Err := f.Message E, Field := f.FieldName } := by
          simp only [FieldValidator.failure, hV]
        simp only [if_true, List.filterMap_cons, hfail, ih]
        rfl
      · have hfail : FieldValidator.failure E t v f = none := by
          simp only [FieldValidator.failure, hV]
        simp only [if_true, List.filterMap_cons, hfail, ih]
        rfl

theorem recordedField_tag_error (E : Ext) (reg : Registry) (v : Value) (t : StructField)
    (tags : Option (List (Str × Str))) (e : Str)
    (hparse : getFieldValidators E reg v t tags = Outcome.error e) :
    recordedField E reg v t tags = some ([], some e) := by
  rw [recordedField, hparse]

theorem recordedField_scalar (E : Ext) (reg : Registry) (v : Value) (t : StructField)
    (tags : Option (List (Str × Str))) (fvs : List FieldValidator)
    (hv : v.isScalar = true) (hparse : getFieldValidators E reg v t tags = Outcome.ok fvs) :
    recordedField E reg v t tags = some (recordedDirectives E t v fvs) := by
  cases v with
  | bool _ => rw [recordedField, hparse]
  | int _ _ => rw [recordedField, hparse]
  | uint _ _ => rw [recordedField, hparse]
  | float _ _ => rw [recordedField, hparse]
  | string _ => rw [recordedField, hparse]
  | _ => exact absurd hv (by simp [Value.isScalar])

/-- C23: when the fields before an exported field validate without internal error and
this field raises one, `doValidateStruct` returns that error with the bag as the field left
it, whatever fields come later. This bag is the bag of the call with exactly the business
failures recorded by the earlier fields and by this field before its error, in this order:
under every key it reads as the bag of the call followed by these failures. An error of
the tag of the field leaves the bag as the earlier fields left it, and on a scalar field
the bag gets the failures of the directives before the one that cannot be applied, and
nothing for that one. -/
theorem doValidateStruct_stops_at_internal_error (E : Ext) (reg : Registry)
    (tags : Option (List (Str × Str))) (n : Str) (pre post : List (StructField × Value))
    (t : StructField) (v : Value) (bag bag1 bag2 : ErrorBag) (e : Str)
    (hpre : validateStructFields E reg pre bag tags = some (bag1, none))
    (ht : t.PkgPath = [])
    (hf : validateField E reg v t bag1 tags = some (bag2, some e)) :
    doValidateStruct E reg (Value.struct n (pre ++ (t, v) :: post)) bag tags =
      some (bag2, some e) ∧
    (∃ errsPre errsField : List Error,
      recordedFields E reg pre tags = some (errsPre, none) ∧
      recordedField E reg v t tags = some (errsField, some e) ∧
      bag1 = bag.addAll errsPre ∧
      bag2 = bag.addAll (errsPre ++ errsField) ∧
      ∀ k, bag2.GetErrorsFor k =
        bag.GetErrorsFor k ++ (errsPre ++ errsField).filter (fun err => err.Name == k)) ∧
    (∀ e1, getFieldValidators E reg v t tags = Outcome.error e1 → e = e1 ∧ bag2 = bag1) ∧
    (∀ fvs, v.isScalar = true → getFieldValidators E reg v t tags = Outcome.ok fvs →
      bag2 = bag1.addAll ((fvs.takeWhile (FieldValidator.applicable E v)).filterMap
        (FieldValidator.failure E t v))) := by
  have hP : validateStructFields E reg pre bag tags = _ :=
    validateStructFields_records E reg tags pre bag
  have hF : validateField E reg v t bag1 tags = _ :=
    validateField_records E reg tags v t bag1
  rw [hpre] at hP
  rw [hf] at hF
  rcases hrp : recordedFields E reg pre tags with _ | ⟨errsPre, o1⟩
  · rw [hrp] at hP
    cases hP
  rcases hrf : recordedField E reg v t tags with _ | ⟨errsField, o2⟩
  · rw [hrf] at hF
    cases hF
  rw [hrp] at hP
  rw [hrf] at hF
  simp only [Option.map_some', Option.some.injEq, Prod.mk.injEq] at hP hF
  obtain ⟨hb1, ho1⟩ := hP
  obtain ⟨hb2, ho2⟩ := hF
  subst ho1 ho2
  refine ⟨?_, ⟨errsPre, errsField, rfl, rfl, hb1, ?_, fun k => ?_⟩, fun e1 he1 => ?_,
    fun fvs hv hparse => ?_⟩
  · rw [doValidateStruct_struct, validateStructFields_append, hpre]
    show validateStructFields E reg ((t, v) :: post) bag1 tags = some (bag2, some e)
    rw [validateStructFields, if_neg (not_not.mpr ht), hf]
  · rw [addAll_append, ← hb1, ← hb2]
  · rw [hb2, hb1, ← addAll_append, GetErrorsFor_addAll]
  · rw [recordedField_tag_error E reg v t tags e1 he1] at hrf
    simp only [Option.some.injEq, Prod.mk.injEq] at hrf
    refine ⟨?_, ?_⟩
    · exact hrf.2.symm
    · rw [hb2, ← hrf.1]
      rfl
  · rw [recordedField_scalar E reg v t tags fvs hv hparse] at hrf
    simp only [Option.some.injEq] at hrf
    rw [hb2, ← recordedDirectives_fst, hrf]

set_option maxRecDepth 100000 in
theorem validateStructFields_required_sample :
    validateStructFields Ext.sample initRegistry
        [(taggedField "Name" "required", Value.string [])] NewErrorBag none =
      some ([([], [requiredFailure "Name"])], none) := by
  rfl

set_option maxRecDepth 100000 in
theorem validateField_bogus_sample :
    validateField Ext.sample initRegistry (Value.string "x".toList)
        (taggedField "Code" "bogus") [([], [requiredFailure "Name"])] none =
      some ([([], [requiredFailure "Name"])],
        some "Invalid validation key for field Code: bogus".toList) := by
  rfl

set_option maxRecDepth 100000 in
theorem recordedFields_required_sample :
    recordedFields Ext.sample initRegistry
        [(taggedField "Name" "required", Value.string [])] none =
      some ([requiredFailure "Name"], none) := by
  rfl

set_option maxRecDepth 100000 in
theorem recordedField_bogus_sample :
    recordedField Ext.sample initRegistry (Value.string "x".toList)
        (taggedField "Code" "bogus") none =
      some ([], some "Invalid validation key for field Code: bogus".toList) := by
  rfl

set_option maxRecDepth 100000 in
/-- A field `Age` of kind `int` with value 0 and tag `required|alpha`: the failure of
`required` is recorded, `alpha` cannot be applied to an integer, and the bag gets
nothing for it. -/
theorem validateField_inapplicable_sample :
    validateField Ext.sample initRegistry (Value.int IntKind.Int 0)
        (taggedField "Age" "required|alpha") NewErrorBag none =
      some ([([], [requiredFailure "Age"])],
        some "Error validating Age: No default validator for field of type int".toList) ∧
    recordedField Ext.sample initRegistry (Value.int IntKind.Int 0)
        (taggedField "Age" "required|alpha") none =
      some ([requiredFailure "Age"],
        some "Error validating Age: No default validator for field of type int".toList) := by
  constructor <;> rfl

/-- C23 on a struct with the fields `Name` (tagged `required`, empty), `Code` (tagged
with the unknown key `bogus`) and `Later` (tagged `required`, empty): the one failure of
`Name` is in the bag, the error of `Code` is returned and nothing is recorded for it,
`Later` is not validated. -/
theorem doValidateStruct_stops_at_internal_error_witness :
    doValidateStruct Ext.sample initRegistry
        (Value.struct "User".toList
          ([(taggedField "Name" "required", Value.string [])] ++
            (taggedField "Code" "bogus", Value.string "x".toList) ::
              [(taggedField "Later" "required", Value.string [])])) NewErrorBag none =
      some ([([], [requiredFailure "Name"])],
        some "Invalid validation key for field Code: bogus".toList) ∧
    recordedFields Ext.sample initRegistry
        [(taggedField "Name" "required", Value.string [])] none =
      some ([requiredFailure "Name"], none) ∧
    recordedField Ext.sample initRegistry (Value.string "x".toList)
        (taggedField "Code" "bogus") none =
      some ([], some "Invalid validation key for field Code: bogus".toList) :=
  ⟨(doValidateStruct_stops_at_internal_error Ext.sample initRegistry none "User".toList
      [(taggedField "Name" "required", Value.string [])]
      [(taggedField "Later" "required", Value.string [])]
      (taggedField "Code" "bogus") (Value.string "x".toList) NewErrorBag
      [([], [requiredFailure "Name"])] [([], [requiredFailure "Name"])]
      "Invalid validation key for field Code: bogus".toList
      validateStructFields_required_sample rfl validateField_bogus_sample).1,
    recordedFields_required_sample, recordedField_bogus_sample⟩

/-! ## The directives of a field do not depend on the value, but for the value they carry -/

theorem bindDirective_withValue (reg : Registry) (fn : Str) (x y : Value) (k : Str)
    (f : FieldValidator) (h : bindDirective reg fn y k = Outcome.ok f) :
    bindDirective reg fn x k = Outcome.ok (f.withValue x) := by
  unfold bindDirective at h ⊢
  dsimp only at h ⊢
  generalize decide (List.take 1 k = "!".toList) = neg at h ⊢
  generalize (if neg = true then List.drop 1 k else k) = key1 at h ⊢
  rcases hr : extractMessage key1 fn neg with ⟨a1, b1, c1⟩
  rw [hr] at h
  simp only [] at h ⊢
  by_cases hc : (b1.isNone && c1.isSome) = true
  · rw [if_pos hc] at h
    exact absurd h (by simp)
  · rw [if_neg hc] at h
    rw [if_neg hc]
    cases hp : params a1 fn with
    | none => rw [hp] at h; exact absurd h (by simp)
    | some r =>
      obtain ⟨key3, ps, e3⟩ := r
      rw [hp] at h
      simp only [] at h ⊢
      by_cases hq : ps.length = 0 ∧ e3.isSome = true
      · rw [if_pos hq] at h
        exact absurd h (by simp)
      · rw [if_neg hq] at h
        rw [if_neg hq]
        cases hg : GetValidator reg key3 with
        | none => rw [hg] at h; exact absurd h (by simp)
        | some ev =>
          rw [hg] at h
          simp only [Outcome.ok.injEq] at h ⊢
          rw [← h]
          rfl

theorem bindDirectives_withValue (reg : Registry) (fn : Str) (x y : Value) (ks : List Str)
    (fvs : List FieldValidator) (h : bindDirectives reg fn y ks [] = Outcome.ok fvs) :
    bindDirectives reg fn x ks [] = Outcome.ok (fvs.map (fun f => f.withValue x)) := by
  obtain ⟨out, hf, rfl⟩ := (bindDirectives_ok_iff reg fn y ks [] fvs).mp h
  refine (bindDirectives_ok_iff reg fn x ks [] _).mpr ⟨fvs.map (fun f => f.withValue x), ?_, ?_⟩
  · rw [List.forall₂_map_right_iff]
    exact hf.imp (fun k f hk => bindDirective_withValue reg fn x y k f hk)
  · simp

theorem getFieldValidators_withValue (E : Ext) (reg : Registry) (v w : Value)
    (t : StructField) (tags : Option (List (Str × Str))) (fvs : List FieldValidator)
    (h : getFieldValidators E reg v t tags = Outcome.ok fvs) :
    getFieldValidators E reg w t tags =
      Outcome.ok (fvs.map (fun f => f.withValue w.Interface)) := by
  rw [getFieldValidators_eq] at h ⊢
  dsimp only at h ⊢
  by_cases hc : (extractFieldName (Split (fieldTag t tags) validatorSeparator)).2.1.length = 0 ∧
      (extractFieldName (Split (fieldTag t tags) validatorSeparator)).2.2.isSome = true
  · rw [if_pos hc] at h
    exact absurd h (by simp)
  · rw [if_neg hc] at h
    rw [if_neg hc]
    exact bindDirectives_withValue reg _ _ _ _ fvs h

/-! ## Scalar fields -/

theorem validateBasicType_applicable (E : Ext) (v : Value) (t : StructField) :
    ∀ (fvs : List FieldValidator) (bag : ErrorBag),
    (∀ f ∈ fvs, f.applicable E v = true) →
    validateBasicType E v t fvs bag =
      (bag.addAll (fvs.filterMap (FieldValidator.failure E t v)), none)
  | [], _, _ => rfl
  | f :: fs, bag, h => by
    have hf := h f (List.mem_cons_self _ _)
    have ih := fun b => validateBasicType_applicable E v t fs b
      (fun x hx => h x (List.mem_cons_of_mem _ hx))
    unfold FieldValidator.applicable at hf
    rw [validateBasicType]
    rcases hV : f.Validator.Validate E v f.ValidatorParams with e | valid
    · rw [hV] at hf
      exact absurd hf (by simp)
    · cases valid
      · have hfail : FieldValidator.failure E t v f =
            some { Name := errorKey t f, Err := f.Message E, Field := f.FieldName } := by
          simp only [FieldValidator.failure, hV]
        simp only [List.filterMap_cons, hfail, ih]
        rfl
      · have hfail : FieldValidator.failure E t v f = none := by
          simp only [FieldValidator.failure, hV]
        simp only [List.filterMap_cons, hfail, ih]
        rfl

theorem length_filterMap_failure (E : Ext) (t : StructField) (v : Value) :
    ∀ fvs : List FieldValidator,
    (fvs.filterMap (FieldValidator.failure E t v)).length =
      (fvs.filter (FieldValidator.fails E v)).length
  | [] => rfl
  | f :: fs => by
    have ih := length_filterMap_failure E t v fs
    rcases hV : f.Validator.Validate E v f.ValidatorParams with e | valid
    · have h1 : FieldValidator.failure E t v f = none := by
        simp only [FieldValidator.failure, hV]
      have h2 : FieldValidator.fails E v f = false := by
        simp only [FieldValidator.fails, hV]
      simp only [List.filterMap_cons, h1, List.filter_cons, h2, ih, Bool.false_eq_true, if_false]
    · cases valid
      · have h1 : FieldValidator.failure E t v f =
            some { Name := errorKey t f, Err := f.Message E, Field := f.FieldName } := by
          simp only [FieldValidator.failure, hV]
        have h2 : FieldValidator.fails E v f = true := by
          simp only [FieldValidator.fails, hV]
        simp only [List.filterMap_cons, h1, List.filter_cons, h2, ih, if_true,
          List.length_cons]
      · have h1 : FieldValidator.failure E t v f = none := by
          simp only [FieldValidator.failure, hV]
        have h2 : FieldValidator.fails E v f = false := by
          simp only [FieldValidator.fails, hV]
        simp only [List.filterMap_cons, h1, List.filter_cons, h2, ih, Bool.false_eq_true,
          if_false]

theorem validateField_scalar (E : Ext) (reg : Registry) (v : Value) (t : StructField)
    (bag : ErrorBag) (tags : Option (List (Str × Str))) (fvs : List FieldValidator)
    (hv : v.isScalar = true) (hparse : getFieldValidators E reg v t tags = Outcome.ok fvs) :
    validateField E reg v t bag tags = some (validateBasicType E v t fvs bag) := by
  cases v with
  | bool _ => rw [validateField, hparse]
  | int _ _ => rw [validateField, hparse]
  | uint _ _ => rw [validateField, hparse]
  | float _ _ => rw [validateField, hparse]
  | string _ => rw [validateField, hparse]
  | _ => exact absurd hv (by simp [Value.isScalar])

/-! ## Slices and arrays of strings -/

theorem applicable_string (E : Ext) (s : Str) (x : Value) (f : FieldValidator)
    (h : f.Validator.Op.isSome = true ∨ f.Validator.OpString.isSome = true) :
    (f.withValue x).applicable E (Value.string s) = true := by
  unfold FieldValidator.applicable EmValidator.Validate FieldValidator.withValue
  dsimp only [Value.Interface]
  rcases hop : f.Validator.Op with _ | op
  · rcases hos : f.Validator.OpString with _ | os
    · rw [hop, hos] at h
      simp at h
    · rfl
  · rfl

theorem length_failures_withValue (E : Ext) (t : StructField) (v x : Value)
    (fvs : List FieldValidator) :
    (fvs.filterMap (fun f => (f.withValue x).failure E t v)).length =
      (fvs.filter (fun f => f.fails E v)).length := by
  have h1 : fvs.filterMap (fun f => (f.withValue x).failure E t v) =
      (fvs.map (fun f => f.withValue x)).filterMap (FieldValidator.failure E t v) := by
    rw [List.filterMap_map]
    rfl
  rw [h1, length_filterMap_failure, List.filter_map, List.length_map]
  rfl

theorem validateArrayOrSlice_strings (E : Ext) (reg : Registry) (t : StructField)
    (tags : Option (List (Str × Str))) (fvs : List FieldValidator)
    (hparse : ∀ s : Str, getFieldValidators E reg (Value.string s) t tags =
      Outcome.ok (fvs.map (fun f => f.withValue (Value.string s))))
    (hop : ∀ f ∈ fvs, f.Validator.Op.isSome = true ∨ f.Validator.OpString.isSome = true) :
    ∀ (strs : List Str) (bag : ErrorBag),
    validateArrayOrSlice E reg (strs.map Value.string) t bag tags =
      some (bag.addAll (strs.flatMap (fun s =>
        fvs.filterMap (fun f => (f.withValue (Value.string s)).failure E t (Value.string s)))),
        none)
  | [], bag => by rw [List.map_nil, validateArrayOrSlice]; rfl
  | s :: rest, bag => by
    have happ : ∀ f ∈ fvs.map (fun f => f.withValue (Value.string s)),
        f.applicable E (Value.string s) = true := by
      intro f hf
      obtain ⟨g, hg, rfl⟩ := List.mem_map.mp hf
      exact applicable_string E s _ g (hop g hg)
    rw [List.map_cons, validateArrayOrSlice]
    · rw [validateField_scalar E reg (Value.string s) t bag tags _ rfl (hparse s),
        validateBasicType_applicable E _ t _ bag happ]
      simp only []
      rw [validateArrayOrSlice_strings E reg t tags fvs hparse hop rest, List.flatMap_cons,
        addAll_append, List.filterMap_map]
      rfl
    · intro n fields hh
      cases hh

/-- C21: for a slice or array field of strings whose tag parses to directives that have
an operation and none of which may validate complex types, `validateField` returns no
internal error and adds to the bag, element after element, the failure of every
directive whose predicate is false on the element (the directive bound to the element):
their number is the number of pairs of an element and a directive whose predicate is
false, and nothing is added for the container. -/
theorem validateField_strings (E : Ext) (reg : Registry) (tags : Option (List (Str × Str)))
    (t : StructField) (container : List Value → Value)
    (hc : container = Value.slice ∨ container = Value.array) (strs : List Str)
    (fvs : List FieldValidator) (bag : ErrorBag)
    (hparse : getFieldValidators E reg (container (strs.map Value.string)) t tags =
      Outcome.ok fvs)
    (hscalar : ∀ f ∈ fvs, f.CanValidateComplexTypes = false)
    (hop : ∀ f ∈ fvs, f.Validator.Op.isSome = true ∨ f.Validator.OpString.isSome = true) :
    ∃ errs : List Error,
      validateField E reg (container (strs.map Value.string)) t bag tags =
        some (bag.addAll errs, none) ∧
      errs = strs.flatMap (fun s =>
        fvs.filterMap (fun f => (f.withValue (Value.string s)).failure E t (Value.string s))) ∧
      errs.length =
        (strs.map (fun s => (fvs.filter (fun f => f.fails E (Value.string s))).length)).sum := by
  have hel : ∀ s : Str, getFieldValidators E reg (Value.string s) t tags =
      Outcome.ok (fvs.map (fun f => f.withValue (Value.string s))) :=
    fun s => getFieldValidators_withValue E reg _ (Value.string s) t tags fvs hparse
  refine ⟨_, ?_, rfl, ?_⟩
  · rcases hc with rfl | rfl
    · rw [validateField, hparse]
      simp only [validateComplexType_none_eligible E _ t fvs bag hscalar]
      exact validateArrayOrSlice_strings E reg t tags fvs hel hop strs bag
    · rw [validateField, hparse]
      simp only [validateComplexType_none_eligible E _ t fvs bag hscalar]
      exact validateArrayOrSlice_strings E reg t tags fvs hel hop strs bag
  · rw [List.length_flatMap]
    congr 1
    apply List.map_congr_left
    intro s _
    exact length_failures_withValue E t (Value.string s) (Value.string s) fvs

set_option maxRecDepth 100000 in
theorem getFieldValidators_slice_alpha :
    getFieldValidators Ext.sample initRegistry
        (Value.slice (["ok".toList, "2bad".toList].map Value.string))
        (taggedField "Tags" "alpha") none =
      Outcome.ok [{ boundAlpha "Tags" with
        FieldValue := Value.slice [Value.string "ok".toList, Value.string "2bad".toList] }] := by
  rfl

set_option maxRecDepth 100000 in
theorem validateField_slice_alpha :
    validateField Ext.sample initRegistry
        (Value.slice (["ok".toList, "2bad".toList].map Value.string))
        (taggedField "Tags" "alpha") NewErrorBag none =
      some ([([], [alphaFailure "Tags"])], none) := by
  rfl

set_option maxRecDepth 100000 in
theorem slice_alpha_failures :
    (["ok".toList, "2bad".toList].map (fun s =>
      (List.filter (fun f => FieldValidator.fails Ext.sample (Value.string s) f)
        [{ boundAlpha "Tags" with
          FieldValue :=
            Value.slice [Value.string "ok".toList, Value.string "2bad".toList] }]).length)).sum =
      1 := by
  rfl

/-- C21 on a slice field `Tags` tagged `alpha` that holds `ok` and `2bad`: no internal
error, and the bag holds exactly one failure, that of `alpha`. -/
theorem validateField_strings_witness :
    validateField Ext.sample initRegistry
        (Value.slice (["ok".toList, "2bad".toList].map Value.string))
        (taggedField "Tags" "alpha") NewErrorBag none =
      some ([([], [alphaFailure "Tags"])], none) ∧
    ∃ errs : List Error,
      validateField Ext.sample initRegistry
          (Value.slice (["ok".toList, "2bad".toList].map Value.string))
          (taggedField "Tags" "alpha") NewErrorBag none = some (NewErrorBag.addAll errs, none) ∧
      errs.length = 1 := by
  obtain ⟨errs, h1, _, h3⟩ := validateField_strings Ext.sample initRegistry none
    (taggedField "Tags" "alpha") Value.slice (Or.inl rfl) ["ok".toList, "2bad".toList] _
    NewErrorBag getFieldValidators_slice_alpha (by decide) (by decide)
  exact ⟨validateField_slice_alpha, errs, h1, h3.trans slice_alpha_failures⟩

/-! ## Structs of scalar fields -/

theorem validateStructFields_scalars (E : Ext) (reg : Registry)
    (tags : Option (List (Str × Str))) :
    ∀ (parsed : List (StructField × Value × List FieldValidator)) (bag : ErrorBag),
    (∀ p ∈ parsed, p.1.PkgPath = []) →
    (∀ p ∈ parsed, p.2.1.isScalar = true) →
    (∀ p ∈ parsed, getFieldValidators E reg p.2.1 p.1 tags = Outcome.ok p.2.2) →
    (∀ p ∈ parsed, ∀ f ∈ p.2.2, f.applicable E p.2.1 = true) →
    validateStructFields E reg (parsed.map (fun p => (p.1, p.2.1))) bag tags =
      some (bag.addAll
        (parsed.flatMap (fun p => p.2.2.filterMap (FieldValidator.failure E p.1 p.2.1))), none)
  | [], bag, _, _, _, _ => by rw [List.map_nil, validateStructFields]; rfl
  | p :: rest, bag, hexp, hscalar, hparse, happ => by
    have hm := List.mem_cons_self p rest
    have ih := fun b => validateStructFields_scalars E reg tags rest b
      (fun q hq => hexp q (List.mem_cons_of_mem _ hq))
      (fun q hq => hscalar q (List.mem_cons_of_mem _ hq))
      (fun q hq => hparse q (List.mem_cons_of_mem _ hq))
      (fun q hq => happ q (List.mem_cons_of_mem _ hq))
    rw [List.map_cons, validateStructFields, if_neg (not_not.mpr (hexp p hm)),
      validateField_scalar E reg p.2.1 p.1 bag tags p.2.2 (hscalar p hm) (hparse p hm),
      validateBasicType_applicable E p.2.1 p.1 p.2.2 bag (happ p hm)]
    simp only []
    rw [ih, List.flatMap_cons, addAll_append]

/-- C22, amended: for a struct whose fields are all exported and of a scalar kind, whose
tags all parse and whose predicates are all applicable, `doValidateStruct` returns no
internal error and adds to the bag, field after field and directive after directive, one
error for every pair of a field and a directive whose predicate is false. -/
theorem doValidateStruct_scalar_fields (E : Ext) (reg : Registry)
    (tags : Option (List (Str × Str))) (n : Str)
    (parsed : List (StructField × Value × List FieldValidator)) (bag : ErrorBag)
    (hexp : ∀ p ∈ parsed, p.1.PkgPath = [])
    (hscalar : ∀ p ∈ parsed, p.2.1.isScalar = true)
    (hparse : ∀ p ∈ parsed, getFieldValidators E reg p.2.1 p.1 tags = Outcome.ok p.2.2)
    (happ : ∀ p ∈ parsed, ∀ f ∈ p.2.2, f.applicable E p.2.1 = true) :
    ∃ errs : List Error,
      doValidateStruct E reg (Value.struct n (parsed.map (fun p => (p.1, p.2.1)))) bag tags =
        some (bag.addAll errs, none) ∧
      errs = parsed.flatMap (fun p => p.2.2.filterMap (FieldValidator.failure E p.1 p.2.1)) ∧
      errs.length =
        (parsed.map (fun p => (p.2.2.filter (FieldValidator.fails E p.2.1)).length)).sum := by
  refine ⟨_, ?_, rfl, ?_⟩
  · rw [doValidateStruct_struct]
    exact validateStructFields_scalars E reg tags parsed bag hexp hscalar hparse happ
  · rw [List.length_flatMap]
    congr 1
    apply List.map_congr_left
    intro p _
    exact length_filterMap_failure E p.1 p.2.1 p.2.2

set_option maxRecDepth 100000 in
theorem getFieldValidators_sampleParsed :
    ∀ p ∈ sampleParsed,
      getFieldValidators Ext.sample initRegistry p.2.1 p.1 none = Outcome.ok p.2.2 := by
  intro p hp
  rcases List.mem_cons.mp hp with rfl | hp
  · rfl
  · rcases List.mem_cons.mp hp with rfl | hp
    · rfl
    · cases hp

set_option maxRecDepth 100000 in
theorem sampleParsed_failures :
    (sampleParsed.map (fun p =>
      (p.2.2.filter (FieldValidator.fails Ext.sample p.2.1)).length)).sum = 3 := by
  rfl

/-- C22, amended, on a struct with the fields `Code` (tagged `alpha|matches(abc)`, holding
`12`) and `Name` (tagged `required`, empty): both directives of `Code` and the one of
`Name` fail, and the walk adds three errors. -/
theorem doValidateStruct_scalar_fields_witness :
    ∃ errs : List Error,
      doValidateStruct Ext.sample initRegistry
          (Value.struct "User".toList (sampleParsed.map (fun p => (p.1, p.2.1))))
          NewErrorBag none = some (NewErrorBag.addAll errs, none) ∧
      errs.length = 3 := by
  obtain ⟨errs, h1, _, h3⟩ := doValidateStruct_scalar_fields Ext.sample initRegistry none
    "User".toList sampleParsed NewErrorBag (by decide) (by decide)
    getFieldValidators_sampleParsed (by decide)
  exact ⟨errs, h1, h3.trans sampleParsed_failures⟩

set_option maxRecDepth 100000 in
theorem doValidateStruct_sampleChannel :
    doValidateStruct Ext.sample initRegistry sampleChannel NewErrorBag none =
      some (NewErrorBag, some "chan is not a supported validation type".toList) := by
  rfl

set_option maxRecDepth 100000 in
theorem getFieldValidators_channel :
    getFieldValidators Ext.sample initRegistry (Value.other Kind.Chan)
        { Name := "Done".toList } none = Outcome.ok [] := by
  rfl

/-- Counterexample to C22 as stated: the one field of the struct is exported, has no tag
(so its tag parses, to no directive, and no predicate is inapplicable) and is a channel;
`doValidateStruct` returns an internal error. -/
theorem doValidateStruct_unsupported_kind_counterexample :
    getFieldValidators Ext.sample initRegistry (Value.other Kind.Chan)
        { Name := "Done".toList } none = Outcome.ok [] ∧
    doValidateStruct Ext.sample initRegistry sampleChannel NewErrorBag none =
      some (NewErrorBag, some "chan is not a supported validation type".toList) :=
  ⟨getFieldValidators_channel, doValidateStruct_sampleChannel⟩

/-! ## Maps -/

theorem validateMapEntries_eq_validateEach (E : Ext) (reg : Registry)
    (tags : Option (List (Str × Str))) : ∀ (entries : List (Value × Value)) (bag : ErrorBag),
    validateMapEntries E reg entries bag tags =
      validateEach E reg tags ((entries.map Prod.snd).filter Value.isStruct) bag
  | [], _ => by rw [validateMapEntries]; rfl
  | (k, x) :: rest, bag => by
    cases x with
    | struct n fields =>
      rw [validateMapEntries]
      simp only [List.map_cons, List.filter_cons, Value.isStruct, if_true]
      rw [validateEach]
      rcases doValidateStruct E reg (Value.struct n fields) bag tags with _ | ⟨bag1, _ | e⟩
      · rfl
      · exact validateMapEntries_eq_validateEach E reg tags rest bag1
      · rfl
    | _ =>
      rw [validateMapEntries]
      · simp only [List.map_cons, List.filter_cons, Value.isStruct, Bool.false_eq_true,
          if_false]
        exact validateMapEntries_eq_validateEach E reg tags rest bag
      · intro n fields hh
        cases hh

set_option maxRecDepth 100000 in
theorem validateMap_sampleMapOfStructs :
    validateMap Ext.sample initRegistry sampleMapOfStructs NewErrorBag none =
      some (NewErrorBag, some "Invalid validation key for field Code: bogus".toList) := by
  rfl

/-- C25, amended: for a map whose key kind is not `string`, `validateMap` returns the
internal error that a map is not a supported validation type and leaves the bag as it was;
for a map with string keys it validates as structs, in turn and on the one bag, exactly
the values that are structs, and its result is that of these validations: an internal
error if and only if one of them raises one. -/
theorem validateMap_spec (E : Ext) (reg : Registry) (tags : Option (List (Str × Str)))
    (keyKind : Kind) (entries : List (Value × Value)) (bag : ErrorBag) :
    (keyKind ≠ Kind.String →
      validateMap E reg (Value.map keyKind entries) bag tags =
        some (bag, some "map is not a supported validation type".toList)) ∧
    (keyKind = Kind.String →
      validateMap E reg (Value.map keyKind entries) bag tags =
        validateEach E reg tags ((entries.map Prod.snd).filter Value.isStruct) bag) := by
  constructor
  · intro hk
    rw [validateMap, if_pos hk]
    rfl
  · intro hk
    rw [validateMap, if_neg (not_not.mpr hk)]
    exact validateMapEntries_eq_validateEach E reg tags entries bag

/-- C25, amended, on a map with `int` keys and on a map with string keys whose one value
is a struct with a field tagged with an unknown key. -/
theorem validateMap_spec_witness :
    validateMap Ext.sample initRegistry
        (Value.map (Kind.Int IntKind.Int) [(Value.int IntKind.Int 1, Value.string [])])
        NewErrorBag none =
      some (NewErrorBag, some "map is not a supported validation type".toList) ∧
    validateMap Ext.sample initRegistry sampleMapOfStructs NewErrorBag none =
      validateEach Ext.sample initRegistry none
        [Value.struct "Item".toList [(taggedField "Code" "bogus", Value.string "x".toList)]]
        NewErrorBag :=
  ⟨(validateMap_spec Ext.sample initRegistry none (Kind.Int IntKind.Int) _ NewErrorBag).1
      (by decide),
    (validateMap_spec Ext.sample initRegistry none Kind.String _ NewErrorBag).2 rfl⟩

/-- Counterexample to C25 as stated: the keys of the map are strings and `validateMap`
returns an internal error, that of validating the struct the map holds. -/
theorem validateMap_string_keys_counterexample :
    ∃ entries : List (Value × Value),
      sampleMapOfStructs = Value.map Kind.String entries ∧
      validateMap Ext.sample initRegistry sampleMapOfStructs NewErrorBag none =
        some (NewErrorBag, some "Invalid validation key for field Code: bogus".toList) :=
  ⟨_, rfl, validateMap_sampleMapOfStructs⟩

/-! ## The override map of a rule set -/

theorem fieldTag_absent (t : StructField) (m : List (Str × Str))
    (h : ∀ p ∈ m, p.1 ≠ t.Name) : fieldTag t (some m) = [] := by
  have hfind : m.find? (fun p => p.1 == t.Name) = none := by
    rw [List.find?_eq_none]
    intro p hp
    simpa using h p hp
  simp only [fieldTag, hfind]

theorem getFieldValidators_absent (E : Ext) (reg : Registry) (v : Value) (t : StructField)
    (m : List (Str × Str)) (h : ∀ p ∈ m, p.1 ≠ t.Name) :
    getFieldValidators E reg v t (some m) = Outcome.ok [] := by
  rw [getFieldValidators_eq, fieldTag_absent t m h]
  rfl

set_option maxRecDepth 100000 in
theorem doValidateStruct_sampleNested :
    doValidateStruct Ext.sample initRegistry sampleNested NewErrorBag
        (some [("Code".toList, "required".toList)]) =
      some ([([], [requiredFailure "Code"])], none) := by
  rfl

/-- C26: with a rule-set map, the directives of a field are those of the map entry under
the field's name, whatever the struct tag of the field is; a field without entry has no
directive, and if it is a struct its fields are validated under the same map.  On the
sample, the map has an entry for `Code` only: the outer field `Name`, tagged `required`
and empty, records nothing, and the field `Code` of the nested struct records the failure
of `required`. -/
theorem override_map_is_tag_source (E : Ext) (reg : Registry) (m : List (Str × Str))
    (v : Value) (t : StructField) (tag : List (Str × Str)) (n : Str)
    (fields : List (StructField × Value)) (bag : ErrorBag) :
    getFieldValidators E reg v { t with Tag := tag } (some m) =
      getFieldValidators E reg v t (some m) ∧
    ((∀ p ∈ m, p.1 ≠ t.Name) →
      getFieldValidators E reg v t (some m) = Outcome.ok [] ∧
      validateField E reg (Value.struct n fields) t bag (some m) =
        doValidateStruct E reg (Value.struct n fields) bag (some m)) ∧
    doValidateStruct Ext.sample initRegistry sampleNested NewErrorBag
        (some [("Code".toList, "required".toList)]) =
      some ([([], [requiredFailure "Code"])], none) := by
  refine ⟨rfl, fun h => ⟨getFieldValidators_absent E reg v t m h, ?_⟩,
    doValidateStruct_sampleNested⟩
  rw [validateField, getFieldValidators_absent E reg _ t m h, doValidateStruct_struct]
  rfl

/-- C26 on the field `Name` tagged `required` and a map with an entry for `Code` only. -/
theorem override_map_is_tag_source_witness :
    getFieldValidators Ext.sample initRegistry (Value.string [])
        (taggedField "Name" "required") (some [("Code".toList, "required".toList)]) =
      Outcome.ok [] :=
  ((override_map_is_tag_source Ext.sample initRegistry [("Code".toList, "required".toList)]
    (Value.string []) (taggedField "Name" "required") [] [] [] NewErrorBag).2.1
      (by decide)).1

/-! ## The holder of the named rule sets -/

theorem addLoop_struct (pkgPath name : Str) (fieldNames : List Str) :
    ∀ l : List (Str × Str),
    ∃ err : Option Str,
      customValidatorsHolder.addLoop (GoType.struct pkgPath name fieldNames) l = some err ∧
      (err.isSome = true ↔ ∃ p ∈ l, p.1 ∉ fieldNames)
  | [] => ⟨none, rfl, by simp⟩
  | (fieldName, tag) :: rest => by
    obtain ⟨err, h1, h2⟩ := addLoop_struct pkgPath name fieldNames rest
    by_cases hm : fieldName ∈ fieldNames
    · refine ⟨err, ?_, ?_⟩
      · have hc : fieldNames.contains fieldName = true := by simpa using hm
        simp only [customValidatorsHolder.addLoop, GoType.FieldByName, hc]
        exact h1
      · rw [h2]
        constructor
        · rintro ⟨p, hp, hn⟩
          exact ⟨p, List.mem_cons_of_mem _ hp, hn⟩
        · rintro ⟨p, hp, hn⟩
          rcases List.mem_cons.mp hp with rfl | hp
          · exact absurd hm hn
          · exact ⟨p, hp, hn⟩
    · refine ⟨some ("Field ".toList ++ fieldName ++ " in ".toList ++ name ++
        " not found".toList), ?_, ?_⟩
      · have hc : fieldNames.contains fieldName = false := by
          simpa using hm
        simp only [customValidatorsHolder.addLoop, GoType.FieldByName, hc, GoType.Name]
      · simp only [Option.isSome_some, true_iff]
        exact ⟨(fieldName, tag), List.mem_cons_self _ _, hm⟩

/-- C27: for a sample that is a struct or a pointer to a struct, `add` returns (it does
not panic), and it returns an error if and only if some key of the field-to-tag map is
not a field name of the struct type; with an error the holder is as it was, without one
the map is stored under the key of the type and the rule-set name. -/
theorem add_spec (h : customValidatorsHolder) (validatorName : Str) (sample : GoType)
    (pkgPath name : Str) (fieldNames : List Str)
    (hs : sample = GoType.struct pkgPath name fieldNames ∨
      sample = GoType.ptr (GoType.struct pkgPath name fieldNames))
    (validations : Option (List (Str × Str))) :
    ∃ (h1 : customValidatorsHolder) (err : Option Str),
      h.add validatorName (some sample) validations = some (h1, err) ∧
      (err.isSome = true ↔ ∃ p ∈ validations.getD [], p.1 ∉ fieldNames) ∧
      (err.isSome = true → h1 = h) ∧
      (err = none →
        h1 = h.set (pkgPath ++ " ".toList ++ name ++ " ".toList ++ validatorName)
          validations) := by
  have hel : sample.elemIfPtr = GoType.struct pkgPath name fieldNames := by
    rcases hs with rfl | rfl <;> rfl
  obtain ⟨err, h1, h2⟩ := addLoop_struct pkgPath name fieldNames (validations.getD [])
  cases err with
  | none =>
    refine ⟨h.set (pkgPath ++ " ".toList ++ name ++ " ".toList ++ validatorName) validations,
      none, ?_, h2, fun hh => by simp at hh, fun _ => rfl⟩
    simp only [customValidatorsHolder.add, hel, h1, customValidatorsHolder.getKey,
      GoType.PkgPath, GoType.Name]
  | some e =>
    refine ⟨h, some e, ?_, h2, fun _ => rfl, fun hh => by simp at hh⟩
    simp only [customValidatorsHolder.add, hel, h1]

/-- C27 on the type `User` with the fields `Name` and `Email` and a map with entries for
`Name` and `Phone`. -/
theorem add_spec_witness :
    ∃ (h1 : customValidatorsHolder) (err : Option Str),
      customValidatorsHolder.add [] "strict".toList (some (GoType.ptr sampleUserType))
          (some [("Name".toList, "alpha".toList), ("Phone".toList, "required".toList)]) =
        some (h1, err) ∧
      (err.isSome = true ↔
        ∃ p ∈ (some [("Name".toList, "alpha".toList),
            ("Phone".toList, "required".toList)]).getD [],
          p.1 ∉ ["Name".toList, "Email".toList]) ∧
      (err.isSome = true → h1 = []) ∧
      (err = none →
        h1 = customValidatorsHolder.set []
          ("main".toList ++ " ".toList ++ "User".toList ++ " ".toList ++ "strict".toList)
          (some [("Name".toList, "alpha".toList), ("Phone".toList, "required".toList)])) :=
  add_spec [] "strict".toList (GoType.ptr sampleUserType) "main".toList "User".toList
    ["Name".toList, "Email".toList] (Or.inr rfl) _

theorem find?_map_fst {β : Type} (g : Str × β → Str × β) (hg : ∀ p, (g p).1 = p.1)
    (k : Str) : ∀ (l : List (Str × β)),
    (l.map g).find? (fun p => p.1 == k) = (l.find? (fun p => p.1 == k)).map g
  | [] => rfl
  | p :: ps => by
    have ih := find?_map_fst g hg k ps
    by_cases hp : (p.1 == k) = true
    · have hp2 : ((g p).1 == k) = true := by rw [hg]; exact hp
      simp only [List.map_cons, List.find?, hp, hp2, Option.map_some']
    · simp only [Bool.not_eq_true] at hp
      have hp2 : ((g p).1 == k) = false := by rw [hg]; exact hp
      simp only [List.map_cons, List.find?, hp, hp2]
      exact ih

theorem lookup_set (h : customValidatorsHolder) (k k1 : Str)
    (v : Option (List (Str × Str))) :
    (h.set k v).lookup k1 = if k = k1 then some v else h.lookup k1 := by
  have hg : ∀ p : Str × Option (List (Str × Str)),
      (if (p.1 == k) = true then (k, v) else p).1 = p.1 := by
    intro p
    by_cases hp : (p.1 == k) = true
    · rw [if_pos hp]
      exact (beq_iff_eq.mp hp).symm
    · rw [if_neg hp]
  unfold customValidatorsHolder.set customValidatorsHolder.lookup
  by_cases hany : h.any (fun p => p.1 == k) = true
  · rw [if_pos hany, find?_map_fst _ hg k1 h]
    cases hf : h.find? (fun p => p.1 == k1) with
    | none =>
      have hk : ¬ k = k1 := by
        intro hk
        subst hk
        obtain ⟨p, hp, hpk⟩ := List.any_eq_true.mp hany
        exact List.find?_eq_none.mp hf p hp hpk
      simp only [Option.map_none', if_neg hk]
    | some p =>
      have hpk : p.1 = k1 := by simpa using List.find?_some hf
      by_cases hk : k = k1
      · have hpe : (p.1 == k) = true := by rw [hpk, hk]; simp
        simp only [Option.map_some', if_pos hpe, if_pos hk]
      · have hpe : ¬ ((p.1 == k) = true) := by
          rw [hpk]
          simpa using fun hh => hk hh.symm
        simp only [Option.map_some', if_neg hpe, if_neg hk]
  · rw [if_neg hany]
    simp only [Bool.not_eq_true, List.any_eq_false, beq_iff_eq] at hany
    by_cases hk : k = k1
    · subst hk
      have hnone : h.find? (fun p => p.1 == k) = none := by
        rw [List.find?_eq_none]
        intro p hp
        simpa using hany p hp
      simp [List.find?_append, hnone]
    · have hk1 : (k == k1) = false := beq_eq_false_iff_ne.mpr hk
      simp only [List.find?_append, List.find?, hk1, if_neg hk]
      cases h.find? (fun p => p.1 == k1) <;> rfl

/-- The step of `afterAdds`. -/
theorem add_step (h : customValidatorsHolder)
    (c : Str × Option GoType × Option (List (Str × Str))) :
    (match h.add c.1 c.2.1 c.2.2 with
      | some (h1, _) => h1
      | none => h) =
      if customValidatorsHolder.accepts c = true then
        h.set ((customValidatorsHolder.getKey c.2.1 c.1).getD []) c.2.2
      else h := by
  obtain ⟨name, ty, validations⟩ := c
  cases ty with
  | none => rfl
  | some ty0 =>
    simp only [customValidatorsHolder.accepts, customValidatorsHolder.add]
    rcases customValidatorsHolder.addLoop ty0.elemIfPtr (validations.getD []) with _ | _ | e
    · rfl
    · rfl
    · rfl

theorem lookup_foldl_add (key : Str) :
    ∀ (calls : List (Str × Option GoType × Option (List (Str × Str))))
      (h : customValidatorsHolder),
    (calls.foldl (fun h c => match h.add c.1 c.2.1 c.2.2 with
        | some (h1, _) => h1
        | none => h) h).lookup key = none ↔
      h.lookup key = none ∧
      ∀ c ∈ calls, customValidatorsHolder.accepts c = true →
        customValidatorsHolder.getKey c.2.1 c.1 ≠ some key
  | [], h => by simp
  | c :: rest, h => by
    rw [List.foldl_cons, lookup_foldl_add key rest, add_step]
    have hkey : customValidatorsHolder.accepts c = true →
        customValidatorsHolder.getKey c.2.1 c.1 =
          some ((customValidatorsHolder.getKey c.2.1 c.1).getD []) := by
      obtain ⟨name, ty, validations⟩ := c
      cases ty with
      | none => intro hh; exact absurd hh (by simp [customValidatorsHolder.accepts,
          customValidatorsHolder.add])
      | some ty0 => intro _; rfl
    by_cases ha : customValidatorsHolder.accepts c = true
    · rw [if_pos ha, lookup_set]
      have hk := hkey ha
      constructor
      · rintro ⟨h1, h2⟩
        by_cases he : (customValidatorsHolder.getKey c.2.1 c.1).getD [] = key
        · rw [if_pos he] at h1
          cases h1
        · rw [if_neg he] at h1
          refine ⟨h1, fun d hd => ?_⟩
          rcases List.mem_cons.mp hd with rfl | hd
          · intro _ hh
            rw [hk] at hh
            exact he (Option.some.inj hh)
          · exact h2 d hd
      · rintro ⟨h1, h2⟩
        have he : ¬ (customValidatorsHolder.getKey c.2.1 c.1).getD [] = key := by
          intro he
          apply h2 c (List.mem_cons_self _ _) ha
          rw [hk, he]
        rw [if_neg he]
        exact ⟨h1, fun d hd => h2 d (List.mem_cons_of_mem _ hd)⟩
    · rw [if_neg ha]
      constructor
      · rintro ⟨h1, h2⟩
        refine ⟨h1, fun d hd => ?_⟩
        rcases List.mem_cons.mp hd with rfl | hd
        · intro hh
          exact absurd hh ha
        · exact h2 d hd
      · rintro ⟨h1, h2⟩
        exact ⟨h1, fun d hd => h2 d (List.mem_cons_of_mem _ hd)⟩

/-- C28, amended: after `add(name, sample, m)` returns without error, `get(name, i)`
returns `m` for every `i` whose type, a pointer followed, has the package path and the
name of the sample's type, so for the sample's type passed by value or by pointer; and
after any sequence of calls of `add` on an empty holder, `get(name, i)` returns the
not-found error exactly when no call that returned without error had the key of `i` and
`name`: the package path, the type name and the rule-set name. -/
theorem get_spec (h h1 : customValidatorsHolder) (validatorName name : Str)
    (sample i : GoType) (validations : Option (List (Str × Str)))
    (calls : List (Str × Option GoType × Option (List (Str × Str)))) :
    (h.add validatorName (some sample) validations = some (h1, none) →
      i.elemIfPtr.PkgPath = sample.elemIfPtr.PkgPath →
      i.elemIfPtr.Name = sample.elemIfPtr.Name →
      customValidatorsHolder.get h1 validatorName (some i) = some (validations, none)) ∧
    (customValidatorsHolder.get (customValidatorsHolder.afterAdds calls) name (some i) =
        some (none, some ("No custom validation ".toList ++ name)) ↔
      ∀ c ∈ calls, customValidatorsHolder.accepts c = true →
        customValidatorsHolder.getKey c.2.1 c.1 ≠
          customValidatorsHolder.getKey (some i) name) := by
  constructor
  · intro hadd hp hn
    have hh1 : h1 = h.set (sample.elemIfPtr.PkgPath ++ " ".toList ++ sample.elemIfPtr.Name ++
        " ".toList ++ validatorName) validations := by
      simp only [customValidatorsHolder.add] at hadd
      rcases hloop : customValidatorsHolder.addLoop sample.elemIfPtr (validations.getD [])
        with _ | _ | e
      · rw [hloop] at hadd
        cases hadd
      · rw [hloop] at hadd
        simp only [customValidatorsHolder.getKey, Option.some.injEq, Prod.mk.injEq,
          and_true] at hadd
        exact hadd.symm
      · rw [hloop] at hadd
        simp at hadd
    simp only [customValidatorsHolder.get, customValidatorsHolder.getKey, hh1, hp, hn,
      lookup_set, if_true]
  · have hl : (customValidatorsHolder.afterAdds calls).lookup (i.elemIfPtr.PkgPath ++
        " ".toList ++ i.elemIfPtr.Name ++ " ".toList ++ name) = none ↔
        (customValidatorsHolder.lookup [] (i.elemIfPtr.PkgPath ++ " ".toList ++
          i.elemIfPtr.Name ++ " ".toList ++ name) = none ∧
        ∀ c ∈ calls, customValidatorsHolder.accepts c = true →
          customValidatorsHolder.getKey c.2.1 c.1 ≠ some (i.elemIfPtr.PkgPath ++
            " ".toList ++ i.elemIfPtr.Name ++ " ".toList ++ name)) :=
      lookup_foldl_add _ calls []
    have h0 : customValidatorsHolder.lookup [] (i.elemIfPtr.PkgPath ++ " ".toList ++
        i.elemIfPtr.Name ++ " ".toList ++ name) = none := rfl
    simp only [h0, true_and] at hl
    rw [show customValidatorsHolder.getKey (some i) name = some (i.elemIfPtr.PkgPath ++
      " ".toList ++ i.elemIfPtr.Name ++ " ".toList ++ name) from rfl, ← hl]
    simp only [customValidatorsHolder.get, customValidatorsHolder.getKey]
    cases (customValidatorsHolder.afterAdds calls).lookup (i.elemIfPtr.PkgPath ++
        " ".toList ++ i.elemIfPtr.Name ++ " ".toList ++ name) with
    | none => simp
    | some v => simp

theorem add_sampleHolder :
    customValidatorsHolder.add [] "strict".toList (some sampleUserType)
        (some [("Name".toList, "alpha".toList)]) = some (sampleHolder, none) := by
  rfl

/-- C28, amended, on the rule set `strict` added for the type `User` and read for a
pointer to a `User`. -/
theorem get_spec_witness :
    customValidatorsHolder.get sampleHolder "strict".toList
        (some (GoType.ptr sampleUserType)) =
      some (some [("Name".toList, "alpha".toList)], none) :=
  (get_spec [] sampleHolder "strict".toList [] sampleUserType (GoType.ptr sampleUserType)
    (some [("Name".toList, "alpha".toList)]) []).1 add_sampleHolder rfl rfl

/-- Counterexample to C28 as stated: the rule set `rules` is added for the unnamed type
`struct { A string }` only; `get` returns it for the unnamed type `struct { B string }`,
a type for which no rule set was added, since an unnamed type has neither package path
nor name. -/
theorem get_unnamed_struct_counterexample :
    customValidatorsHolder.get
        (customValidatorsHolder.afterAdds
          [("rules".toList, some (GoType.struct [] [] ["A".toList]),
            some [("A".toList, "required".toList)])])
        "rules".toList (some (GoType.struct [] [] ["B".toList])) =
      some (some [("A".toList, "required".toList)], none) ∧
    GoType.struct [] [] ["A".toList] ≠ GoType.struct [] [] ["B".toList] := by
  constructor
  · rfl
  · decide

/-! ## Validation under several rule sets -/

theorem GetErrorsFor_new_addAll (errs : List Error) (k : Str) :
    (NewErrorBag.addAll errs).GetErrorsFor k = errs.filter (fun e => e.Name == k) := by
  rw [GetErrorsFor_addAll]
  rfl

theorem doValidateStruct_on_bag (E : Ext) (reg : Registry) (s : Value)
    (r : Option (List (Str × Str))) (b : ErrorBag) (e : Option Str)
    (h : doValidateStruct E reg s NewErrorBag r = some (b, e)) (bag0 : ErrorBag) :
    ∃ bag1 : ErrorBag, doValidateStruct E reg s bag0 r = some (bag1, e) ∧
      ∀ k, bag1.GetErrorsFor k = bag0.GetErrorsFor k ++ b.GetErrorsFor k := by
  have h1 := doValidateStruct_records E reg r s
  have e1 : doValidateStruct E reg s NewErrorBag r = _ := h1 NewErrorBag
  have e0 : doValidateStruct E reg s bag0 r = _ := h1 bag0
  rw [h] at e1
  rcases hres : recordedStruct E reg s r with _ | ⟨errs, o⟩
  · rw [hres] at e1
    cases e1
  · rw [hres] at e1 e0
    simp only [Option.map_some', Option.some.injEq, Prod.mk.injEq] at e1
    refine ⟨bag0.addAll errs, ?_, fun k => ?_⟩
    · rw [e0, e1.2]
      rfl
    · rw [e1.1, GetErrorsFor_addAll, GetErrorsFor_new_addAll]

theorem customValidateLoop_spec (E : Ext) (reg : Registry)
    (customValidators : customValidatorsHolder) (ty : Option GoType) (s : Value) :
    ∀ (names : List Str) (rules : List (Option (List (Str × Str))))
      (results : List (ErrorBag × Option Str)) (bag0 : ErrorBag),
    List.Forall₂ (fun name r =>
      if name = tagName then r = none
      else customValidatorsHolder.get customValidators name ty = some (r, none)) names rules →
    List.Forall₂ (fun r res => doValidateStruct E reg s NewErrorBag r = some res)
      rules results →
    ∃ bag : ErrorBag,
      customValidateLoop E reg customValidators ty s names bag0 =
        some (some bag, (upToError results).2) ∧
      ∀ k, bag.GetErrorsFor k =
        bag0.GetErrorsFor k ++ ((upToError results).1.map (fun b => b.GetErrorsFor k)).flatten
  | [], rules, results, bag0, hres, hval => by
    cases hres
    cases hval
    exact ⟨bag0, rfl, fun k => by simp [upToError]⟩
  | name :: names, rules, results, bag0, hres, hval => by
    obtain ⟨r, rules1, hr, hres1, rfl⟩ := List.forall₂_cons_left_iff.mp hres
    obtain ⟨res, results1, hv, hval1, rfl⟩ := List.forall₂_cons_left_iff.mp hval
    obtain ⟨b, e⟩ := res
    obtain ⟨bag1, hd, hk⟩ := doValidateStruct_on_bag E reg s r b e hv bag0
    have hlook : (if name ≠ tagName then
          customValidatorsHolder.get customValidators name ty
        else some (none, none)) = some (r, none) := by
      by_cases hn : name = tagName
      · rw [if_pos hn] at hr
        rw [if_neg (not_not.mpr hn), hr]
      · rw [if_neg hn] at hr
        rw [if_pos hn, hr]
    rw [customValidateLoop]
    simp only [hlook, hd]
    cases e with
    | some err =>
      exact ⟨bag1, rfl, fun k => by simp [upToError, hk]⟩
    | none =>
      obtain ⟨bag, hb, hbk⟩ :=
        customValidateLoop_spec E reg customValidators ty s names rules1 results1 bag1
          hres1 hval1
      refine ⟨bag, hb, fun k => ?_⟩
      rw [hbk, hk]
      simp [upToError]

/-- C29: when every name other than `valid` is registered for the type of `s` (the name
`valid` stands for the struct tags, whatever the holder holds) and validating `s` alone
under each rule set gives a result, `CustomValidateStruct` returns one bag that holds, for
every key, the failures of validating `s` under the first name, followed by those under the
second, and so on, up to the first validation that raises an internal error, which is
returned; with no internal error all the names are validated. -/
theorem CustomValidateStruct_accumulates (E : Ext) (reg : Registry)
    (customValidators : customValidatorsHolder) (ty : Option GoType) (s : Value)
    (names : List Str) (rules : List (Option (List (Str × Str))))
    (results : List (ErrorBag × Option Str))
    (hres : List.Forall₂ (fun name r =>
      if name = tagName then r = none
      else customValidatorsHolder.get customValidators name ty = some (r, none)) names rules)
    (hval : List.Forall₂ (fun r res => doValidateStruct E reg s NewErrorBag r = some res)
      rules results) :
    ∃ bag : ErrorBag,
      CustomValidateStruct E reg customValidators ty s names =
        some (some bag, (upToError results).2) ∧
      ∀ k, bag.GetErrorsFor k =
        ((upToError results).1.map (fun b => b.GetErrorsFor k)).flatten := by
  obtain ⟨bag, h1, h2⟩ :=
    customValidateLoop_spec E reg customValidators ty s names rules results NewErrorBag
      hres hval
  exact ⟨bag, h1, fun k => by rw [h2]; rfl⟩

set_option maxRecDepth 100000 in
theorem doValidateStruct_sampleUser_valid :
    doValidateStruct Ext.sample initRegistry sampleUser NewErrorBag none =
      some ([([], [alphaFailure "Name"])], none) := by
  rfl

set_option maxRecDepth 100000 in
theorem doValidateStruct_sampleUser_strict :
    doValidateStruct Ext.sample initRegistry sampleUser NewErrorBag
        (some [("Name".toList, "alpha".toList)]) =
      some ([([], [alphaFailure "Name"])], none) := by
  rfl

/-- C29 on a `User` whose field `Name`, tagged `alpha`, holds `1`, validated under `valid`
and then under the registered rule set `strict`, which has `alpha` for `Name`: the bag
holds the failure under the struct tag followed by the failure under `strict`. -/
theorem CustomValidateStruct_accumulates_witness :
    ∃ bag : ErrorBag,
      CustomValidateStruct Ext.sample initRegistry sampleHolder (some sampleUserType)
          sampleUser ["valid".toList, "strict".toList] = some (some bag, none) ∧
      bag.GetErrorsFor [] = [alphaFailure "Name", alphaFailure "Name"] := by
  obtain ⟨bag, h1, h2⟩ := CustomValidateStruct_accumulates Ext.sample initRegistry
    sampleHolder (some sampleUserType) sampleUser ["valid".toList, "strict".toList]
    [none, some [("Name".toList, "alpha".toList)]]
    [([([], [alphaFailure "Name"])], none), ([([], [alphaFailure "Name"])], none)]
    (List.Forall₂.cons (by decide) (List.Forall₂.cons (by decide) List.Forall₂.nil))
    (List.Forall₂.cons doValidateStruct_sampleUser_valid
      (List.Forall₂.cons doValidateStruct_sampleUser_strict List.Forall₂.nil))
  exact ⟨bag, h1, (h2 []).trans rfl⟩

/-! ## The predicates -/

set_option maxRecDepth 100000 in
theorem ValidateStruct_sampleAge_required :
    ValidateStruct Ext.sample initRegistry (sampleAge "required" (-5)) =
      some ([([], [requiredFailure "Age"])], none) ∧
    ValidateStruct Ext.sample initRegistry (sampleAge "required" 5) = some ([], none) := by
  constructor <;> rfl

/-- C40: for a signed integer of any width `IsNonEmpty` holds exactly when the value is
greater than zero, so zero and every negative value count as empty; for an unsigned
integer and for a bool it always holds, for 0 and `false` too.  An `int` field tagged
`required` that holds -5 records a failure. -/
theorem IsNonEmpty_integers (params : List Value) :
    (∀ (k : IntKind) (v : Int), IsNonEmpty (Value.int k v) params = true ↔ v > 0) ∧
    (∀ (k : UintKind) (n : Nat), IsNonEmpty (Value.uint k n) params = true) ∧
    (∀ b : Bool, IsNonEmpty (Value.bool b) params = true) ∧
    ValidateStruct Ext.sample initRegistry (sampleAge "required" (-5)) =
      some ([([], [requiredFailure "Age"])], none) := by
  refine ⟨fun k v => ?_, fun k n => rfl, fun b => rfl, ValidateStruct_sampleAge_required.1⟩
  simp [IsNonEmpty]

/-! ## `EmValidator.Validate` -/

set_option maxRecDepth 100000 in
theorem ValidateStruct_sampleAge_alpha :
    ValidateStruct Ext.sample initRegistry (sampleAge "required|alpha" (-5)) =
      some ([([], [requiredFailure "Age"])],
        some "Error validating Age: No default validator for field of type int".toList) := by
  rfl

/-- C39: `Validate` uses `Op` whenever it is set; without `Op` it uses `OpString` on a
string value; otherwise it returns an error.  So for a scalar value that is not a string
and a directive whose validator has no `Op`, `validateBasicType` stops with an internal
error and files nothing for this directive. -/
theorem Validate_dispatch (E : Ext) (ev : EmValidator) (v : Value) (params : List Value)
    (t : StructField) (f : FieldValidator) (rest : List FieldValidator) (bag : ErrorBag) :
    (∀ op, ev.Op = some op → ev.Validate E v params = .ok (op.apply E v.Interface params)) ∧
    (∀ os s, ev.Op = none → ev.OpString = some os → v = Value.string s →
      ev.Validate E v params = .ok (os.apply E s params)) ∧
    (ev.Op = none → (ev.OpString = none ∨ ∀ s, v.Interface ≠ Value.string s) →
      ev.Validate E v params =
        .error ("No default validator for field of type ".toList ++ v.TypeName)) ∧
    (f.Validator.Op = none → v.isScalar = true → (∀ s, v ≠ Value.string s) →
      validateBasicType E v t (f :: rest) bag =
        (bag, some ("Error validating ".toList ++ t.Name ++ ": ".toList ++
          ("No default validator for field of type ".toList ++ v.TypeName)))) := by
  have herr : ∀ (ev : EmValidator) (v : Value) (params : List Value), ev.Op = none →
      (ev.OpString = none ∨ ∀ s, v.Interface ≠ Value.string s) →
      ev.Validate E v params =
        .error ("No default validator for field of type ".toList ++ v.TypeName) := by
    intro ev v params hop h
    unfold EmValidator.Validate
    rw [hop]
    rcases h with h | h
    · rw [h]
      cases v.Interface <;> rfl
    · cases hv : v.Interface with
      | string s => exact absurd hv (h s)
      | _ => cases ev.OpString <;> rfl
  refine ⟨fun op hop => ?_, fun os s hop hos hv => ?_, herr ev v params, fun hop hsc hns => ?_⟩
  · unfold EmValidator.Validate
    rw [hop]
  · unfold EmValidator.Validate
    rw [hop, hos, hv]
    rfl
  · have hi : ∀ s, v.Interface ≠ Value.string s := by
      intro s
      cases v with
      | iface e => exact absurd hsc (by simp [Value.isScalar])
      | string s1 => exact absurd rfl (hns s1)
      | _ => intro hh; cases hh
    rw [validateBasicType, herr f.Validator v f.ValidatorParams hop (Or.inr hi)]

/-- C39 on an `int` field `Age` tagged `required|alpha`: `alpha` has a string operation
only, so the walk stops with an internal error after the failure of `required`. -/
theorem Validate_dispatch_witness :
    validateBasicType Ext.sample (Value.int IntKind.Int (-5)) (taggedField "Age" "alpha")
        [boundAlpha "Age"] NewErrorBag =
      (NewErrorBag, some ("Error validating ".toList ++ "Age".toList ++ ": ".toList ++
        ("No default validator for field of type ".toList ++ "int".toList))) ∧
    ValidateStruct Ext.sample initRegistry (sampleAge "required|alpha" (-5)) =
      some ([([], [requiredFailure "Age"])],
        some "Error validating Age: No default validator for field of type int".toList) :=
  ⟨(Validate_dispatch Ext.sample (boundAlpha "Age").Validator (Value.int IntKind.Int (-5)) []
      (taggedField "Age" "alpha") (boundAlpha "Age") [] NewErrorBag).2.2.2 rfl rfl
      (fun s hh => by cases hh),
    ValidateStruct_sampleAge_alpha⟩

/-! ## The key of a failure -/

set_option maxRecDepth 100000 in
theorem ValidateStruct_sampleEmailField :
    ValidateStruct Ext.sample initRegistry (sampleEmailField "email_address" "email") =
      some ([("email_address".toList,
        [{ Name := "email_address".toList, Field := "Email".toList,
           Err := "Email must not be empty".toList }])], none) ∧
    ValidateStruct Ext.sample initRegistry (sampleEmailField "" "email") =
      some ([("email".toList,
        [{ Name := "email".toList, Field := "Email".toList,
           Err := "Email must not be empty".toList }])], none) ∧
    ValidateStruct Ext.sample initRegistry (sampleEmailField "" "") =
      some ([([], [requiredFailure "Email"])], none) := by
  refine ⟨?_, ?_, ?_⟩ <;> rfl

/-- C35: the key of a failure is the `form` tag of the field when it is not empty,
otherwise the `json` tag when it is not empty, otherwise the key of the validator; and it
is under this key that `validateBasicType` and `validateComplexType` file the failure of a
directive whose predicate is false. -/
theorem errorKey_precedence (E : Ext) (t : StructField) (v : Value) (f : FieldValidator)
    (bag : ErrorBag) :
    (t.TagGet "form".toList ≠ [] → errorKey t f = t.TagGet "form".toList) ∧
    (t.TagGet "form".toList = [] → t.TagGet "json".toList ≠ [] →
      errorKey t f = t.TagGet "json".toList) ∧
    (t.TagGet "form".toList = [] → t.TagGet "json".toList = [] →
      errorKey t f = f.Validator.Key) ∧
    (f.Validator.Validate E v f.ValidatorParams = .ok false →
      validateBasicType E v t [f] bag =
        (bag.Add (errorKey t f) (f.Message E) f.FieldName, none) ∧
      (f.CanValidateComplexTypes = true →
        validateComplexType E v t [f] bag =
          (bag.Add (errorKey t f) (f.Message E) f.FieldName, none))) := by
  refine ⟨fun h => ?_, fun h1 h2 => ?_, fun h1 h2 => ?_, fun hV => ⟨?_, fun hc => ?_⟩⟩
  · unfold errorKey
    rw [if_pos h]
  · unfold errorKey
    rw [if_neg (not_not.mpr h1), if_pos h2]
  · unfold errorKey
    rw [if_neg (not_not.mpr h1), if_neg (not_not.mpr h2)]
  · rw [validateBasicType, hV]
    rfl
  · rw [validateComplexType, if_pos hc, hV]
    rfl

/-- C35 on a field `Email` tagged `required`, empty, with the `form` tag `email_address`
and the `json` tag `email`: the failure is filed under `email_address`; without the
`form` tag under `email`; without both under the key of the validator. -/
theorem errorKey_precedence_witness :
    errorKey
        { Name := "Email".toList,
          Tag := [("form".toList, "email_address".toList), ("json".toList, "email".toList)] }
        (boundRequired "Email") = "email_address".toList ∧
    ValidateStruct Ext.sample initRegistry (sampleEmailField "email_address" "email") =
      some ([("email_address".toList,
        [{ Name := "email_address".toList, Field := "Email".toList,
           Err := "Email must not be empty".toList }])], none) :=
  ⟨(errorKey_precedence Ext.sample
      { Name := "Email".toList,
        Tag := [("form".toList, "email_address".toList), ("json".toList, "email".toList)] }
      (Value.string []) (boundRequired "Email") NewErrorBag).1 (by decide),
    ValidateStruct_sampleEmailField.1⟩

/-! ## `Between` on the integer types -/

theorem int64OfUint_small (n : Nat) (h : n < 2 ^ 63) : int64OfUint n = (n : Int) := by
  have h1 : n % 2 ^ 64 = n := Nat.mod_eq_of_lt (by omega)
  unfold int64OfUint
  rw [h1, if_pos h]

theorem Between_converted (E : Ext) (val : Value) (x min max : Int)
    (hx : toInt val = .ok x)
    (hk : (∃ k i, val = Value.int k i ∧ k ≠ IntKind.Int32) ∨
      (∃ k n, val = Value.uint k n ∧ k ≠ UintKind.Uintptr)) :
    Between E val [Value.int IntKind.Int min, Value.int IntKind.Int max] = true ↔
      (x = 0 ∨ (min ≤ x ∧ x ≤ max)) := by
  have hmm : minMaxToInt (Value.int IntKind.Int min) (Value.int IntKind.Int max) =
      .ok (min, max) := rfl
  rcases hk with ⟨k, i, rfl, hk⟩ | ⟨k, n, rfl, hk⟩
  · cases k <;> first
      | exact absurd rfl hk
      | (simp only [Between, hx, valueOrZero, hmm]
         by_cases h0 : x = 0 <;> simp [h0])
  · cases k <;> first
      | exact absurd rfl hk
      | (simp only [Between, hx, valueOrZero, hmm]
         by_cases h0 : x = 0 <;> simp [h0])

/-- C32: with `int` parameters, `Between` holds exactly when the value is zero or lies
between the bounds for `int8` and `int16` and, for a value below `2 ^ 63`, for `uint`,
`uint8`, `uint16` and `uint32`.  It does not for the other widths: the type switch has no
case for `int32`, so the result is always false; `toInt` refuses `int64` and `uint64` and
its error is dropped, so the value is read as zero and the result is always true; and a
`uint` from `2 ^ 63` on is read as a negative number. -/
theorem Between_integer_widths (E : Ext) (min max : Int) :
    (∀ (k : IntKind) (v : Int), k = IntKind.Int8 ∨ k = IntKind.Int16 →
      (Between E (Value.int k v) [Value.int IntKind.Int min, Value.int IntKind.Int max] = true ↔
        (v = 0 ∨ (min ≤ v ∧ v ≤ max)))) ∧
    (∀ (k : UintKind) (n : Nat),
      k = UintKind.Uint ∨ k = UintKind.Uint8 ∨ k = UintKind.Uint16 ∨ k = UintKind.Uint32 →
      n < 2 ^ 63 →
      (Between E (Value.uint k n) [Value.int IntKind.Int min, Value.int IntKind.Int max] = true ↔
        ((n : Int) = 0 ∨ (min ≤ (n : Int) ∧ (n : Int) ≤ max)))) ∧
    (∀ v : Int, Between E (Value.int IntKind.Int32 v)
      [Value.int IntKind.Int min, Value.int IntKind.Int max] = false) ∧
    (∀ v : Int, Between E (Value.int IntKind.Int64 v)
      [Value.int IntKind.Int min, Value.int IntKind.Int max] = true) ∧
    (∀ n : Nat, Between E (Value.uint UintKind.Uint64 n)
      [Value.int IntKind.Int min, Value.int IntKind.Int max] = true) ∧
    (∀ n : Nat, 2 ^ 63 ≤ n → n < 2 ^ 64 →
      (Between E (Value.uint UintKind.Uint n)
          [Value.int IntKind.Int min, Value.int IntKind.Int max] = true ↔
        (min ≤ (n : Int) - 2 ^ 64 ∧ (n : Int) - 2 ^ 64 ≤ max))) := by
  refine ⟨fun k v hk => ?_, fun k n hk hn => ?_, fun v => rfl, fun v => rfl, fun n => rfl,
    fun n h1 h2 => ?_⟩
  · rcases hk with rfl | rfl
    · exact Between_converted E _ v min max rfl (Or.inl ⟨_, _, rfl, by decide⟩)
    · exact Between_converted E _ v min max rfl (Or.inl ⟨_, _, rfl, by decide⟩)
  · have hx : ∀ k : UintKind,
        k = UintKind.Uint ∨ k = UintKind.Uint8 ∨ k = UintKind.Uint16 ∨ k = UintKind.Uint32 →
        toInt (Value.uint k n) = .ok (n : Int) := by
      intro k hk
      rcases hk with rfl | rfl | rfl | rfl <;> simp only [toInt, int64OfUint_small n hn]
    have hne : k ≠ UintKind.Uintptr := by
      rcases hk with rfl | rfl | rfl | rfl <;> decide
    exact Between_converted E _ (n : Int) min max (hx k hk) (Or.inr ⟨_, _, rfl, hne⟩)
  · have hw : int64OfUint n = (n : Int) - 2 ^ 64 := by
      have h3 : n % 2 ^ 64 = n := Nat.mod_eq_of_lt h2
      unfold int64OfUint
      rw [h3, if_neg (by omega)]
    have hx : toInt (Value.uint UintKind.Uint n) = .ok ((n : Int) - 2 ^ 64) := by
      simp only [toInt, hw]
    rw [Between_converted E _ _ min max hx (Or.inr ⟨_, _, rfl, by decide⟩)]
    constructor
    · rintro (h | h)
      · omega
      · exact h
    · exact fun h => Or.inr h

/-- C32 on the bounds 5 and 10: the `int8` 7 lies between them and the `int8` 50 does not,
but the `int32` 7 is rejected, the `int64` 50 and the `uint64` 50 are accepted, and the
largest `uint` is accepted between -5 and 5. -/
theorem Between_integer_widths_witness :
    (Between Ext.sample (Value.int IntKind.Int8 7)
        [Value.int IntKind.Int 5, Value.int IntKind.Int 10] = true ↔
      ((7 : Int) = 0 ∨ ((5 : Int) ≤ 7 ∧ (7 : Int) ≤ 10))) ∧
    Between Ext.sample (Value.int IntKind.Int32 7)
      [Value.int IntKind.Int 5, Value.int IntKind.Int 10] = false ∧
    Between Ext.sample (Value.int IntKind.Int64 50)
      [Value.int IntKind.Int 5, Value.int IntKind.Int 10] = true ∧
    Between Ext.sample (Value.uint UintKind.Uint64 50)
      [Value.int IntKind.Int 5, Value.int IntKind.Int 10] = true ∧
    Between Ext.sample (Value.uint UintKind.Uint (2 ^ 64 - 1))
      [Value.int IntKind.Int (-5), Value.int IntKind.Int 5] = true :=
  ⟨(Between_integer_widths Ext.sample 5 10).1 IntKind.Int8 7 (Or.inl rfl),
    (Between_integer_widths Ext.sample 5 10).2.2.1 7,
    (Between_integer_widths Ext.sample 5 10).2.2.2.1 50,
    (Between_integer_widths Ext.sample 5 10).2.2.2.2.1 50,
    ((Between_integer_widths Ext.sample (-5) 5).2.2.2.2.2 (2 ^ 64 - 1) (by norm_num)
      (by norm_num)).mpr (by norm_num)⟩

/-! ## `Matches` -/

theorem indexFrom_nonneg_iff (sep : Str) : ∀ (s : Str) (i : Nat),
    0 ≤ indexFrom sep s i ↔ sep <:+: s
  | [], i => by
    by_cases h : sep = []
    · simp [indexFrom, h]
    · simp [indexFrom, h]
  | c :: cs, i => by
    rw [indexFrom, List.infix_cons_iff]
    by_cases hp : sep.isPrefixOf (c :: cs) = true
    · rw [if_pos hp]
      have := List.isPrefixOf_iff_prefix.mp hp
      simp [this]
    · rw [if_neg hp, indexFrom_nonneg_iff sep cs (i + 1)]
      have : ¬ sep <+: c :: cs := fun h => hp (List.isPrefixOf_iff_prefix.mpr h)
      simp [this]

/-- C33: `Matches` quotes the pattern before it compiles it, so it holds exactly when the
pattern occurs in the string as literal text, not when the string matches the pattern as
a regular expression: `abc` does not match `a.c`, and `xa.cy` does.  `StringMatches` with
one string parameter returns what `Matches` returns. -/
theorem Matches_quotes_pattern :
    (∀ str pattern : Str, Matches str pattern = true ↔ pattern <:+: str) ∧
    Matches "abc".toList "a.c".toList = false ∧
    Matches "xa.cy".toList "a.c".toList = true ∧
    (∀ val pattern : Str, StringMatches val [Value.string pattern] = Matches val pattern) := by
  refine ⟨fun str pattern => ?_, by decide, by decide, fun _ _ => rfl⟩
  unfold Matches Index
  rw [decide_eq_true_eq, ge_iff_le]
  exact indexFrom_nonneg_iff pattern str 0

/-! ## `extractParams` and the segments of a parameter body -/

theorem safeSegment_false_iff (v : Str) :
    safeSegment v = false ↔ v = [] ∨ v = [Char.ofNat 92] := by
  match v with
  | [] => simp [safeSegment]
  | [c] =>
    by_cases hc : c = Char.ofNat 92
    · subst hc
      simp [safeSegment, endsInBackslash]
    · simp [safeSegment, endsInBackslash, hc]
  | c :: d :: r => simp [safeSegment]

theorem extractParamsLoop_panics (v : Str) (re : List Str) (param : Str) (ps : List Str)
    (hv : safeSegment v = false) : extractParamsLoop (v :: re) param ps = none := by
  rcases (safeSegment_false_iff v).mp hv with rfl | rfl
  · rfl
  · rfl

theorem extractParamsLoop_cons_safe (v : Str) (re : List Str) (param : Str) (ps : List Str)
    (hv : safeSegment v = true) :
    extractParamsLoop (v :: re) param ps =
      if endsInBackslash v = true then extractParamsLoop re (param ++ v ++ paramSeparator) ps
      else extractParamsLoop re [] (ps ++ [param ++ v]) := by
  simp only [safeSegment, Bool.and_eq_true, Bool.not_eq_true', List.isEmpty_eq_false,
    Bool.or_eq_true, decide_eq_true_eq] at hv
  obtain ⟨hne, hesc⟩ := hv
  obtain ⟨last, hlast⟩ : ∃ last, v.getLast? = some last := by
    cases hg : v.getLast? with
    | none => exact absurd (List.getLast?_eq_none_iff.mp hg) hne
    | some c => exact ⟨c, rfl⟩
  rw [extractParamsLoop, charAt_last v hne, hlast]
  by_cases hb : endsInBackslash v = true
  · have h2 : 2 ≤ v.length := by
      rcases hesc with hesc | hesc
      · rw [hb] at hesc; exact absurd hesc (by decide)
      · exact hesc
    obtain ⟨prev, hprev⟩ := charAt_before_last v h2
    have hl : last = Char.ofNat 92 := by
      simpa [endsInBackslash, hlast] using hb
    have hcmp : [prev] ≠ backslash2 := by simp [backslash2]
    simp only [hl, backslash1, if_true, hprev, hcmp, ne_eq, not_false_eq_true, hb]
  · have hl : ¬ ([last] = backslash1) := by
      intro e
      apply hb
      simp only [backslash1, List.cons.injEq, and_true] at e
      simp [endsInBackslash, hlast, e]
    simp only [hl, if_false, hb]
    rfl

theorem extractParamsLoop_none_iff : ∀ (segs : List Str) (param : Str) (ps : List Str),
    extractParamsLoop segs param ps = none ↔ ∃ v ∈ segs, safeSegment v = false
  | [], param, ps => by simp [extractParamsLoop]
  | v :: re, param, ps => by
    by_cases hv : safeSegment v = true
    · rw [extractParamsLoop_cons_safe v re param ps hv]
      have hrest : (∃ w ∈ v :: re, safeSegment w = false) ↔ ∃ w ∈ re, safeSegment w = false := by
        constructor
        · rintro ⟨w, hw, hs⟩
          rcases List.mem_cons.mp hw with rfl | hw
          · rw [hv] at hs; cases hs
          · exact ⟨w, hw, hs⟩
        · rintro ⟨w, hw, hs⟩
          exact ⟨w, List.mem_cons_of_mem _ hw, hs⟩
      rw [hrest]
      split
      · exact extractParamsLoop_none_iff re _ ps
      · exact extractParamsLoop_none_iff re [] _
    · have hf : safeSegment v = false := by simpa using hv
      rw [extractParamsLoop_panics v re param ps hf]
      simp only [true_iff]
      exact ⟨v, List.mem_cons_self _ _, hf⟩

theorem Index_nonneg_of_mem (c : Char) (s : Str) (h : c ∈ s) : ¬ (Index s [c] < 0) := by
  obtain ⟨pre, rest, hs, hpre⟩ := List.eq_append_cons_of_mem h
  rw [hs, Index_single_append c pre rest hpre]
  omega

set_option maxRecDepth 100000 in
theorem getFieldValidators_between_open :
    getFieldValidators Ext.sample initRegistry (Value.int IntKind.Int 7)
      (taggedField "Age" "between(5,)") none = Outcome.panic := by
  rfl

/-- C37: `extractParams` panics exactly when the body holds a comma and one of its
comma-separated segments is empty or is the one character backslash; on every other body
it returns.  The bodies `5,`, `,5` and `a,,b` panic, and so does the parser on the tag
`between(5,)`. -/
theorem extractParams_panics_iff (s : Str) :
    (extractParams s = none ↔
      (Char.ofNat 44 ∈ s ∧
        ∃ seg ∈ Split s paramSeparator, seg = [] ∨ seg = [Char.ofNat 92])) ∧
    extractParams "5,".toList = none ∧ extractParams ",5".toList = none ∧
    extractParams "a,,b".toList = none ∧
    getFieldValidators Ext.sample initRegistry (Value.int IntKind.Int 7)
      (taggedField "Age" "between(5,)") none = Outcome.panic := by
  refine ⟨?_, by decide, by decide, by decide, getFieldValidators_between_open⟩
  by_cases hc : Char.ofNat 44 ∈ s
  · have hi := Index_nonneg_of_mem (Char.ofNat 44) s hc
    unfold extractParams
    rw [show paramSeparator = [Char.ofNat 44] from rfl, if_neg hi, extractParamsLoop_none_iff]
    simp only [hc, true_and, safeSegment_false_iff]
  · rw [extractParams_no_comma s hc]
    simp [hc]

/-! ## Joining the parameters -/

theorem Split_decompose (c : Char) : ∀ s : Str,
    ∃ segs : List Str, segs ≠ [] ∧ (∀ seg ∈ segs, c ∉ seg) ∧ s = List.intercalate [c] segs
  | [] => ⟨[[]], by simp, by simp, rfl⟩
  | x :: xs => by
    obtain ⟨segs, hne, hno, hs⟩ := Split_decompose c xs
    obtain ⟨h, t, rfl⟩ := List.exists_cons_of_ne_nil hne
    by_cases hx : x = c
    · subst hx
      refine ⟨[] :: h :: t, by simp, ?_, ?_⟩
      · intro seg hseg
        rcases List.mem_cons.mp hseg with rfl | hseg
        · simp
        · exact hno seg hseg
      · rw [intercalate_cons_cons, hs]
        rfl
    · refine ⟨(x :: h) :: t, by simp, ?_, ?_⟩
      · intro seg hseg
        rcases List.mem_cons.mp hseg with rfl | hseg
        · have := hno h (List.mem_cons_self _ _)
          simp only [List.mem_cons, not_or]
          exact ⟨fun e => hx e.symm, this⟩
        · exact hno seg (List.mem_cons_of_mem _ hseg)
      · rw [hs]
        cases t with
        | nil => simp [List.intercalate]
        | cons t1 t2 => rw [intercalate_cons_cons, intercalate_cons_cons]; rfl

theorem intercalate_Split (c : Char) (s : Str) :
    List.intercalate [c] (Split s [c]) = s ∧ ∀ seg ∈ Split s [c], c ∉ seg := by
  obtain ⟨segs, hne, hno, hs⟩ := Split_decompose c s
  have := Split_intercalate c segs hne hno
  rw [← hs] at this
  rw [this]
  exact ⟨hs.symm, hno⟩

theorem rdropWhile_cons (p : Str → Bool) (v : Str) (re : List Str) :
    List.rdropWhile p (v :: re) =
      if List.rdropWhile p re = [] then (if p v = true then [] else [v])
      else v :: List.rdropWhile p re := by
  induction re using List.reverseRecOn generalizing v with
  | nil =>
    have h := List.rdropWhile_concat p [] v
    simp only [List.nil_append] at h
    rw [h]
    simp [List.rdropWhile]
  | append_singleton l x ih =>
    rw [← List.cons_append, List.rdropWhile_concat, List.rdropWhile_concat]
    by_cases hx : p x = true
    · rw [if_pos hx, if_pos hx]
      exact ih v
    · rw [if_neg hx, if_neg hx, if_neg (by simp)]
      rfl

theorem foldEscaped_join : ∀ (segs : List Str) (param : Str),
    (List.rdropWhile endsInBackslash segs = [] → foldEscaped segs param = []) ∧
    (List.rdropWhile endsInBackslash segs ≠ [] →
      foldEscaped segs param ≠ [] ∧
      List.intercalate paramSeparator (foldEscaped segs param) =
        param ++ List.intercalate paramSeparator (List.rdropWhile endsInBackslash segs))
  | [], param => by simp [foldEscaped, List.rdropWhile]
  | v :: re, param => by
    have ih := foldEscaped_join re
    rw [rdropWhile_cons]
    by_cases hk : List.rdropWhile endsInBackslash re = []
    · rw [if_pos hk]
      by_cases hb : endsInBackslash v = true
      · rw [if_pos hb]
        simp only [foldEscaped, hb, if_true, ne_eq, not_true_eq_false, false_implies, and_true,
          true_implies]
        exact (ih _).1 hk
      · rw [if_neg hb]
        simp only [foldEscaped, hb, Bool.false_eq_true, if_false, (ih []).1 hk, ne_eq,
          List.cons_ne_nil, not_false_eq_true, false_implies, true_implies, true_and]
        simp [List.intercalate]
    · rw [if_neg hk]
      refine ⟨fun h => absurd h (by simp), fun _ => ?_⟩
      by_cases hb : endsInBackslash v = true
      · obtain ⟨h1, h2⟩ := (ih (param ++ v ++ paramSeparator)).2 hk
        simp only [foldEscaped, hb, if_true]
        refine ⟨h1, ?_⟩
        rw [h2]
        obtain ⟨k1, k2, hk2⟩ := List.exists_cons_of_ne_nil hk
        rw [hk2]
        show _ = param ++ List.intercalate [Char.ofNat 44] (v :: k1 :: k2)
        rw [intercalate_cons_cons]
        simp [paramSeparator]
      · obtain ⟨h1, h2⟩ := (ih []).2 hk
        simp only [foldEscaped, hb, Bool.false_eq_true, if_false, ne_eq, List.cons_ne_nil,
          not_false_eq_true, true_and]
        obtain ⟨f1, f2, hf⟩ := List.exists_cons_of_ne_nil h1
        obtain ⟨k1, k2, hk2⟩ := List.exists_cons_of_ne_nil hk
        rw [hf] at h2 ⊢
        rw [hk2] at h2 ⊢
        show List.intercalate [Char.ofNat 44] ((param ++ v) :: f1 :: f2) =
          param ++ List.intercalate [Char.ofNat 44] (v :: k1 :: k2)
        rw [intercalate_cons_cons, intercalate_cons_cons]
        have h3 : List.intercalate [Char.ofNat 44] (f1 :: f2) =
            List.intercalate [Char.ofNat 44] (k1 :: k2) := by simpa using h2
        rw [h3]
        simp

/-- C38: when `extractParams` returns on a body without comma, the result is the body
itself; on a body with a comma, the parameters joined with a comma are the segments of the
body without its trailing segments that end in a backslash, joined with a comma.  So the
join gives the body back when the last segment does not end in a backslash (the escaping
backslashes are kept), and it does not when the last segment ends in a backslash: what
was collected for the trailing parameter is dropped. -/
theorem extractParams_join (s : Str) (ps : List Str) (h : extractParams s = some ps) :
    (Char.ofNat 44 ∉ s → ps = [s]) ∧
    (Char.ofNat 44 ∈ s →
      List.intercalate paramSeparator ps =
        List.intercalate paramSeparator
          (List.rdropWhile endsInBackslash (Split s paramSeparator))) ∧
    ((Char.ofNat 44 ∉ s ∨
        ∀ last, (Split s paramSeparator).getLast? = some last → endsInBackslash last = false) →
      List.intercalate paramSeparator ps = s) ∧
    (Char.ofNat 44 ∈ s →
      (∃ last, (Split s paramSeparator).getLast? = some last ∧ endsInBackslash last = true) →
      List.intercalate paramSeparator ps ≠ s) := by
  obtain ⟨hjoin, hno⟩ := intercalate_Split (Char.ofNat 44) s
  have hnocomma : Char.ofNat 44 ∉ s → ps = [s] := by
    intro hc
    rw [extractParams_no_comma s hc] at h
    exact (Option.some.inj h).symm
  have hcomma : Char.ofNat 44 ∈ s →
      List.intercalate paramSeparator ps =
        List.intercalate paramSeparator
          (List.rdropWhile endsInBackslash (Split s paramSeparator)) := by
    intro hc
    have hi := Index_nonneg_of_mem (Char.ofNat 44) s hc
    have hloop : extractParamsLoop (Split s paramSeparator) [] [] = some ps := by
      unfold extractParams at h
      rw [show paramSeparator = [Char.ofNat 44] from rfl, if_neg hi] at h
      exact h
    have hsafe : ∀ v ∈ Split s paramSeparator, safeSegment v = true := by
      intro v hv
      by_contra hf
      have hf2 : safeSegment v = false := by simpa using hf
      have := (extractParamsLoop_none_iff (Split s paramSeparator) [] []).mpr ⟨v, hv, hf2⟩
      rw [this] at hloop
      cases hloop
    rw [extractParamsLoop_safe _ _ _ hsafe] at hloop
    have hps : ps = foldEscaped (Split s paramSeparator) [] := by
      simpa using (Option.some.inj hloop).symm
    have hf := foldEscaped_join (Split s paramSeparator) []
    by_cases hk : List.rdropWhile endsInBackslash (Split s paramSeparator) = []
    · rw [hps, hf.1 hk, hk]
    · rw [hps, (hf.2 hk).2]
      rfl
  refine ⟨hnocomma, hcomma, ?_, ?_⟩
  · rintro (hc | hlast)
    · rw [hnocomma hc]
      simp [List.intercalate]
    · by_cases hc : Char.ofNat 44 ∈ s
      · rw [hcomma hc]
        have hself : List.rdropWhile endsInBackslash (Split s paramSeparator) =
            Split s paramSeparator := by
          rw [List.rdropWhile_eq_self_iff]
          intro hl
          have := hlast _ (List.getLast?_eq_getLast _ hl)
          simp [this]
        rw [hself]
        exact hjoin
      · rw [hnocomma hc]
        simp [List.intercalate]
  · rintro hc ⟨last, hl, hesc⟩ heq
    rw [hcomma hc] at heq
    have hpre := List.rdropWhile_prefix endsInBackslash (Split s paramSeparator)
    have hne : List.rdropWhile endsInBackslash (Split s paramSeparator) ≠
        Split s paramSeparator := by
      intro hself
      rw [List.rdropWhile_eq_self_iff] at hself
      have hnn : Split s paramSeparator ≠ [] := by
        intro hnil
        rw [hnil] at hl
        cases hl
      have h1 := hself hnn
      have h2 : (Split s paramSeparator).getLast hnn = last := by
        have := List.getLast?_eq_getLast _ hnn
        rw [hl] at this
        exact (Option.some.inj this).symm
      rw [h2] at h1
      exact h1 hesc
    by_cases hk : List.rdropWhile endsInBackslash (Split s paramSeparator) = []
    · rw [hk] at heq
      have : s = [] := heq.symm
      rw [this] at hc
      cases hc
    · have hno2 : ∀ seg ∈ List.rdropWhile endsInBackslash (Split s paramSeparator),
          Char.ofNat 44 ∉ seg := fun seg hseg => hno seg (hpre.subset hseg)
      have hsp := Split_intercalate (Char.ofNat 44) _ hk hno2
      rw [show [Char.ofNat 44] = paramSeparator from rfl, heq] at hsp
      exact hne hsp.symm

/-- C38 on the body `a\,b,c` (the first comma is escaped) and on the body `a,b\`. -/
theorem extractParams_join_witness :
    List.intercalate paramSeparator
        ["a".toList ++ [Char.ofNat 92] ++ ",b".toList, "c".toList] =
      "a".toList ++ [Char.ofNat 92] ++ ",b,c".toList ∧
    List.intercalate paramSeparator ["a".toList] ≠ "a,b".toList ++ [Char.ofNat 92] :=
  ⟨(extractParams_join ("a".toList ++ [Char.ofNat 92] ++ ",b,c".toList)
      ["a".toList ++ [Char.ofNat 92] ++ ",b".toList, "c".toList] (by decide)).2.2.1
      (Or.inr (by decide)),
    (extractParams_join ("a,b".toList ++ [Char.ofNat 92]) ["a".toList] (by decide)).2.2.2
      (by decide) ⟨"b".toList ++ [Char.ofNat 92], by decide, by decide⟩⟩

/-! ## An equals sign in an element -/

theorem extractFieldName_first_equals (before after : List Str) (pre rest : Str)
    (hbefore : ∀ e ∈ before, isSetting e = false) (hpre : pre ≠ [])
    (heq : Char.ofNat 61 ∉ pre) :
    extractFieldName (before ++ (pre ++ settingsToken ++ rest) :: after) =
      if pre = "name".toList then (before ++ after, rest, none)
      else (before ++ after, [], some (pre ++ " is not a valid validation option".toList)) := by
  have hidx : Index (pre ++ settingsToken ++ rest) settingsToken = (pre.length : Int) := by
    rw [List.append_assoc]
    exact Index_single_append (Char.ofNat 61) pre rest heq
  have hpos : Index (pre ++ settingsToken ++ rest) settingsToken > 0 := by
    rw [hidx]
    have := List.length_pos.mpr hpre
    omega
  have htake : (pre ++ settingsToken ++ rest).take pre.length = pre := by
    rw [List.append_assoc, List.take_left]
  have hdrop : (pre ++ settingsToken ++ rest).drop (pre.length + 1) = rest := by
    have : (pre ++ settingsToken).length = pre.length + 1 := by simp [settingsToken]
    rw [← this, List.drop_left]
  unfold extractFieldName
  rw [extractFieldNameLoop_skip_before before [] _ hbefore, extractFieldNameLoop]
  dsimp only
  rw [if_pos hpos, hidx]
  simp only [Int.toNat_ofNat, htake, hdrop, List.nil_append]

/-- C36: the first element of a tag that holds `=` after its first character is taken as
a setting, wherever the `=` stands in it: the element is taken out of the directives,
and when the text before its first `=` is not `name`, `getFieldValidators` fails with the
error that this text is not a valid validation option. -/
theorem getFieldValidators_equals_in_element (E : Ext) (reg : Registry) (v : Value)
    (t : StructField) (customFieldTags : Option (List (Str × Str)))
    (before after : List Str) (pre rest : Str)
    (hsplit : Split (fieldTag t customFieldTags) validatorSeparator =
      before ++ (pre ++ settingsToken ++ rest) :: after)
    (hbefore : ∀ e ∈ before, isSetting e = false) (hpre : pre ≠ [])
    (heq : Char.ofNat 61 ∉ pre) :
    (extractFieldName (Split (fieldTag t customFieldTags) validatorSeparator)).1 =
      before ++ after ∧
    (pre ≠ "name".toList →
      getFieldValidators E reg v t customFieldTags =
        Outcome.error (pre ++ " is not a valid validation option".toList)) := by
  have hx := extractFieldName_first_equals before after pre rest hbefore hpre heq
  constructor
  · rw [hsplit, hx]
    split <;> rfl
  · intro hname
    rw [getFieldValidators_eq, hsplit, hx, if_neg hname]
    simp

/-- C36 on the tags `matches(a=b)` and `email->x=y` of a field `Name`: both are rejected. -/
theorem getFieldValidators_equals_in_element_witness :
    getFieldValidators Ext.sample initRegistry (Value.string []) (sampleField "matches(a=b)")
        none = Outcome.error ("matches(a".toList ++ " is not a valid validation option".toList) ∧
    getFieldValidators Ext.sample initRegistry (Value.string []) (sampleField "email->x=y")
        none = Outcome.error ("email->x".toList ++ " is not a valid validation option".toList) :=
  ⟨(getFieldValidators_equals_in_element Ext.sample initRegistry (Value.string [])
      (sampleField "matches(a=b)") none [] [] "matches(a".toList "b)".toList
      (by decide) (by decide) (by decide) (by decide)).2 (by decide),
    (getFieldValidators_equals_in_element Ext.sample initRegistry (Value.string [])
      (sampleField "email->x=y") none [] [] "email->x".toList "y".toList
      (by decide) (by decide) (by decide) (by decide)).2 (by decide)⟩

/-! ## The text of an error bag -/

theorem intercalate_cons_flatten (sep x : Str) : ∀ xs : List Str,
    List.intercalate sep (x :: xs) = x ++ (xs.map (fun y => sep ++ y)).flatten
  | [] => by simp [List.intercalate]
  | y :: ys => by
    have ih := intercalate_cons_flatten sep y ys
    have h : List.intercalate sep (x :: y :: ys) = x ++ sep ++ List.intercalate sep (y :: ys) := by
      simp [List.intercalate, List.intersperse]
    rw [h, ih]
    simp

theorem stringErrors_step (e : Error) (rest : List Error) (res : Str) :
    ErrorBag.stringErrors (e :: rest) res =
      ErrorBag.stringErrors rest
        ((if res.length > 0 then res ++ "; ".toList else res) ++ e.rendered) := by
  rw [ErrorBag.stringErrors]
  congr 1
  unfold Error.rendered Error.errorString
  by_cases hf : e.Field = []
  · by_cases hn : e.Name = []
    · simp [hf, hn]
    · have : ¬ e.Name.length = 0 := fun h => hn (List.length_eq_zero.mp h)
      simp [hf, hn, this]
  · by_cases hn : e.Name = []
    · simp [hf, hn]
    · have : ¬ e.Name.length = 0 := fun h => hn (List.length_eq_zero.mp h)
      simp [hf, hn, this]

theorem stringErrors_nonempty : ∀ (errs : List Error) (res : Str), res ≠ [] →
    ErrorBag.stringErrors errs res =
      res ++ (errs.map (fun e => "; ".toList ++ e.rendered)).flatten
  | [], res, _ => by simp [ErrorBag.stringErrors]
  | e :: rest, res, h => by
    have hl : res.length > 0 := List.length_pos.mpr h
    rw [stringErrors_step, if_pos hl, stringErrors_nonempty rest _ (by simp [h])]
    simp

theorem stringErrors_empty : ∀ errs : List Error,
    ErrorBag.stringErrors errs [] =
      List.intercalate "; ".toList ((errs.map Error.rendered).dropWhile (fun x => x == []))
  | [] => rfl
  | e :: rest => by
    rw [stringErrors_step]
    simp only [List.length_nil, gt_iff_lt, lt_self_iff_false, if_false, List.nil_append,
      List.map_cons]
    by_cases he : e.rendered = []
    · rw [he, stringErrors_empty rest]
      simp [List.dropWhile]
    · have hb : (e.rendered == []) = false := by simpa using he
      rw [stringErrors_nonempty rest _ he, List.dropWhile_cons_of_neg (by simp [hb]),
        intercalate_cons_flatten, List.map_map]
      rfl

/-- C31, amended: for a bag whose errors all stand under one key, `String()` is the
rendered texts of the errors, in the order they were added and without the empty texts
that come before the first text that is not empty, joined by `; `; so it is all the texts
joined by `; ` when none is empty, for instance when the key is not empty.  The text of
an error is `Name: message`, or the message alone when the name is empty, with `[] ` (the
bracketed field name) before it exactly when the field is empty. -/
theorem String_single_key (k : Str) (errs : List Error) :
    ErrorBag.String [(k, errs)] =
      List.intercalate "; ".toList
        ((errs.map Error.rendered).dropWhile (fun x => x == [])) ∧
    ((∀ e ∈ errs, e.rendered ≠ []) →
      ErrorBag.String [(k, errs)] = List.intercalate "; ".toList (errs.map Error.rendered)) ∧
    (k ≠ [] → (∀ e ∈ errs, e.Name = k) → ∀ e ∈ errs, e.rendered ≠ []) := by
  have h1 : ErrorBag.String [(k, errs)] =
      List.intercalate "; ".toList
        ((errs.map Error.rendered).dropWhile (fun x => x == [])) := by
    show ErrorBag.stringErrors errs [] = _
    exact stringErrors_empty errs
  refine ⟨h1, fun hne => ?_, fun hk hn e he => ?_⟩
  · rw [h1]
    congr 1
    cases hm : errs.map Error.rendered with
    | nil => rfl
    | cons x xs =>
      have hx : x ≠ [] := by
        have hmem : x ∈ errs.map Error.rendered := by rw [hm]; exact List.mem_cons_self _ _
        obtain ⟨e, he, rfl⟩ := List.mem_map.mp hmem
        exact hne e he
      exact List.dropWhile_cons_of_neg (by simpa using hx)
  · have hname : e.Name ≠ [] := by rw [hn e he]; exact hk
    unfold Error.rendered
    rw [if_neg hname]
    intro h
    have := congrArg List.length h
    simp at this

/-- C31, amended, on a bag with two errors under the key `email`, the first without
field. -/
theorem String_single_key_witness :
    ErrorBag.String ((NewErrorBag.Add "email".toList "is required".toList []).Add
        "email".toList "is not valid".toList "Email".toList) =
      "[] email: is required; email: is not valid".toList :=
  ((String_single_key "email".toList
    [{ Name := "email".toList, Field := [], Err := "is required".toList },
     { Name := "email".toList, Field := "Email".toList, Err := "is not valid".toList }]).2.1
    (by decide)).trans (by decide)

/-- Counterexample to C31 as stated: two errors added under the empty key, the first with
a field and an empty message.  Joined by `; ` the texts give
`; Code must only contain letters`; `String()` gives the second text alone, since the
separator is written only into a buffer that is not empty. -/
theorem String_empty_text_counterexample :
    ErrorBag.String ((NewErrorBag.Add [] [] "Code".toList).Add []
        "Code must only contain letters".toList "Code".toList) =
      "Code must only contain letters".toList ∧
    List.intercalate "; ".toList
        ([({ Name := [], Field := "Code".toList, Err := [] } : Error),
          { Name := [], Field := "Code".toList,
            Err := "Code must only contain letters".toList }].map Error.rendered) =
      "; Code must only contain letters".toList := by
  constructor <;> decide

/-! ## `ToSnake` -/

theorem dropWhile_of_all_false {α : Type} (p : α → Bool) :
    ∀ l : List α, (∀ c ∈ l, p c = false) → l.dropWhile p = l
  | [], _ => rfl
  | c :: cs, h => by
    have hc := h c (List.mem_cons_self _ _)
    exact List.dropWhile_cons_of_neg (by simp [hc])

theorem trim_of_no_space (x : Str) (h : Char.ofNat 32 ∉ x) : Strings.trim x = x := by
  have hp : ∀ c ∈ x, (c == Char.ofNat 32) = false := by
    intro c hc
    exact beq_eq_false_iff_ne.mpr (fun e => h (e ▸ hc))
  have hr : ∀ c ∈ x.reverse, (c == Char.ofNat 32) = false :=
    fun c hc => hp c (List.mem_reverse.mp hc)
  unfold Strings.trim
  rw [dropWhile_of_all_false _ x hp, dropWhile_of_all_false _ _ hr, List.reverse_reverse]

theorem findWordsLoop_append_word : ∀ (w rest cur : Str),
    (∀ c ∈ w, Strings.isWordChar c = true) →
    Strings.findWordsLoop (w ++ rest) cur = Strings.findWordsLoop rest (cur ++ w)
  | [], rest, cur, _ => by simp
  | c :: cs, rest, cur, h => by
    have hc := h c (List.mem_cons_self _ _)
    rw [List.cons_append, Strings.findWordsLoop, if_pos hc,
      findWordsLoop_append_word cs rest _ (fun d hd => h d (List.mem_cons_of_mem _ hd))]
    simp

theorem findWordsLoop_space (rest cur : Str) (hcur : cur ≠ []) :
    Strings.findWordsLoop (Char.ofNat 32 :: rest) cur = cur :: Strings.findWordsLoop rest [] := by
  have h : ¬ (Strings.isWordChar (Char.ofNat 32) = true) := by decide
  rw [Strings.findWordsLoop, if_neg h, if_neg hcur]

theorem findWordsLoop_words (P : Char → Prop) : ∀ (s cur : Str),
    (∀ c ∈ cur, P c) → (∀ c ∈ s, Strings.isWordChar c = true → P c) →
    ∀ w ∈ Strings.findWordsLoop s cur, w ≠ [] ∧ ∀ c ∈ w, P c
  | [], cur, hcur, _ => by
    intro w hw
    rw [Strings.findWordsLoop] at hw
    by_cases hc : cur = []
    · rw [if_pos hc] at hw
      cases hw
    · rw [if_neg hc, List.mem_singleton] at hw
      subst hw
      exact ⟨hc, hcur⟩
  | c :: cs, cur, hcur, hs => by
    intro w hw
    have hs2 : ∀ d ∈ cs, Strings.isWordChar d = true → P d :=
      fun d hd => hs d (List.mem_cons_of_mem _ hd)
    rw [Strings.findWordsLoop] at hw
    by_cases hc : Strings.isWordChar c = true
    · rw [if_pos hc] at hw
      refine findWordsLoop_words P cs (cur ++ [c]) ?_ hs2 w hw
      intro d hd
      rcases List.mem_append.mp hd with hd | hd
      · exact hcur d hd
      · rw [List.mem_singleton] at hd
        subst hd
        exact hs d (List.mem_cons_self _ _) hc
    · rw [if_neg hc] at hw
      by_cases he : cur = []
      · rw [if_pos he] at hw
        exact findWordsLoop_words P cs [] (by simp) hs2 w hw
      · rw [if_neg he] at hw
        rcases List.mem_cons.mp hw with rfl | hw
        · exact ⟨he, hcur⟩
        · exact findWordsLoop_words P cs [] (by simp) hs2 w hw

theorem prepared_no_underscore (y : Str) :
    ∀ c ∈ Strings.spaceBeforeCapitals (Strings.replaceDashUnderscore y), c ≠ Char.ofNat 95 := by
  intro c hc
  unfold Strings.spaceBeforeCapitals Strings.replaceDashUnderscore at hc
  rw [List.mem_flatMap] at hc
  obtain ⟨d, hd, hcd⟩ := hc
  have hd2 : d ≠ Char.ofNat 95 := by
    obtain ⟨e, _, rfl⟩ := List.mem_map.mp hd
    split
    · decide
    · rename_i hne
      exact fun h => hne (Or.inr h)
  split at hcd
  · rcases List.mem_cons.mp hcd with rfl | hcd
    · decide
    · rw [List.mem_singleton] at hcd
      rw [hcd]
      exact hd2
  · rw [List.mem_singleton] at hcd
    rw [hcd]
    exact hd2

theorem split_words (s : Str) :
    ∀ w ∈ Strings.split s, w ≠ [] ∧
      ∀ c ∈ w, Strings.isWordChar c = true ∧ c ≠ Char.ofNat 95 :=
  findWordsLoop_words (fun c => Strings.isWordChar c = true ∧ c ≠ Char.ofNat 95) _ []
    (by simp) (fun c hc hw => ⟨hw, prepared_no_underscore _ c hc⟩)

set_option maxRecDepth 100000 in
theorem asciiLower_table : ∀ n, n < 128 →
    (Strings.isWordChar (Char.ofNat n) = true → n ≠ 95 →
      Strings.isLowerAlnum (Strings.asciiLower (Char.ofNat n)) = true) ∧
    (Strings.isLowerAlnum (Char.ofNat n) = true →
      Strings.asciiLower (Char.ofNat n) = Char.ofNat n ∧
      Strings.isWordChar (Char.ofNat n) = true ∧ n ≠ 32 ∧ n ≠ 45 ∧ n ≠ 95 ∧
      ¬ (65 ≤ n ∧ n ≤ 90)) := by
  decide

theorem toNat_lt_of_isWordChar (c : Char) (h : Strings.isWordChar c = true) : c.toNat < 128 := by
  simp only [Strings.isWordChar, Bool.or_eq_true, Bool.and_eq_true, decide_eq_true_eq,
    beq_iff_eq] at h
  omega

theorem toNat_lt_of_isLowerAlnum (c : Char) (h : Strings.isLowerAlnum c = true) :
    c.toNat < 128 := by
  simp only [Strings.isLowerAlnum, Bool.or_eq_true, Bool.and_eq_true, decide_eq_true_eq] at h
  omega

theorem word_char_facts (c : Char) (h : Strings.isWordChar c = true)
    (hu : c ≠ Char.ofNat 95) :
    c.toNat < 128 ∧ Strings.isLowerAlnum (Strings.asciiLower c) = true := by
  have hlt := toNat_lt_of_isWordChar c h
  have hn : c.toNat ≠ 95 := by
    intro e
    apply hu
    rw [← Char.ofNat_toNat c, e]
  have ht := (asciiLower_table c.toNat hlt).1
  rw [Char.ofNat_toNat] at ht
  exact ⟨hlt, ht h hn⟩

theorem lower_char_facts (c : Char) (h : Strings.isLowerAlnum c = true) :
    c.toNat < 128 ∧ Strings.asciiLower c = c ∧ Strings.isWordChar c = true ∧
      c ≠ Char.ofNat 32 ∧ c ≠ Char.ofNat 45 ∧ c ≠ Char.ofNat 95 ∧
      ¬ (65 ≤ c.toNat ∧ c.toNat ≤ 90) := by
  have hlt := toNat_lt_of_isLowerAlnum c h
  have ht := (asciiLower_table c.toNat hlt).2
  rw [Char.ofNat_toNat] at ht
  obtain ⟨h1, h2, h3, h4, h5, h6⟩ := ht h
  refine ⟨hlt, h1, h2, ?_, ?_, ?_, h6⟩
  · intro e
    apply h3
    rw [e]
    decide
  · intro e
    apply h4
    rw [e]
    decide
  · intro e
    apply h5
    rw [e]
    decide

/-! The words of a snake-case string -/

theorem replaceDashUnderscore_word (w : Str)
    (h : ∀ c ∈ w, c ≠ Char.ofNat 45 ∧ c ≠ Char.ofNat 95) :
    Strings.replaceDashUnderscore w = w := by
  unfold Strings.replaceDashUnderscore
  conv_rhs => rw [← List.map_id w]
  apply List.map_congr_left
  intro c hc
  have := h c hc
  rw [if_neg (by simp [this.1, this.2])]
  rfl

theorem replaceDashUnderscore_snake : ∀ W : List Str,
    (∀ w ∈ W, ∀ c ∈ w, c ≠ Char.ofNat 45 ∧ c ≠ Char.ofNat 95) →
    Strings.replaceDashUnderscore (List.intercalate [Char.ofNat 95] W) =
      List.intercalate [Char.ofNat 32] W
  | [], _ => rfl
  | [w], h => by
    have := replaceDashUnderscore_word w (h w (List.mem_cons_self _ _))
    simpa [List.intercalate] using this
  | w :: w2 :: r, h => by
    have hw := replaceDashUnderscore_word w (h w (List.mem_cons_self _ _))
    have ih := replaceDashUnderscore_snake (w2 :: r)
      (fun x hx => h x (List.mem_cons_of_mem _ hx))
    rw [intercalate_cons_cons, intercalate_cons_cons]
    unfold Strings.replaceDashUnderscore at hw ih ⊢
    rw [List.map_append, List.map_cons, hw, ih]
    simp

theorem spaceBeforeCapitals_none : ∀ x : Str, (∀ c ∈ x, ¬ (65 ≤ c.toNat ∧ c.toNat ≤ 90)) →
    Strings.spaceBeforeCapitals x = x
  | [], _ => rfl
  | c :: cs, h => by
    have hc := h c (List.mem_cons_self _ _)
    have ih := spaceBeforeCapitals_none cs (fun d hd => h d (List.mem_cons_of_mem _ hd))
    unfold Strings.spaceBeforeCapitals at ih ⊢
    rw [List.flatMap_cons, if_neg hc, ih]
    rfl

theorem mem_intercalate_single (sep : Char) : ∀ (W : List Str) (c : Char),
    c ∈ List.intercalate [sep] W → c = sep ∨ ∃ w ∈ W, c ∈ w
  | [], c, h => by simp [List.intercalate] at h
  | [w], c, h => by
    have : c ∈ w := by simpa [List.intercalate] using h
    exact Or.inr ⟨w, List.mem_cons_self _ _, this⟩
  | w :: w2 :: r, c, h => by
    rw [intercalate_cons_cons] at h
    rcases List.mem_append.mp h with h | h
    · exact Or.inr ⟨w, List.mem_cons_self _ _, h⟩
    · rcases List.mem_cons.mp h with h | h
      · exact Or.inl h
      · rcases mem_intercalate_single sep (w2 :: r) c h with h | ⟨x, hx, hc⟩
        · exact Or.inl h
        · exact Or.inr ⟨x, List.mem_cons_of_mem _ hx, hc⟩

theorem findWordsLoop_spaced : ∀ W : List Str,
    (∀ w ∈ W, w ≠ [] ∧ ∀ c ∈ w, Strings.isWordChar c = true) →
    Strings.findWordsLoop (List.intercalate [Char.ofNat 32] W) [] = W
  | [], _ => rfl
  | [w], h => by
    obtain ⟨hne, hw⟩ := h w (List.mem_cons_self _ _)
    have e : List.intercalate [Char.ofNat 32] [w] = w ++ [] := by simp [List.intercalate]
    rw [e, findWordsLoop_append_word w [] [] hw, Strings.findWordsLoop, List.nil_append,
      if_neg hne]
  | w :: w2 :: r, h => by
    obtain ⟨hne, hw⟩ := h w (List.mem_cons_self _ _)
    rw [intercalate_cons_cons, findWordsLoop_append_word w _ [] hw, List.nil_append,
      findWordsLoop_space _ w hne,
      findWordsLoop_spaced (w2 :: r) (fun x hx => h x (List.mem_cons_of_mem _ hx))]

theorem split_snake (W : List Str)
    (h : ∀ w ∈ W, w ≠ [] ∧ ∀ c ∈ w, Strings.isLowerAlnum c = true) :
    Strings.split (List.intercalate [Char.ofNat 95] W) = W := by
  have hnospace : Char.ofNat 32 ∉ List.intercalate [Char.ofNat 95] W := by
    intro hm
    rcases mem_intercalate_single _ W _ hm with e | ⟨w, hw, hc⟩
    · exact absurd e (by decide)
    · exact (lower_char_facts _ ((h w hw).2 _ hc)).2.2.2.1 rfl
  have hrep := replaceDashUnderscore_snake W (fun w hw c hc =>
    ⟨(lower_char_facts c ((h w hw).2 c hc)).2.2.2.2.1,
      (lower_char_facts c ((h w hw).2 c hc)).2.2.2.2.2.1⟩)
  have hcap : ∀ c ∈ List.intercalate [Char.ofNat 32] W, ¬ (65 ≤ c.toNat ∧ c.toNat ≤ 90) := by
    intro c hm
    rcases mem_intercalate_single _ W _ hm with e | ⟨w, hw, hc⟩
    · rw [e]
      decide
    · exact (lower_char_facts c ((h w hw).2 c hc)).2.2.2.2.2.2
  unfold Strings.split
  rw [trim_of_no_space _ hnospace, hrep, spaceBeforeCapitals_none _ hcap]
  exact findWordsLoop_spaced W (fun w hw =>
    ⟨(h w hw).1, fun c hc => (lower_char_facts c ((h w hw).2 c hc)).2.2.1⟩)

theorem ToLower_word (toLowerRune : Char → Char)
    (hlower : ∀ c : Char, c.toNat < 128 → toLowerRune c = Strings.asciiLower c) (w : Str)
    (hw : ∀ c ∈ w, Strings.isWordChar c = true ∧ c ≠ Char.ofNat 95) :
    Strings.ToLower toLowerRune w = w.map Strings.asciiLower := by
  have hns : Char.ofNat 32 ∉ w := by
    intro hm
    exact absurd (hw _ hm).1 (by decide)
  unfold Strings.ToLower
  rw [trim_of_no_space w hns]
  apply List.map_congr_left
  intro c hc
  exact hlower c (toNat_lt_of_isWordChar c (hw c hc).1)

/-- C34: the words of `split` are not empty and hold ASCII letters and digits only, the
result of `ToSnake` is these words in lower case joined by `_`, and `ToSnake` applied to
its result gives the result again.  `toLowerRune` is the mapping of `strings.ToLower`,
of which only its values on the ASCII characters are used. -/
theorem ToSnake_idempotent (toLowerRune : Char → Char)
    (hlower : ∀ c : Char, c.toNat < 128 → toLowerRune c = Strings.asciiLower c) (s : Str) :
    Strings.ToSnake toLowerRune (Strings.ToSnake toLowerRune s) =
      Strings.ToSnake toLowerRune s ∧
    Strings.ToSnake toLowerRune s =
      List.intercalate "_".toList ((Strings.split s).map (fun w => w.map Strings.asciiLower)) ∧
    (∀ w ∈ Strings.split s, w ≠ [] ∧
      ∀ c ∈ w, Strings.isWordChar c = true ∧ c ≠ Char.ofNat 95) := by
  have hwords := split_words s
  have hmap : (Strings.split s).map (Strings.ToLower toLowerRune) =
      (Strings.split s).map (fun w => w.map Strings.asciiLower) :=
    List.map_congr_left (fun w hw => ToLower_word toLowerRune hlower w (hwords w hw).2)
  have hsnake : Strings.ToSnake toLowerRune s =
      List.intercalate "_".toList
        ((Strings.split s).map (fun w => w.map Strings.asciiLower)) := by
    unfold Strings.ToSnake
    rw [hmap]
  have hW : ∀ w ∈ (Strings.split s).map (fun w => w.map Strings.asciiLower),
      w ≠ [] ∧ ∀ c ∈ w, Strings.isLowerAlnum c = true := by
    intro w hw
    obtain ⟨w0, hw0, rfl⟩ := List.mem_map.mp hw
    refine ⟨by simpa using (hwords w0 hw0).1, fun c hc => ?_⟩
    obtain ⟨c0, hc0, rfl⟩ := List.mem_map.mp hc
    exact (word_char_facts c0 ((hwords w0 hw0).2 c0 hc0).1 ((hwords w0 hw0).2 c0 hc0).2).2
  refine ⟨?_, hsnake, hwords⟩
  rw [hsnake]
  unfold Strings.ToSnake
  rw [show "_".toList = [Char.ofNat 95] from rfl, split_snake _ hW]
  congr 1
  conv_rhs => rw [← List.map_id ((Strings.split s).map (fun w => w.map Strings.asciiLower))]
  apply List.map_congr_left
  intro w hw
  have hw2 : ∀ c ∈ w, Strings.isWordChar c = true ∧ c ≠ Char.ofNat 95 := fun c hc =>
    ⟨(lower_char_facts c ((hW w hw).2 c hc)).2.2.1,
      (lower_char_facts c ((hW w hw).2 c hc)).2.2.2.2.2.1⟩
  rw [ToLower_word toLowerRune hlower w hw2]
  conv_rhs => rw [id, ← List.map_id w]
  apply List.map_congr_left
  intro c hc
  exact (lower_char_facts c ((hW w hw).2 c hc)).2.1

/-- C34 on the cases of `TestToSnake`, with the lower-casing of ASCII for
`strings.ToLower`. -/
theorem ToSnake_idempotent_witness :
    Strings.ToSnake Strings.asciiLower (Strings.ToSnake Strings.asciiLower "sampleText".toList) =
      Strings.ToSnake Strings.asciiLower "sampleText".toList ∧
    Strings.ToSnake Strings.asciiLower "sample_text".toList = "sample_text".toList ∧
    Strings.ToSnake Strings.asciiLower "sample text".toList = "sample_text".toList ∧
    Strings.ToSnake Strings.asciiLower "sample-text".toList = "sample_text".toList ∧
    Strings.ToSnake Strings.asciiLower "sampleText".toList = "sample_text".toList ∧
    Strings.ToSnake Strings.asciiLower "sample 2 Text".toList = "sample_2_text".toList :=
  ⟨(ToSnake_idempotent Strings.asciiLower (fun _ _ => rfl) "sampleText".toList).1,
    by decide, by decide, by decide, by decide, by decide⟩

/-! ## Conversions between integers and floats -/

theorem float64OfNat_exact (n : Nat) (h : n < 2 ^ 53) : float64OfNat n = n := by
  have hd : droppedBits n = 0 := by
    unfold droppedBits
    have : (List.range 12).find? (fun e => decide (n / 2 ^ e < 2 ^ 53)) = some 0 := by
      rw [show List.range 12 = 0 :: (List.range 12).tail from rfl, List.find?_cons]
      have h0 : decide (n / 2 ^ 0 < 2 ^ 53) = true := by
        rw [pow_zero, Nat.div_one]
        exact decide_eq_true h
      rw [h0]
    rw [this]
    rfl
  unfold float64OfNat
  simp only [hd, pow_zero, Nat.mod_one, Nat.div_one, Nat.mul_zero, Nat.mul_one]
  rw [if_neg (by omega)]

theorem float64OfNat_rounds :
    float64OfNat (2 ^ 53 + 1) = 2 ^ 53 ∧ float64OfNat (2 ^ 53 + 3) = 2 ^ 53 + 4 ∧
    float64OfNat (2 ^ 64 - 1) = 2 ^ 64 := by
  decide

theorem truncate_intCast (i : Int) : truncate (i : Rat) = i := by
  unfold truncate
  split <;> simp

theorem int64OfFloat_in_range : int64OfFloat (7 / 2) = 3 ∧ int64OfFloat (-7 / 2) = -3 := by
  have h1 : truncate (7 / 2 : Rat) = 3 := by
    unfold truncate
    rw [if_pos (by norm_num), Int.floor_eq_iff]
    norm_num
  have h2 : truncate (-7 / 2 : Rat) = -3 := by
    unfold truncate
    rw [if_neg (by norm_num), Int.ceil_eq_iff]
    norm_num
  unfold int64OfFloat
  rw [h1, h2]
  constructor <;> decide

theorem int64OfFloat_out_of_range :
    int64OfFloat (((2 : Int) ^ 63 : Int) : Rat) = -2 ^ 63 ∧
    int64OfFloat ((-(2 : Int) ^ 64 : Int) : Rat) = -2 ^ 63 := by
  unfold int64OfFloat
  rw [truncate_intCast, truncate_intCast]
  constructor <;> decide

end Genesis
